import Mathlib

/-!
# Recommendation engine (`src/services/recommendation.js`)

A shallow embedding of the `RecommendationEngine` class.

* Numbers come in two models. The exact model takes them in a linearly ordered field `α`, the
  decimal literals of the source being the corresponding fractions (`0.7 = 7/10`, `0.5 = 1/2`,
  ...); it carries the properties of structure: which items are returned, in which order, by
  which formula. The double model takes them in `ℚ` and passes the result of every arithmetic
  operation and every decimal literal through `roundDouble`, the rounding to the nearest number
  with a significand of 53 bits, ties to even, and takes `sqrtDouble` for `Math.sqrt`; it
  carries the properties that name an exact value or a bound of a computed number
  (`namespace Rounded`).
* The double model keeps the precision of IEEE 754 binary64 and leaves its exponent range
  unbounded: no overflow to `Infinity`, no gradual underflow, no `NaN`, one zero. A weight built
  by `processInteractions` is a sum of the numbers 1, 3, 5, -5 and 1/2, which doubles add
  without rounding below `2 ^ 52`, so the matrix is the same in both models.
* In the exact model `Math.sqrt` is a parameter `sqrt : α → α` of every function that reaches
  `calculateUserSimilarity`; theorems that need a property of the square root assume it.
* A JavaScript object used as a dictionary is a `Dict`: the list of its own properties.
  Functions do not require the keys to be duplicate-free; `Dict.set` keeps them so.
* Thrown errors are values of `EngineError`; a method that can throw returns an `Except`.
* The Firestore collections read by `initialize` are the three fields of a `Store`.
* Ids are ordinary strings: none is the name of a property inherited from `Object.prototype`, so
  a property read finds own properties only. `Object.keys` lists integer-like keys first; the
  embedding keeps insertion order, which no result depends on in exact arithmetic and which is
  the order of `Object.keys` for ids that are not integer-like.
* The `count` of a query is a natural number.
-/

namespace Recommendation

set_option linter.unusedSectionVars false

/-! ## Dictionaries -/

/-- A string-keyed JavaScript object: its own properties. -/
abbrev Dict (β : Type) := List (String × β)

namespace Dict

/-- Property read `d[k]`; `none` is `undefined`. -/
def get {β : Type} : Dict β → String → Option β
  | [], _ => none
  | (k', v) :: rest, k => if k' = k then some v else get rest k

/-- Property write `d[k] = v`: an existing property is overwritten in place, a new one is added
last. -/
def set {β : Type} : Dict β → String → β → Dict β
  | [], k, v => [(k, v)]
  | (k', v') :: rest, k, v => if k' = k then (k', v) :: rest else (k', v') :: set rest k v

/-- The list `Object.keys(d)`. -/
def keys {β : Type} (d : Dict β) : List String := d.map Prod.fst

end Dict

/-! ## Data model -/

/-- A document of the `content` collection, with the fields the engine reads. A missing field is
`none`. -/
structure ContentItem (α : Type) where
  id : String
  genres : Option (List String)
  year : Option α
  type : Option String
  popularity : Option α
  rating : Option α
deriving DecidableEq, Repr

/-- The `preferences` field of a profile. -/
structure Preferences where
  genres : Option (List String)
deriving DecidableEq, Repr

/-- A document of the `profiles` collection. -/
structure Profile where
  id : String
  preferences : Option Preferences
deriving DecidableEq, Repr

/-- A document of the `interactions` collection. -/
structure Interaction where
  profileId : String
  contentId : String
  type : String
deriving DecidableEq, Repr

/-- An entry of `contentFeatures`. -/
structure ContentFeatures (α : Type) where
  genres : Dict α
  year : α
  type : α
  popularity : α
  rating : α
deriving DecidableEq, Repr

/-- An entry `{ id, similarity }` of the list built by `findSimilarUsers`. -/
structure SimilarUser (α : Type) where
  id : String
  similarity : α
deriving DecidableEq, Repr

/-- An entry `{ ...item, score }` of a result list. -/
structure ScoredItem (α : Type) where
  item : ContentItem α
  score : α
deriving DecidableEq, Repr

/-- The errors a method of the engine can throw: a failed read of the store, the `Error` of a
query for an unknown id (with its message), and the `TypeError` of reading a property of
`undefined`. -/
inductive EngineError where
  | fetchFailed (message : String)
  | notFound (message : String)
  | typeError
deriving DecidableEq, Repr

/-- The three collections as `getDocs` returns them at one call of `initialize`; `.error` is a
rejected read. -/
structure Store (α : Type) where
  content : Except String (List (ContentItem α))
  profiles : Except String (List Profile)
  interactions : Except String (List Interaction)

/-- The fields of the `RecommendationEngine` instance. `model` is `true` once `initializeModel`
has stored its predictor (which no method calls). -/
structure Engine (α : Type) where
  contentItems : List (ContentItem α)
  userProfiles : List Profile
  interactionMatrix : Dict (Dict α)
  contentFeatures : Dict (ContentFeatures α)
  initialized : Bool
  model : Bool

/-- The state set up by the constructor. -/
def Engine.new (α : Type) : Engine α :=
  { contentItems := [], userProfiles := [], interactionMatrix := [], contentFeatures := [],
    initialized := false, model := false }

section Defs

variable {α : Type} [LinearOrderedField α]

/-- The expression `x || d` for an optional number `x`: `d` when `x` is missing or `0`. -/
def orDefault (x : Option α) (d : α) : α :=
  match x with
  | some v => if v = 0 then d else v
  | none => d

/-- Run `f` over a list, stopping at the first error (`Array.prototype.map` with a callback that
may throw). -/
def mapExcept {ε β γ : Type} (f : β → Except ε γ) : List β → Except ε (List γ)
  | [] => .ok []
  | b :: bs =>
    match f b with
    | .error e => .error e
    | .ok c =>
      match mapExcept f bs with
      | .error e => .error e
      | .ok cs => .ok (c :: cs)

/-- A stable sort by descending key: `Array.prototype.sort` with the comparator
`(a, b) => key(b) - key(a)`. -/
def sortDesc {β : Type} (key : β → α) (l : List β) : List β :=
  l.insertionSort (fun a b => key b ≤ key a)

/-! ## `processInteractions` -/

/-- The weight of an interaction type (the `switch` of `processInteractions`). -/
def interactionWeight (type : String) : α :=
  if type = "view" then 1
  else if type = "complete" then 3
  else if type = "like" then 5
  else if type = "dislike" then -5
  else 1 / 2

/-- The row of zeros built by the inner `forEach` of the matrix initialisation. -/
def emptyRow (items : List (ContentItem α)) : Dict α :=
  items.foldl (fun row item => Dict.set row item.id 0) []

/-- The matrix built by the outer `forEach` of the matrix initialisation. -/
def emptyMatrix (profiles : List Profile) (items : List (ContentItem α)) : Dict (Dict α) :=
  profiles.foldl (fun m profile => Dict.set m profile.id (emptyRow items)) []

/-- One step of the `interactions.forEach` loop. The cell read by `+=` exists whenever the guard
lets the interaction pass, so the `none` branch of the inner match is never taken on a matrix
built from the same catalog. -/
def addInteraction (items : List (ContentItem α)) (m : Dict (Dict α)) (i : Interaction) :
    Dict (Dict α) :=
  match Dict.get m i.profileId with
  | none => m
  | some row =>
    if (items.find? (fun item => item.id = i.contentId)).isNone then m
    else
      match Dict.get row i.contentId with
      | none => m
      | some w =>
        Dict.set m i.profileId (Dict.set row i.contentId (w + interactionWeight i.type))

/-- The method `processInteractions(interactions)`. -/
def processInteractions (e : Engine α) (interactions : List Interaction) : Engine α :=
  let matrix := interactions.foldl (addInteraction e.contentItems)
    (emptyMatrix e.userProfiles e.contentItems)
  { e with interactionMatrix := matrix }

/-! ## `generateContentFeatures` -/

/-- The array `Array.from(new Set(l))`: the distinct entries of `l` in order of first
occurrence. -/
def distinct (l : List String) : List String :=
  l.foldl (fun seen g => if g ∈ seen then seen else seen ++ [g]) []

/-- The method `normalizeGenres(genres)`. -/
def normalizeGenres (e : Engine α) (genres : List String) : Dict α :=
  let allGenres := distinct (e.contentItems.flatMap (fun item => item.genres.getD []))
  allGenres.foldl
    (fun genreVector genre => Dict.set genreVector genre (if genre ∈ genres then 1 else 0)) []

/-- The object literal `features` built for one item by `generateContentFeatures`. -/
def featuresOf (e : Engine α) (item : ContentItem α) : ContentFeatures α :=
  { genres := normalizeGenres e (item.genres.getD [])
    year :=
      match item.year with
      | some y => if y = 0 then 1 / 2 else (y - 1950) / 75
      | none => 1 / 2
    type := if item.type = some "series" then 1 else 0
    popularity := orDefault item.popularity (1 / 2)
    rating :=
      match item.rating with
      | some r => if r = 0 then 1 / 2 else r / 10
      | none => 1 / 2 }

/-- The method `generateContentFeatures()`. -/
def generateContentFeatures (e : Engine α) : Engine α :=
  let features :=
    e.contentItems.foldl (fun table item => Dict.set table item.id (featuresOf e item)) []
  { e with contentFeatures := features }

/-- The method `initializeModel()`: it stores the predictor and cannot fail. -/
def initializeModel (e : Engine α) : Engine α :=
  { e with model := true }

/-! ## `initialize` -/

/-- The method `initialize()` (a reserved word here, hence the name). The result is the engine
after the call, with `.ok ()` when the call returns and the rethrown error when a read of the
store is rejected; the fields assigned before a rejected read keep their new value. -/
def initializeEngine (store : Store α) (e : Engine α) : Engine α × Except EngineError Unit :=
  if e.initialized then (e, .ok ())
  else
    match store.content with
    | .error message => (e, .error (.fetchFailed message))
    | .ok contentItems =>
      let e1 := { e with contentItems := contentItems }
      match store.profiles with
      | .error message => (e1, .error (.fetchFailed message))
      | .ok userProfiles =>
        let e2 := { e1 with userProfiles := userProfiles }
        match store.interactions with
        | .error message => (e2, .error (.fetchFailed message))
        | .ok interactions =>
          let e3 := processInteractions e2 interactions
          let e4 := generateContentFeatures e3
          let e5 := initializeModel e4
          ({ e5 with initialized := true }, .ok ())

/-- The opening statement of both query methods,
`if (!this.initialized) await this.initialize()`. -/
def ensureInitialized (store : Store α) (e : Engine α) : Engine α × Except EngineError Unit :=
  if e.initialized then (e, .ok ()) else initializeEngine store e

/-! ## Collaborative filtering -/

/-- The method `calculateUserSimilarity(user1, user2)`. The first loop accumulates
`(dotProduct, norm1)` over the properties of `user1`, the second `norm2` over those of
`user2`. -/
def calculateUserSimilarity (sqrt : α → α) (user1 user2 : Dict α) : α :=
  let acc := user1.foldl (fun (acc : α × α) (entry : String × α) =>
    let dotProduct :=
      match Dict.get user2 entry.1 with
      | some w => if w = 0 then acc.1 else acc.1 + entry.2 * w
      | none => acc.1
    (dotProduct, acc.2 + entry.2 * entry.2)) (0, 0)
  let dotProduct := acc.1
  let norm1 := acc.2
  let norm2 := user2.foldl (fun (norm2 : α) (entry : String × α) => norm2 + entry.2 * entry.2) 0
  let normProduct := sqrt norm1 * sqrt norm2
  if normProduct > 0 then dotProduct / normProduct else 0

/-- The callback of the `map` step of `findSimilarUsers`. Reading the row of a profile that has
none gives `undefined`, on which `calculateUserSimilarity` throws a `TypeError`. -/
def similarityTo (sqrt : α → α) (e : Engine α) (targetUser : Dict α) (profile : Profile) :
    Except EngineError (SimilarUser α) :=
  match Dict.get e.interactionMatrix profile.id with
  | none => .error .typeError
  | some otherUser =>
    .ok { id := profile.id, similarity := calculateUserSimilarity sqrt targetUser otherUser }

/-- The method `findSimilarUsers(profileId)`. -/
def findSimilarUsers (sqrt : α → α) (e : Engine α) (profileId : String) :
    Except EngineError (List (SimilarUser α)) :=
  match Dict.get e.interactionMatrix profileId with
  | none => .ok []
  | some targetUser =>
    match mapExcept (similarityTo sqrt e targetUser)
        (e.userProfiles.filter (fun profile => profile.id ≠ profileId)) with
    | .error err => .error err
    | .ok similarities =>
      .ok (sortDesc SimilarUser.similarity (similarities.filter (fun s => s.similarity > 0)))

/-- The method `getCollaborativeScore(profileId, contentId)`. The loop accumulates
`(score, totalSimilarity)`. -/
def getCollaborativeScore (sqrt : α → α) (e : Engine α) (profileId contentId : String) :
    Except EngineError α :=
  match findSimilarUsers sqrt e profileId with
  | .error err => .error err
  | .ok userSimilarities =>
    let acc := userSimilarities.foldl (fun (acc : α × α) (s : SimilarUser α) =>
      let userInteraction :=
        orDefault ((Dict.get e.interactionMatrix s.id).bind (fun row => Dict.get row contentId)) 0
      (acc.1 + userInteraction * s.similarity, acc.2 + s.similarity)) (0, 0)
    .ok (if acc.2 > 0 then acc.1 / acc.2 else 0)

/-! ## Content-based filtering -/

/-- The method `getContentBasedScore(profile, content)`. -/
def getContentBasedScore (profile : Profile) (content : ContentItem α) : α :=
  let userGenres := (profile.preferences.bind (fun prefs => prefs.genres)).getD []
  let contentGenres := content.genres.getD []
  let genreMatches := (contentGenres.filter (fun genre => genre ∈ userGenres)).length
  let genreScore : α :=
    if contentGenres.length > 0 then (genreMatches : α) / (contentGenres.length : α) else 0
  let yearScore : α :=
    match content.year with
    | some year => if year = 0 then 1 / 2 else min ((year - 2000) / 25) 1
    | none => 1 / 2
  let popularityScore := orDefault content.popularity (1 / 2)
  genreScore * (6 / 10) + yearScore * (1 / 10) + popularityScore * (3 / 10)

/-! ## `getPersonalizedRecommendations` -/

/-- The list `watchHistory`: the keys of the profile's row whose value is positive. -/
def watchHistory (e : Engine α) (profileId : String) : List String :=
  (((Dict.get e.interactionMatrix profileId).getD []).filter (fun entry => entry.2 > 0)).map
    Prod.fst

/-- The callback of the `map` step: the item with its hybrid score. -/
def scoreItem (sqrt : α → α) (e : Engine α) (profileId : String) (profile : Profile)
    (item : ContentItem α) : Except EngineError (ScoredItem α) :=
  match getCollaborativeScore sqrt e profileId item.id with
  | .error err => .error err
  | .ok collaborativeScore =>
    let contentScore := getContentBasedScore profile item
    let hybridScore := collaborativeScore * (7 / 10) + contentScore * (3 / 10)
    .ok { item := item, score := hybridScore }

/-- The method `getPersonalizedRecommendations(profileId, count)`, for a count that is a natural
number. The result is the engine after the call with the returned list, or the thrown error. -/
def getPersonalizedRecommendations (sqrt : α → α) (store : Store α) (e : Engine α)
    (profileId : String) (count : Nat) : Engine α × Except EngineError (List (ScoredItem α)) :=
  match ensureInitialized store e with
  | (e, .error err) => (e, .error err)
  | (e, .ok ()) =>
    match e.userProfiles.find? (fun p => p.id = profileId) with
    | none => (e, .error (.notFound ("Profile with ID " ++ profileId ++ " not found")))
    | some profile =>
      let candidates := e.contentItems.filter (fun item => item.id ∉ watchHistory e profileId)
      match mapExcept (scoreItem sqrt e profileId profile) candidates with
      | .error err => (e, .error err)
      | .ok scored => (e, .ok ((sortDesc ScoredItem.score scored).take count))

/-! ## `getSimilarContent` -/

/-- The method `calculateContentSimilarity(content1, content2)`. -/
def calculateContentSimilarity (content1 content2 : ContentItem α) : α :=
  let genres1 := content1.genres.getD []
  let genres2 := content2.genres.getD []
  let genreIntersection := (genres1.filter (fun genre => genre ∈ genres2)).length
  let genreUnion := (distinct (genres1 ++ genres2)).length
  let genreSimilarity : α :=
    if genreUnion > 0 then (genreIntersection : α) / (genreUnion : α) else 0
  let yearDiff : α :=
    match content1.year, content2.year with
    | some year1, some year2 => if year1 = 0 ∨ year2 = 0 then 1 / 2 else |year1 - year2| / 50
    | _, _ => 1 / 2
  let yearSimilarity := 1 - min yearDiff 1
  let typeSimilarity : α := if content1.type = content2.type then 1 else 0
  genreSimilarity * (6 / 10) + yearSimilarity * (3 / 10) + typeSimilarity * (1 / 10)

/-- The method `getSimilarContent(contentId, count)`, for a count that is a natural number. The
result is the engine after the call with the returned list, or the thrown error. -/
def getSimilarContent (store : Store α) (e : Engine α) (contentId : String) (count : Nat) :
    Engine α × Except EngineError (List (ScoredItem α)) :=
  match ensureInitialized store e with
  | (e, .error err) => (e, .error err)
  | (e, .ok ()) =>
    match e.contentItems.find? (fun item => item.id = contentId) with
    | none => (e, .error (.notFound ("Content with ID " ++ contentId ++ " not found")))
    | some baseContent =>
      let scored := (e.contentItems.filter (fun item => item.id ≠ contentId)).map
        (fun item => { item := item, score := calculateContentSimilarity baseContent item })
      (e, .ok ((sortDesc ScoredItem.score scored).take count))

end Defs

/-! ## Reading the matrix (used to state the properties) -/

section Statements

variable {α : Type} [LinearOrderedField α]

/-- The value of `d[k]` as a number, `0` when the property is missing. -/
def Dict.val (d : Dict α) (k : String) : α := (Dict.get d k).getD 0

/-- The sum, over the content ids `c` of `keys`, of `u[c] * v[c]`: the dot product of two rows,
and with `v = u` the sum of the squares of a row. -/
def dotOver (keys : List String) (u v : Dict α) : α :=
  (keys.map (fun c => Dict.val u c * Dict.val v c)).sum

/-- The accumulated weight of a (profile, content) pair: the cell of the interaction matrix, `0`
when there is none. -/
def weight (e : Engine α) (profileId contentId : String) : α :=
  Dict.val ((Dict.get e.interactionMatrix profileId).getD []) contentId

/-- The interaction matrix of `e` is the one `processInteractions` builds from the catalogs of
`e` and some interaction log. -/
def Built (e : Engine α) : Prop :=
  ∃ interactions : List Interaction,
    e.interactionMatrix = (processInteractions e interactions).interactionMatrix

/-- Every catalog profile has a row, and the keys of every row are pairwise distinct. -/
def MatrixOK (profiles : List Profile) (m : Dict (Dict α)) : Prop :=
  (∀ p ∈ profiles, (Dict.get m p.id).isSome) ∧
    ∀ k row, Dict.get m k = some row → (Dict.keys row).Nodup

/-- The cell `matrix[profileId][contentId]`; `none` when the row or the cell is missing. -/
def cell (m : Dict (Dict α)) (profileId contentId : String) : Option α :=
  (Dict.get m profileId).bind (fun row => Dict.get row contentId)

/-- The sum of the weights of the interactions of `log` on the pair
(`profileId`, `contentId`). -/
def logWeight (log : List Interaction) (profileId contentId : String) : α :=
  ((log.filter (fun i => i.profileId = profileId ∧ i.contentId = contentId)).map
    (fun i => interactionWeight i.type)).sum

/-- The interaction names a catalog profile and a catalog content item. -/
def knownInteraction (e : Engine α) (i : Interaction) : Bool :=
  e.userProfiles.any (fun p => p.id = i.profileId) &&
    e.contentItems.any (fun item => item.id = i.contentId)

/-- The genre score in the words of the specification: the number of entries of the content's
genre list that occur in the profile's preference list, divided by the length of the content's
genre list, and `0` when the content has no genres. -/
def genreScore (profile : Profile) (content : ContentItem α) : α :=
  match content.genres.getD [] with
  | [] => 0
  | g :: gs =>
    (((g :: gs).countP
        (fun genre => genre ∈ (profile.preferences.bind (fun prefs => prefs.genres)).getD []) :
          Nat) : α) / (((g :: gs).length : Nat) : α)

/-- The Jaccard similarity of the genre sets in the words of the specification: the size of the
intersection of the two genre sets divided by the size of their union, `0` when both are
empty. -/
def genreJaccard (content1 content2 : ContentItem α) : α :=
  if ((content1.genres.getD []).toFinset ∪ (content2.genres.getD []).toFinset).card = 0 then 0
  else
    ((((content1.genres.getD []).toFinset ∩ (content2.genres.getD []).toFinset).card : Nat) : α) /
      ((((content1.genres.getD []).toFinset ∪ (content2.genres.getD []).toFinset).card : Nat) : α)

/-- The type term in the words of the specification: `1` if the two types are equal, else `0`. -/
def typeMatch (content1 content2 : ContentItem α) : α :=
  if content1.type = content2.type then 1 else 0

/-- The value of the local `yearDiff` of `calculateContentSimilarity`. -/
def yearDiff (content1 content2 : ContentItem α) : α :=
  match content1.year, content2.year with
  | some year1, some year2 => if year1 = 0 ∨ year2 = 0 then 1 / 2 else |year1 - year2| / 50
  | _, _ => 1 / 2

/-- The set of genres observed in a catalog. -/
def genreUniverse (items : List (ContentItem α)) (g : String) : Prop :=
  ∃ item ∈ items, g ∈ item.genres.getD []

end Statements

/-! ## A small snapshot (used to instantiate the theorems) -/

section Demo

variable (α : Type) [LinearOrderedField α]

/-- Four items; `B` and `D` differ only in their id. -/
def demoItems : List (ContentItem α) :=
  [ { id := "A", genres := some ["action"], year := some 2020, type := some "movie",
      popularity := some (4 / 5), rating := none },
    { id := "B", genres := some ["action"], year := some 2021, type := some "movie",
      popularity := some (3 / 5), rating := none },
    { id := "C", genres := some ["action", "drama"], year := some 2010, type := some "series",
      popularity := none, rating := none },
    { id := "D", genres := some ["action"], year := some 2021, type := some "movie",
      popularity := some (3 / 5), rating := none } ]

/-- Four profiles, `p3` listed before `p2`. -/
def demoProfiles : List Profile :=
  [ { id := "p1", preferences := some { genres := some ["action"] } },
    { id := "p3", preferences := none },
    { id := "p2", preferences := none },
    { id := "p4", preferences := none } ]

/-- An interaction log; the last two entries name an unknown profile and an unknown item. -/
def demoLog : List Interaction :=
  [ ⟨"p1", "A", "view"⟩, ⟨"p3", "A", "view"⟩, ⟨"p2", "A", "view"⟩, ⟨"p4", "A", "complete"⟩,
    ⟨"p4", "C", "view"⟩, ⟨"p4", "C", "complete"⟩, ⟨"ghost", "A", "like"⟩, ⟨"p1", "Z", "like"⟩ ]

/-- A store whose three reads succeed. -/
def demoStore : Store α := ⟨.ok (demoItems α), .ok demoProfiles, .ok demoLog⟩

/-- The engine after its first query on `demoStore`. -/
def demoEngine : Engine α := (ensureInitialized (demoStore α) (Engine.new α)).1

/-- The similar users of `p1` in `demoEngine`. -/
def demoSimilar : List (SimilarUser α) :=
  [⟨"p3", 1⟩, ⟨"p2", 1⟩, ⟨"p4", 3 / 5⟩]

/-- The recommendations for `p1` in `demoEngine`. -/
def demoRecommended : List (ScoredItem α) :=
  [ { item := { id := "C", genres := some ["action", "drama"], year := some 2010,
                type := some "series", popularity := none, rating := none },
      score := 10311 / 13000 },
    { item := { id := "B", genres := some ["action"], year := some 2021, type := some "movie",
                popularity := some (3 / 5), rating := none },
      score := 162 / 625 },
    { item := { id := "D", genres := some ["action"], year := some 2021, type := some "movie",
                popularity := some (3 / 5), rating := none },
      score := 162 / 625 } ]

/-- The row of `p1` in `demoEngine`. -/
def demoRow1 : Dict α := [("A", 1), ("B", 0), ("C", 0), ("D", 0)]

/-- The row of `p4` in `demoEngine`. -/
def demoRow4 : Dict α := [("A", 3), ("B", 0), ("C", 4), ("D", 0)]

/-- A row over the keys `A` and `B`. -/
def demoRowAB : Dict α := [("A", 1), ("B", 2)]

/-- A row over the keys `B` and `C`. -/
def demoRowBC : Dict α := [("B", 3), ("C", -5)]

/-- The item `B` of `demoItems`, released in 2021. -/
def demoItemRecent : ContentItem α :=
  { id := "B", genres := some ["action"], year := some 2021, type := some "movie",
    popularity := some (3 / 5), rating := none }

/-- An item released in 1990. -/
def demoItemOld : ContentItem α :=
  { id := "E", genres := some ["action"], year := some 1990, type := some "movie",
    popularity := some (4 / 5), rating := none }

/-- An item whose popularity is present and equal to 0. -/
def demoItemUnpopular : ContentItem α :=
  { id := "F", genres := some ["action"], year := some 2025, type := some "movie",
    popularity := some 0, rating := none }

/-- The profile `p1` of `demoProfiles`. -/
def demoProfile1 : Profile := { id := "p1", preferences := some { genres := some ["action"] } }

/-- The items similar to `A` in `demoEngine`. -/
def demoSimilarContent : List (ScoredItem α) :=
  [ { item := { id := "B", genres := some ["action"], year := some 2021, type := some "movie",
                popularity := some (3 / 5), rating := none },
      score := 497 / 500 },
    { item := { id := "D", genres := some ["action"], year := some 2021, type := some "movie",
                popularity := some (3 / 5), rating := none },
      score := 497 / 500 },
    { item := { id := "C", genres := some ["action", "drama"], year := some 2010,
                type := some "series", popularity := none, rating := none },
      score := 27 / 50 } ]

/-- The item `C` of `demoItems`, a series of 2010. -/
def demoItemSeries : ContentItem α :=
  { id := "C", genres := some ["action", "drama"], year := some 2010, type := some "series",
    popularity := none, rating := none }

/-- An item whose year is present and equal to 0. -/
def demoItemYearZero : ContentItem α :=
  { id := "G", genres := some ["action"], year := some 0, type := some "movie",
    popularity := some (3 / 5), rating := none }

/-- An item released in 2000. -/
def demoItemMillennium : ContentItem α :=
  { id := "H", genres := some ["action"], year := some 2000, type := some "movie",
    popularity := some (3 / 5), rating := none }

/-- An item of 2021 whose genre list names `action` twice. -/
def demoItemRepeated : ContentItem α :=
  { id := "I", genres := some ["action", "action"], year := some 2021, type := some "movie",
    popularity := some (3 / 5), rating := none }

/-- Two items for the snapshot with a dislike. -/
def dislikeItems : List (ContentItem α) :=
  [ { id := "A", genres := some ["action"], year := some 2020, type := some "movie",
      popularity := some (4 / 5), rating := none },
    { id := "B", genres := some ["drama"], year := some 2021, type := some "movie",
      popularity := some (3 / 5), rating := none } ]

/-- Two profiles for the snapshot with a dislike. -/
def dislikeProfiles : List Profile :=
  [ { id := "p1", preferences := none }, { id := "p2", preferences := none } ]

/-- The profile `p1` likes `A`, the profile `p2` dislikes it. -/
def dislikeLog : List Interaction := [⟨"p1", "A", "like"⟩, ⟨"p2", "A", "dislike"⟩]

/-- A store whose log holds a dislike. -/
def dislikeStore : Store α := ⟨.ok (dislikeItems α), .ok dislikeProfiles, .ok dislikeLog⟩

/-- The engine after its first query on `dislikeStore`. -/
def dislikeEngine : Engine α := (ensureInitialized (dislikeStore α) (Engine.new α)).1

/-- The row of `p1` in `dislikeEngine`. -/
def dislikeRow1 : Dict α := [("A", 5), ("B", 0)]

/-- The row of `p2` in `dislikeEngine`. -/
def dislikeRow2 : Dict α := [("A", -5), ("B", 0)]

end Demo

/-! ## Double-precision arithmetic -/

section Doubles

/-- Rounding to the nearest integer, a tie going to the even neighbour. -/
def roundHalfEven (q : ℚ) : ℤ :=
  let f := ⌊q⌋
  if q - f < 1 / 2 then f
  else if 1 / 2 < q - f then f + 1
  else if f % 2 = 0 then f else f + 1

/-- The index of the leading bit of `n`, found in at most `fuel` halvings. -/
def leadingBit : ℕ → ℕ → ℕ
  | 0, _ => 0
  | fuel + 1, n => if n < 2 then 0 else leadingBit fuel (n / 2) + 1

/-- The binary exponent of a non-zero rational: the `e` with `2 ^ e ≤ |x| < 2 ^ (e + 1)`
(`binade_spec`). -/
def binade (x : ℚ) : ℤ :=
  let e : ℤ := (leadingBit x.num.natAbs x.num.natAbs : ℤ) - (leadingBit x.den x.den : ℤ)
  if (2 : ℚ) ^ e ≤ |x| then e else e - 1

/-- The double nearest to `x`: `x` rounded to a significand of 53 bits, a tie going to the even
significand (the rounding of every arithmetic operation on JavaScript numbers). -/
def roundDouble (x : ℚ) : ℚ :=
  if x = 0 then 0
  else (roundHalfEven (x / 2 ^ (binade x - 52)) : ℚ) * 2 ^ (binade x - 52)

/-- The integer square root by bisection: with `r * r ≤ n < (r + 2 ^ b) * (r + 2 ^ b)` the
result `s` has `s * s ≤ n < (s + 1) * (s + 1)` (`sqrtBits_spec`). -/
def sqrtBits (n : ℕ) : ℕ → ℕ → ℕ
  | 0, r => r
  | b + 1, r =>
    if (r + 2 ^ b) * (r + 2 ^ b) ≤ n then sqrtBits n b (r + 2 ^ b) else sqrtBits n b r

/-- The function `Math.sqrt` on doubles: the double nearest to the square root of `x`. The
argument is scaled by a power of 4 into `[2 ^ 104, 2 ^ 106)`, where the doubles of the range of
the root are the integers from `2 ^ 52` to `2 ^ 53`. A number that is not positive gives 0
(`Math.sqrt` gives `NaN` below 0, which fails the test `normProduct > 0` as 0 does). -/
def sqrtDouble (x : ℚ) : ℚ :=
  if x ≤ 0 then 0
  else
    let k : ℤ := 52 - binade x / 2
    let y : ℚ := x * 2 ^ (2 * k)
    let n : ℕ := sqrtBits ⌊y⌋₊ 53 0
    let m : ℕ := if ((n : ℚ) + 1 / 2) * ((n : ℚ) + 1 / 2) < y then n + 1 else n
    (m : ℚ) / 2 ^ k

end Doubles

/-! ## The methods with rounded arithmetic

The three methods whose results depend on rounding, with the result of every arithmetic
operation and every decimal literal passed through a rounding `fl`. With `fl` the identity they
are the definitions of the exact model; with `roundDouble` and `sqrtDouble` they compute what the
source computes on doubles. -/

namespace Rounded

variable {α : Type} [LinearOrderedField α]

/-- The method `calculateUserSimilarity(user1, user2)`. -/
def calculateUserSimilarity (fl sqrt : α → α) (user1 user2 : Dict α) : α :=
  let acc := user1.foldl (fun (acc : α × α) (entry : String × α) =>
    let dotProduct :=
      match Dict.get user2 entry.1 with
      | some w => if w = 0 then acc.1 else fl (acc.1 + fl (entry.2 * w))
      | none => acc.1
    (dotProduct, fl (acc.2 + fl (entry.2 * entry.2)))) (0, 0)
  let dotProduct := acc.1
  let norm1 := acc.2
  let norm2 := user2.foldl
    (fun (norm2 : α) (entry : String × α) => fl (norm2 + fl (entry.2 * entry.2))) 0
  let normProduct := fl (sqrt norm1 * sqrt norm2)
  if normProduct > 0 then fl (dotProduct / normProduct) else 0

/-- The callback of the `map` step of `findSimilarUsers`. -/
def similarityTo (fl sqrt : α → α) (e : Engine α) (targetUser : Dict α) (profile : Profile) :
    Except EngineError (SimilarUser α) :=
  match Dict.get e.interactionMatrix profile.id with
  | none => .error .typeError
  | some otherUser =>
    .ok { id := profile.id, similarity := calculateUserSimilarity fl sqrt targetUser otherUser }

/-- The method `findSimilarUsers(profileId)`. -/
def findSimilarUsers (fl sqrt : α → α) (e : Engine α) (profileId : String) :
    Except EngineError (List (SimilarUser α)) :=
  match Dict.get e.interactionMatrix profileId with
  | none => .ok []
  | some targetUser =>
    match mapExcept (similarityTo fl sqrt e targetUser)
        (e.userProfiles.filter (fun profile => profile.id ≠ profileId)) with
    | .error err => .error err
    | .ok similarities =>
      .ok (sortDesc SimilarUser.similarity (similarities.filter (fun s => s.similarity > 0)))

/-- The method `getCollaborativeScore(profileId, contentId)`. -/
def getCollaborativeScore (fl sqrt : α → α) (e : Engine α) (profileId contentId : String) :
    Except EngineError α :=
  match findSimilarUsers fl sqrt e profileId with
  | .error err => .error err
  | .ok userSimilarities =>
    let acc := userSimilarities.foldl (fun (acc : α × α) (s : SimilarUser α) =>
      let userInteraction :=
        orDefault ((Dict.get e.interactionMatrix s.id).bind (fun row => Dict.get row contentId)) 0
      (fl (acc.1 + fl (userInteraction * s.similarity)), fl (acc.2 + s.similarity))) (0, 0)
    .ok (if acc.2 > 0 then fl (acc.1 / acc.2) else 0)

/-- The method `calculateContentSimilarity(content1, content2)`. -/
def calculateContentSimilarity (fl : α → α) (content1 content2 : ContentItem α) : α :=
  let genres1 := content1.genres.getD []
  let genres2 := content2.genres.getD []
  let genreIntersection := (genres1.filter (fun genre => genre ∈ genres2)).length
  let genreUnion := (distinct (genres1 ++ genres2)).length
  let genreSimilarity : α :=
    if genreUnion > 0 then fl ((genreIntersection : α) / (genreUnion : α)) else 0
  let yearDiff : α :=
    match content1.year, content2.year with
    | some year1, some year2 =>
      if year1 = 0 ∨ year2 = 0 then fl (1 / 2) else fl (|fl (year1 - year2)| / 50)
    | _, _ => fl (1 / 2)
  let yearSimilarity := fl (1 - min yearDiff 1)
  let typeSimilarity : α := if content1.type = content2.type then 1 else 0
  fl (fl (fl (genreSimilarity * fl (6 / 10)) + fl (yearSimilarity * fl (3 / 10))) +
    fl (typeSimilarity * fl (1 / 10)))

/-- The value of `norm2` after the second loop of `calculateUserSimilarity`: the sum of the
squares of the weights of a row, accumulated with rounding. -/
def squareSum (fl : α → α) (user : Dict α) : α :=
  user.foldl (fun (norm2 : α) (entry : String × α) => fl (norm2 + fl (entry.2 * entry.2))) 0

end Rounded

/-! ## Snapshots for the rounded arithmetic -/

section RoundingDemo

/-- Both profiles view `A` and `B` once. -/
def twinLog : List Interaction :=
  [⟨"p1", "A", "view"⟩, ⟨"p1", "B", "view"⟩, ⟨"p2", "A", "view"⟩, ⟨"p2", "B", "view"⟩]

/-- A store with the log `twinLog`. -/
def twinStore : Store ℚ := ⟨.ok (dislikeItems ℚ), .ok dislikeProfiles, .ok twinLog⟩

/-- The engine after its first query on `twinStore`. -/
def twinEngine : Engine ℚ := (ensureInitialized twinStore (Engine.new ℚ)).1

/-- The row of `p1` and of `p2` in `twinEngine`. -/
def twinRow : Dict ℚ := [("A", 1), ("B", 1)]

/-- Three items. -/
def tripleItems : List (ContentItem ℚ) :=
  [ { id := "A", genres := some ["action"], year := some 2020, type := some "movie",
      popularity := some (4 / 5), rating := none },
    { id := "B", genres := some ["drama"], year := some 2021, type := some "movie",
      popularity := some (3 / 5), rating := none },
    { id := "C", genres := some ["comedy"], year := some 2022, type := some "movie",
      popularity := some (2 / 5), rating := none } ]

/-- Both profiles view `A`, `B` and `C` once. -/
def tripleLog : List Interaction :=
  [⟨"p1", "A", "view"⟩, ⟨"p1", "B", "view"⟩, ⟨"p1", "C", "view"⟩, ⟨"p2", "A", "view"⟩,
    ⟨"p2", "B", "view"⟩, ⟨"p2", "C", "view"⟩]

/-- A store with three items and the log `tripleLog`. -/
def tripleStore : Store ℚ := ⟨.ok tripleItems, .ok dislikeProfiles, .ok tripleLog⟩

/-- The engine after its first query on `tripleStore`. -/
def tripleEngine : Engine ℚ := (ensureInitialized tripleStore (Engine.new ℚ)).1

/-- The row of `p1` and of `p2` in `tripleEngine`. -/
def tripleRow : Dict ℚ := [("A", 1), ("B", 1), ("C", 1)]

/-- Both profiles complete `A` three times, and `p2` completes `B` once. -/
def nineLog : List Interaction :=
  [⟨"p1", "A", "complete"⟩, ⟨"p1", "A", "complete"⟩, ⟨"p1", "A", "complete"⟩,
    ⟨"p2", "A", "complete"⟩, ⟨"p2", "A", "complete"⟩, ⟨"p2", "A", "complete"⟩,
    ⟨"p2", "B", "complete"⟩]

/-- A store with the log `nineLog`. -/
def nineStore : Store ℚ := ⟨.ok (dislikeItems ℚ), .ok dislikeProfiles, .ok nineLog⟩

/-- The engine after its first query on `nineStore`. -/
def nineEngine : Engine ℚ := (ensureInitialized nineStore (Engine.new ℚ)).1

/-- The row of `p1` in `nineEngine`. -/
def nineRow1 : Dict ℚ := [("A", 9), ("B", 0)]

/-- The row of `p2` in `nineEngine`. -/
def nineRow2 : Dict ℚ := [("A", 9), ("B", 3)]

/-- The similar users of `p1` in `nineEngine`, on doubles. -/
def nineSimilar : List (SimilarUser ℚ) := [⟨"p2", 4272489747592907 / 4503599627370496⟩]

/-- The item `D` of `demoItems`, which differs from `B` only in its id. -/
def demoItemTwin (α : Type) [LinearOrderedField α] : ContentItem α :=
  { id := "D", genres := some ["action"], year := some 2021, type := some "movie",
    popularity := some (3 / 5), rating := none }

end RoundingDemo

/-! ## Dictionaries: lemmas -/

namespace Dict

variable {β : Type}

theorem get_set_self (d : Dict β) (k : String) (v : β) : get (set d k v) k = some v := by
  induction d with
  | nil => simp [set, get]
  | cons hd tl ih =>
    obtain ⟨k', v'⟩ := hd
    by_cases h : k' = k
    · simp [set, get, h]
    · simp [set, get, h, ih]

theorem get_set_ne (d : Dict β) {k j : String} (v : β) (h : j ≠ k) :
    get (set d k v) j = get d j := by
  induction d with
  | nil => simp [set, get, h.symm]
  | cons hd tl ih =>
    obtain ⟨k', v'⟩ := hd
    by_cases hk : k' = k
    · subst hk
      simp [set, get, h.symm]
    · by_cases hj : k' = j
      · subst hj
        simp [set, get, hk]
      · simp [set, get, hk, hj, ih]

theorem mem_keys_set (d : Dict β) (k j : String) (v : β) :
    j ∈ keys (set d k v) ↔ j = k ∨ j ∈ keys d := by
  induction d with
  | nil => simp [set, keys]
  | cons hd tl ih =>
    obtain ⟨k', v'⟩ := hd
    by_cases hk : k' = k
    · subst hk
      simp [set, keys]
    · simp only [keys] at ih
      simp only [set, hk, if_false, keys, List.map_cons, List.mem_cons, ih]
      tauto

theorem nodup_keys_set (d : Dict β) (k : String) (v : β) (h : (keys d).Nodup) :
    (keys (set d k v)).Nodup := by
  induction d with
  | nil => simp [set, keys]
  | cons hd tl ih =>
    obtain ⟨k', v'⟩ := hd
    have h' : k' ∉ keys tl ∧ (keys tl).Nodup := by simpa [keys] using h
    by_cases hk : k' = k
    · subst hk
      simpa [set, keys] using h
    · have hmem : k' ∉ keys (set tl k v) := by
        rw [mem_keys_set]
        exact fun hc => hc.elim hk h'.1
      have := ih h'.2
      simp only [keys] at this hmem
      simp [set, hk, keys, this, hmem]

theorem get_isSome_iff (d : Dict β) (k : String) : (get d k).isSome ↔ k ∈ keys d := by
  induction d with
  | nil => simp [get, keys]
  | cons hd tl ih =>
    obtain ⟨k', v'⟩ := hd
    by_cases hk : k' = k
    · simp [get, keys, hk]
    · simp only [keys] at ih
      simp [get, keys, hk, ih, Ne.symm hk]

theorem get_eq_none_iff (d : Dict β) (k : String) : get d k = none ↔ k ∉ keys d := by
  rw [← get_isSome_iff]
  cases get d k <;> simp

theorem mem_of_get_eq_some {d : Dict β} {k : String} {v : β} (h : get d k = some v) :
    (k, v) ∈ d := by
  induction d with
  | nil => simp [get] at h
  | cons hd tl ih =>
    obtain ⟨k', v'⟩ := hd
    by_cases hk : k' = k
    · simp [get, hk] at h
      simp [hk, h]
    · simp [get, hk] at h
      exact List.mem_cons_of_mem _ (ih h)

theorem get_eq_some_of_mem {d : Dict β} {k : String} {v : β} (hd : (keys d).Nodup)
    (h : (k, v) ∈ d) : get d k = some v := by
  induction d with
  | nil => simp at h
  | cons hd' tl ih =>
    obtain ⟨k', v'⟩ := hd'
    have h' : k' ∉ keys tl ∧ (keys tl).Nodup := by simpa [keys] using hd
    rcases List.mem_cons.1 h with heq | hmem
    · cases heq
      simp [get]
    · have hk : k' ≠ k := by
        rintro rfl
        exact h'.1 (List.mem_map_of_mem Prod.fst hmem)
      simp [get, hk, ih h'.2 hmem]

end Dict

/-! ## The matrix built by `processInteractions` -/

section Matrix

variable {α : Type} [LinearOrderedField α]

theorem nodup_keys_foldl_set {γ : Type} (f : γ → String) (l : List γ) (acc : Dict α)
    (h : (Dict.keys acc).Nodup) :
    (Dict.keys (l.foldl (fun row x => Dict.set row (f x) 0) acc)).Nodup := by
  induction l generalizing acc with
  | nil => simpa using h
  | cons x xs ih => exact ih _ (Dict.nodup_keys_set acc (f x) 0 h)

theorem nodup_keys_emptyRow (items : List (ContentItem α)) :
    (Dict.keys (emptyRow items)).Nodup := by
  unfold emptyRow
  exact nodup_keys_foldl_set (fun item : ContentItem α => item.id) items [] (by simp [Dict.keys])

theorem matrixOK_foldl_set (r : Dict α) (hr : (Dict.keys r).Nodup) (profiles : List Profile)
    (acc : Dict (Dict α)) (hacc : ∀ k row, Dict.get acc k = some row → (Dict.keys row).Nodup) :
    (∀ k, (Dict.get acc k).isSome →
        (Dict.get (profiles.foldl (fun m p => Dict.set m p.id r) acc) k).isSome) ∧
      MatrixOK profiles (profiles.foldl (fun m p => Dict.set m p.id r) acc) := by
  induction profiles generalizing acc with
  | nil => exact ⟨fun _ h => h, by simp, hacc⟩
  | cons p ps ih =>
    have hstep : ∀ k row, Dict.get (Dict.set acc p.id r) k = some row →
        (Dict.keys row).Nodup := by
      intro k row hk
      by_cases hkp : k = p.id
      · subst hkp
        rw [Dict.get_set_self] at hk
        cases hk
        exact hr
      · rw [Dict.get_set_ne acc r hkp] at hk
        exact hacc k row hk
    obtain ⟨hkeep, hall, hnd⟩ := ih (Dict.set acc p.id r) hstep
    refine ⟨fun k hk => hkeep k ?_, ?_, hnd⟩
    · by_cases hkp : k = p.id
      · subst hkp
        simp [Dict.get_set_self]
      · rwa [Dict.get_set_ne acc r hkp]
    · intro q hq
      rcases List.mem_cons.1 hq with rfl | hq
      · exact hkeep _ (by simp [Dict.get_set_self])
      · exact hall q hq

theorem matrixOK_emptyMatrix (profiles : List Profile) (items : List (ContentItem α)) :
    MatrixOK profiles (emptyMatrix profiles items) := by
  unfold emptyMatrix
  exact (matrixOK_foldl_set (emptyRow items) (nodup_keys_emptyRow items) profiles []
    (by simp [Dict.get])).2

theorem matrixOK_addInteraction (profiles : List Profile) (items : List (ContentItem α))
    (m : Dict (Dict α)) (i : Interaction) (h : MatrixOK profiles m) :
    MatrixOK profiles (addInteraction items m i) := by
  unfold addInteraction
  cases hrow : Dict.get m i.profileId with
  | none => simpa using h
  | some row =>
    simp only []
    split
    · exact h
    · cases hcell : Dict.get row i.contentId with
      | none => simpa using h
      | some w =>
        simp only []
        refine ⟨fun p hp => ?_, fun k r hk => ?_⟩
        · by_cases hkp : p.id = i.profileId
          · rw [hkp, Dict.get_set_self]
            rfl
          · rw [Dict.get_set_ne m _ hkp]
            exact h.1 p hp
        · by_cases hkp : k = i.profileId
          · subst hkp
            rw [Dict.get_set_self] at hk
            cases hk
            exact Dict.nodup_keys_set row _ _ (h.2 _ row hrow)
          · rw [Dict.get_set_ne m _ hkp] at hk
            exact h.2 k r hk

theorem matrixOK_foldl_addInteraction (profiles : List Profile) (items : List (ContentItem α))
    (interactions : List Interaction) (m : Dict (Dict α)) (h : MatrixOK profiles m) :
    MatrixOK profiles (interactions.foldl (addInteraction items) m) := by
  induction interactions generalizing m with
  | nil => simpa using h
  | cons i rest ih => exact ih _ (matrixOK_addInteraction profiles items m i h)

theorem matrixOK_of_built (e : Engine α) (h : Built e) :
    MatrixOK e.userProfiles e.interactionMatrix := by
  obtain ⟨interactions, hm⟩ := h
  rw [hm]
  exact matrixOK_foldl_addInteraction e.userProfiles e.contentItems interactions _
    (matrixOK_emptyMatrix e.userProfiles e.contentItems)

theorem built_processInteractions (e : Engine α) (interactions : List Interaction) :
    Built (processInteractions e interactions) :=
  ⟨interactions, rfl⟩

end Matrix

/-! ## `mapExcept` and `sortDesc`: lemmas -/

section Lists

variable {α : Type} [LinearOrderedField α]

theorem mapExcept_ok_of_forall {ε β γ : Type} (f : β → Except ε γ) (l : List β)
    (h : ∀ b ∈ l, ∃ c, f b = .ok c) : ∃ cs, mapExcept f l = .ok cs := by
  induction l with
  | nil => exact ⟨[], rfl⟩
  | cons b bs ih =>
    obtain ⟨c, hc⟩ := h b (List.mem_cons_self _ _)
    obtain ⟨cs, hcs⟩ := ih (fun x hx => h x (List.mem_cons_of_mem _ hx))
    exact ⟨c :: cs, by simp [mapExcept, hc, hcs]⟩

theorem mapExcept_forall₂ {ε β γ : Type} (f : β → Except ε γ) (l : List β) (cs : List γ)
    (h : mapExcept f l = .ok cs) : List.Forall₂ (fun b c => f b = .ok c) l cs := by
  induction l generalizing cs with
  | nil =>
    simp only [mapExcept, Except.ok.injEq] at h
    subst h
    exact List.Forall₂.nil
  | cons b bs ih =>
    unfold mapExcept at h
    cases hb : f b with
    | error err => simp [hb] at h
    | ok c =>
      cases hbs : mapExcept f bs with
      | error err => simp [hb, hbs] at h
      | ok cs' =>
        simp only [hb, hbs, Except.ok.injEq] at h
        subst h
        exact List.Forall₂.cons hb (ih cs' hbs)

theorem forall₂_mem_right {β γ : Type} {R : β → γ → Prop} {l : List β} {cs : List γ}
    (h : List.Forall₂ R l cs) {c : γ} (hc : c ∈ cs) : ∃ b ∈ l, R b c := by
  induction h with
  | nil => simp at hc
  | cons hab _ ih =>
    rcases List.mem_cons.1 hc with rfl | hc
    · exact ⟨_, List.mem_cons_self _ _, hab⟩
    · obtain ⟨b, hb, hR⟩ := ih hc
      exact ⟨b, List.mem_cons_of_mem _ hb, hR⟩

theorem forall₂_map_right {β γ δ : Type} {R : β → γ → Prop} {l : List β} {cs : List γ}
    (h : List.Forall₂ R l cs) (g : γ → δ) (g' : β → δ) (hg : ∀ b c, R b c → g c = g' b) :
    cs.map g = l.map g' := by
  induction h with
  | nil => rfl
  | cons hab _ ih => simp [hg _ _ hab, ih]

theorem mapExcept_mem {ε β γ : Type} (f : β → Except ε γ) (l : List β) (cs : List γ)
    (h : mapExcept f l = .ok cs) {c : γ} (hc : c ∈ cs) : ∃ b ∈ l, f b = .ok c :=
  forall₂_mem_right (mapExcept_forall₂ f l cs h) hc

theorem mapExcept_map {ε β γ δ : Type} (f : β → Except ε γ) (l : List β) (cs : List γ)
    (h : mapExcept f l = .ok cs) (g : γ → δ) (g' : β → δ)
    (hg : ∀ b c, f b = .ok c → g c = g' b) : cs.map g = l.map g' :=
  forall₂_map_right (mapExcept_forall₂ f l cs h) g g' hg

theorem mapExcept_length {ε β γ : Type} (f : β → Except ε γ) (l : List β) (cs : List γ)
    (h : mapExcept f l = .ok cs) : cs.length = l.length :=
  (mapExcept_forall₂ f l cs h).length_eq.symm

theorem sortDesc_perm {β : Type} (key : β → α) (l : List β) : (sortDesc key l).Perm l :=
  List.perm_insertionSort _ l

theorem sortDesc_pairwise {β : Type} (key : β → α) (l : List β) :
    (sortDesc key l).Pairwise (fun a b => key b ≤ key a) := by
  haveI : IsTotal β (fun a b => key b ≤ key a) := ⟨fun a b => le_total (key b) (key a)⟩
  haveI : IsTrans β (fun a b => key b ≤ key a) := ⟨fun _ _ _ hab hbc => le_trans hbc hab⟩
  exact List.sorted_insertionSort (fun a b => key b ≤ key a) l

/-- Stability: the entries with one given key keep their order and multiplicity. -/
theorem sortDesc_filter_key {β : Type} (key : β → α) (l : List β) (s : α) :
    (sortDesc key l).filter (fun x => decide (key x = s)) =
      l.filter (fun x => decide (key x = s)) := by
  have hsub : List.Sublist (l.filter (fun x => decide (key x = s))) (sortDesc key l) := by
    refine List.sublist_insertionSort (List.pairwise_of_forall_mem_list ?_)
      (List.filter_sublist l)
    intro a ha b hb
    have ha' : key a = s := by simpa using (List.mem_filter.1 ha).2
    have hb' : key b = s := by simpa using (List.mem_filter.1 hb).2
    simp [ha', hb']
  have hsub' := hsub.filter (fun x => decide (key x = s))
  rw [List.filter_filter] at hsub'
  simp only [Bool.and_self] at hsub'
  have hlen := ((sortDesc_perm key l).filter (fun x => decide (key x = s))).length_eq
  exact (hsub'.eq_of_length hlen.symm).symm

theorem sortDesc_stable {β : Type} (key : β → α) (l : List β) {a b : β}
    (hab : List.Sublist [a, b] (sortDesc key l)) (hkey : key a = key b) :
    List.Sublist [a, b] l := by
  have h := hab.filter (fun x => decide (key x = key a))
  rw [sortDesc_filter_key] at h
  have hfix : [a, b].filter (fun x => decide (key x = key a)) = [a, b] := by
    simp [hkey]
  rw [hfix] at h
  exact h.trans (List.filter_sublist l)

end Lists

/-! ## `findSimilarUsers`: lemmas -/

section SimilarUsers

variable {α : Type} [LinearOrderedField α]

theorem similarityTo_id (sqrt : α → α) (e : Engine α) (targetUser : Dict α) (profile : Profile)
    (s : SimilarUser α) (h : similarityTo sqrt e targetUser profile = .ok s) :
    s.id = profile.id := by
  unfold similarityTo at h
  cases hrow : Dict.get e.interactionMatrix profile.id with
  | none => simp [hrow] at h
  | some otherUser =>
    simp only [hrow, Except.ok.injEq] at h
    rw [← h]

/-- The shape of every list `findSimilarUsers` returns. -/
theorem findSimilarUsers_ok (sqrt : α → α) (e : Engine α) (profileId : String)
    (l : List (SimilarUser α)) (h : findSimilarUsers sqrt e profileId = .ok l) :
    (Dict.get e.interactionMatrix profileId = none ∧ l = []) ∨
      ∃ (targetUser : Dict α) (similarities : List (SimilarUser α)),
        Dict.get e.interactionMatrix profileId = some targetUser ∧
        mapExcept (similarityTo sqrt e targetUser)
          (e.userProfiles.filter (fun profile => profile.id ≠ profileId)) = .ok similarities ∧
        l = sortDesc SimilarUser.similarity (similarities.filter (fun s => s.similarity > 0)) := by
  unfold findSimilarUsers at h
  split at h
  · rename_i hrow
    exact Or.inl ⟨hrow, by cases h; rfl⟩
  · rename_i targetUser hrow
    split at h
    · cases h
    · rename_i similarities hmap
      cases h
      exact Or.inr ⟨targetUser, similarities, hrow, hmap, rfl⟩

/-- On a matrix with a row for every catalog profile, `findSimilarUsers` returns a list. -/
theorem findSimilarUsers_total (sqrt : α → α) (e : Engine α) (profileId : String)
    (hrows : ∀ p ∈ e.userProfiles, (Dict.get e.interactionMatrix p.id).isSome) :
    ∃ l, findSimilarUsers sqrt e profileId = .ok l := by
  unfold findSimilarUsers
  cases hrow : Dict.get e.interactionMatrix profileId with
  | none => exact ⟨[], rfl⟩
  | some targetUser =>
    obtain ⟨similarities, hmap⟩ := mapExcept_ok_of_forall (similarityTo sqrt e targetUser)
      (e.userProfiles.filter (fun profile => profile.id ≠ profileId)) (by
        intro p hp
        have hp' := hrows p (List.mem_filter.1 hp).1
        unfold similarityTo
        cases hq : Dict.get e.interactionMatrix p.id with
        | none => simp [hq] at hp'
        | some otherUser => exact ⟨_, rfl⟩)
    simp only [hmap]
    exact ⟨_, rfl⟩

theorem findSimilarUsers_mem (sqrt : α → α) (e : Engine α) (profileId : String)
    (l : List (SimilarUser α)) (h : findSimilarUsers sqrt e profileId = .ok l)
    (s : SimilarUser α) (hs : s ∈ l) : s.id ≠ profileId ∧ 0 < s.similarity := by
  rcases findSimilarUsers_ok sqrt e profileId l h with ⟨-, rfl⟩ | ⟨t, sims, -, hmap, rfl⟩
  · simp at hs
  · have hs' : s ∈ sims.filter (fun s => s.similarity > 0) :=
      (sortDesc_perm SimilarUser.similarity _).mem_iff.1 hs
    obtain ⟨hmem, hpos⟩ := List.mem_filter.1 hs'
    obtain ⟨p, hp, hps⟩ := mapExcept_mem _ _ _ hmap hmem
    refine ⟨?_, by simpa using hpos⟩
    rw [similarityTo_id sqrt e t p s hps]
    simpa using (List.mem_filter.1 hp).2

theorem findSimilarUsers_sorted (sqrt : α → α) (e : Engine α) (profileId : String)
    (l : List (SimilarUser α)) (h : findSimilarUsers sqrt e profileId = .ok l) :
    l.Pairwise (fun a b => b.similarity ≤ a.similarity) := by
  rcases findSimilarUsers_ok sqrt e profileId l h with ⟨-, rfl⟩ | ⟨t, sims, -, -, rfl⟩
  · exact List.Pairwise.nil
  · exact sortDesc_pairwise SimilarUser.similarity _

theorem findSimilarUsers_ties (sqrt : α → α) (e : Engine α) (profileId : String)
    (l : List (SimilarUser α)) (h : findSimilarUsers sqrt e profileId = .ok l)
    (a b : SimilarUser α) (hab : List.Sublist [a, b] l) (heq : a.similarity = b.similarity) :
    List.Sublist [a.id, b.id] (e.userProfiles.map Profile.id) := by
  rcases findSimilarUsers_ok sqrt e profileId l h with ⟨-, rfl⟩ | ⟨t, sims, -, hmap, rfl⟩
  · simp at hab
  · have h1 : List.Sublist [a, b] sims :=
      (sortDesc_stable SimilarUser.similarity _ hab heq).trans (List.filter_sublist _)
    have h2 := h1.map SimilarUser.id
    have h3 : sims.map SimilarUser.id =
        (e.userProfiles.filter (fun profile => profile.id ≠ profileId)).map Profile.id :=
      mapExcept_map _ _ _ hmap SimilarUser.id Profile.id
        (fun p s hps => similarityTo_id sqrt e t p s hps)
    rw [h3] at h2
    exact h2.trans ((List.filter_sublist _).map Profile.id)

end SimilarUsers

/-! ## `getPersonalizedRecommendations`: lemmas -/

section Personalized

variable {α : Type} [LinearOrderedField α]

theorem mapExcept_error {ε β γ : Type} (f : β → Except ε γ) (l : List β) (err : ε)
    (h : mapExcept f l = .error err) : ∃ b ∈ l, f b = .error err := by
  induction l with
  | nil => simp [mapExcept] at h
  | cons b bs ih =>
    unfold mapExcept at h
    cases hb : f b with
    | error err' =>
      simp only [hb, Except.error.injEq] at h
      exact ⟨b, List.mem_cons_self _ _, by rw [hb, h]⟩
    | ok c =>
      cases hbs : mapExcept f bs with
      | error err' =>
        simp only [hb, hbs, Except.error.injEq] at h
        obtain ⟨x, hx, hfx⟩ := ih (by rw [hbs, h])
        exact ⟨x, List.mem_cons_of_mem _ hx, hfx⟩
      | ok cs => simp [hb, hbs] at h

theorem findSimilarUsers_error (sqrt : α → α) (e : Engine α) (profileId : String)
    (err : EngineError) (h : findSimilarUsers sqrt e profileId = .error err) :
    err = .typeError := by
  unfold findSimilarUsers at h
  split at h
  · cases h
  · split at h
    · rename_i err' hmap
      cases h
      obtain ⟨p, -, hp⟩ := mapExcept_error _ _ _ hmap
      unfold similarityTo at hp
      split at hp
      · cases hp
        rfl
      · cases hp
    · cases h

theorem scoreItem_error (sqrt : α → α) (e : Engine α) (profileId : String) (profile : Profile)
    (item : ContentItem α) (err : EngineError)
    (h : scoreItem sqrt e profileId profile item = .error err) : err = .typeError := by
  unfold scoreItem getCollaborativeScore at h
  cases hsim : findSimilarUsers sqrt e profileId with
  | error err' =>
    simp only [hsim, Except.error.injEq] at h
    rw [← h]
    exact findSimilarUsers_error sqrt e profileId err' hsim
  | ok l => simp [hsim] at h

theorem scoreItem_ok (sqrt : α → α) (e : Engine α) (profileId : String) (profile : Profile)
    (item : ContentItem α) (s : ScoredItem α)
    (h : scoreItem sqrt e profileId profile item = .ok s) :
    s.item = item ∧ ∃ c, getCollaborativeScore sqrt e profileId item.id = .ok c ∧
      s.score = c * (7 / 10) + getContentBasedScore profile item * (3 / 10) := by
  unfold scoreItem at h
  cases hc : getCollaborativeScore sqrt e profileId item.id with
  | error err => simp [hc] at h
  | ok c =>
    simp only [hc, Except.ok.injEq] at h
    subst h
    exact ⟨rfl, c, rfl, rfl⟩

theorem scoreItem_total (sqrt : α → α) (e : Engine α) (profileId : String) (profile : Profile)
    (item : ContentItem α)
    (hrows : ∀ p ∈ e.userProfiles, (Dict.get e.interactionMatrix p.id).isSome) :
    ∃ s, scoreItem sqrt e profileId profile item = .ok s := by
  obtain ⟨l, hl⟩ := findSimilarUsers_total sqrt e profileId hrows
  unfold scoreItem getCollaborativeScore
  simp only [hl]
  exact ⟨_, rfl⟩

theorem getPersonalizedRecommendations_fst (sqrt : α → α) (store : Store α) (e : Engine α)
    (profileId : String) (count : Nat) :
    (getPersonalizedRecommendations sqrt store e profileId count).1 =
      (ensureInitialized store e).1 := by
  unfold getPersonalizedRecommendations
  split
  · rename_i e' err hI
    rw [hI]
  · rename_i e' hI
    rw [hI]
    split
    · rfl
    · dsimp only
      split <;> rfl

/-- The result of the method once the initialisation step has succeeded. -/
theorem getPersonalizedRecommendations_snd (sqrt : α → α) (store : Store α) (e e' : Engine α)
    (profileId : String) (count : Nat) (hI : ensureInitialized store e = (e', .ok ())) :
    (getPersonalizedRecommendations sqrt store e profileId count).2 =
      match e'.userProfiles.find? (fun p => p.id = profileId) with
      | none => .error (.notFound ("Profile with ID " ++ profileId ++ " not found"))
      | some profile =>
        match mapExcept (scoreItem sqrt e' profileId profile)
            (e'.contentItems.filter (fun item => item.id ∉ watchHistory e' profileId)) with
        | .error err => .error err
        | .ok scored => .ok ((sortDesc ScoredItem.score scored).take count) := by
  unfold getPersonalizedRecommendations
  rw [hI]
  dsimp only
  split
  · rfl
  · split <;> rfl

end Personalized

/-! ## `getPersonalizedRecommendations`: the watch history and the shape of a result -/

section PersonalizedResult

variable {α : Type} [LinearOrderedField α]

theorem weight_nonpos_of_not_mem_watchHistory (e : Engine α) (profileId contentId : String)
    (h : contentId ∉ watchHistory e profileId) : weight e profileId contentId ≤ 0 := by
  unfold weight Dict.val
  cases hcell : Dict.get ((Dict.get e.interactionMatrix profileId).getD []) contentId with
  | none => simp
  | some w =>
    simp only [Option.getD_some]
    by_contra hw
    refine h ?_
    unfold watchHistory
    refine List.mem_map.2 ⟨(contentId, w), List.mem_filter.2 ⟨Dict.mem_of_get_eq_some hcell, ?_⟩,
      rfl⟩
    simpa using hw

theorem mem_watchHistory_iff (e : Engine α) (profileId contentId : String)
    (hnd : ∀ row, Dict.get e.interactionMatrix profileId = some row → (Dict.keys row).Nodup) :
    contentId ∈ watchHistory e profileId ↔ 0 < weight e profileId contentId := by
  constructor
  · intro h
    unfold watchHistory at h
    obtain ⟨⟨k, w⟩, hmem, hk⟩ := List.mem_map.1 h
    obtain ⟨hmem, hw⟩ := List.mem_filter.1 hmem
    simp only at hk
    subst hk
    cases hrow : Dict.get e.interactionMatrix profileId with
    | none => simp [hrow] at hmem
    | some row =>
      rw [hrow] at hmem
      have hget := Dict.get_eq_some_of_mem (hnd row hrow) hmem
      unfold weight Dict.val
      rw [hrow]
      simp only [Option.getD_some, hget]
      simpa using hw
  · intro h
    by_contra hc
    exact absurd (weight_nonpos_of_not_mem_watchHistory e profileId contentId hc) (not_le.2 h)

/-- A call that returns a list has passed the initialisation step, found the profile and scored
every candidate. -/
theorem getPersonalizedRecommendations_ok (sqrt : α → α) (store : Store α) (e e' : Engine α)
    (profileId : String) (count : Nat) (l : List (ScoredItem α))
    (h : getPersonalizedRecommendations sqrt store e profileId count = (e', .ok l)) :
    ensureInitialized store e = (e', .ok ()) ∧
      ∃ (profile : Profile) (scored : List (ScoredItem α)),
        e'.userProfiles.find? (fun p => p.id = profileId) = some profile ∧
        mapExcept (scoreItem sqrt e' profileId profile)
          (e'.contentItems.filter (fun item => item.id ∉ watchHistory e' profileId)) =
            .ok scored ∧
        l = (sortDesc ScoredItem.score scored).take count := by
  have h1 := congrArg Prod.fst h
  have h2 := congrArg Prod.snd h
  simp only at h1 h2
  rw [getPersonalizedRecommendations_fst] at h1
  have hI : ensureInitialized store e = (e', .ok ()) := by
    refine Prod.ext h1 ?_
    cases hr : (ensureInitialized store e).2 with
    | ok u => rfl
    | error err =>
      exfalso
      have hpair : ensureInitialized store e = ((ensureInitialized store e).1, .error err) :=
        Prod.ext rfl hr
      unfold getPersonalizedRecommendations at h2
      rw [hpair] at h2
      simp at h2
  refine ⟨hI, ?_⟩
  rw [getPersonalizedRecommendations_snd sqrt store e e' profileId count hI] at h2
  split at h2
  · cases h2
  · rename_i profile hfind
    split at h2
    · cases h2
    · rename_i scored hmap
      cases h2
      exact ⟨profile, scored, hfind, hmap, rfl⟩

/-- On a matrix with a row for every catalog profile, a query for a known profile returns. -/
theorem getPersonalizedRecommendations_run (sqrt : α → α) (store : Store α) (e e' : Engine α)
    (profileId : String) (count : Nat) (hI : ensureInitialized store e = (e', .ok ()))
    (hrows : ∀ p ∈ e'.userProfiles, (Dict.get e'.interactionMatrix p.id).isSome)
    (hknown : ∃ p ∈ e'.userProfiles, p.id = profileId) :
    ∃ l, getPersonalizedRecommendations sqrt store e profileId count = (e', .ok l) := by
  obtain ⟨q, hq, hqid⟩ := hknown
  cases hfind : e'.userProfiles.find? (fun p => p.id = profileId) with
  | none =>
    have := List.find?_eq_none.1 hfind q hq
    simp [hqid] at this
  | some profile =>
    obtain ⟨scored, hmap⟩ := mapExcept_ok_of_forall (scoreItem sqrt e' profileId profile)
      (e'.contentItems.filter (fun item => item.id ∉ watchHistory e' profileId))
      (fun item _ => scoreItem_total sqrt e' profileId profile item hrows)
    refine ⟨(sortDesc ScoredItem.score scored).take count, Prod.ext ?_ ?_⟩
    · rw [getPersonalizedRecommendations_fst, hI]
    · rw [getPersonalizedRecommendations_snd sqrt store e e' profileId count hI, hfind]
      simp only [hmap]

end PersonalizedResult

/-! ## `calculateUserSimilarity`: lemmas -/

section Similarity

variable {α : Type} [LinearOrderedField α]

theorem Dict.val_eq_zero_of_not_mem (d : Dict α) (k : String) (h : k ∉ Dict.keys d) :
    Dict.val d k = 0 := by
  unfold Dict.val
  rw [(Dict.get_eq_none_iff d k).2 h]
  rfl

theorem Dict.val_of_mem {d : Dict α} (hd : (Dict.keys d).Nodup) {entry : String × α}
    (h : entry ∈ d) : Dict.val d entry.1 = entry.2 := by
  unfold Dict.val
  rw [Dict.get_eq_some_of_mem hd (show (entry.1, entry.2) ∈ d from h)]
  rfl

/-- A sum over the entries of a dictionary is the sum over its keys of the values read back. -/
theorem Dict.sum_entries (d : Dict α) (hd : (Dict.keys d).Nodup) (f : String → α → α) :
    (d.map (fun entry => f entry.1 entry.2)).sum =
      ((Dict.keys d).map (fun c => f c (Dict.val d c))).sum := by
  unfold Dict.keys
  rw [List.map_map]
  congr 1
  refine List.map_congr_left (fun entry hentry => ?_)
  simp only [Function.comp]
  rw [Dict.val_of_mem hd hentry]

theorem foldl_similarity_first (user2 : Dict α) (user1 : Dict α) (init : α × α) :
    user1.foldl (fun (acc : α × α) (entry : String × α) =>
        ((match Dict.get user2 entry.1 with
          | some w => if w = 0 then acc.1 else acc.1 + entry.2 * w
          | none => acc.1), acc.2 + entry.2 * entry.2)) init =
      (init.1 + (user1.map (fun entry => entry.2 * Dict.val user2 entry.1)).sum,
        init.2 + (user1.map (fun entry => entry.2 * entry.2)).sum) := by
  induction user1 generalizing init with
  | nil => simp
  | cons entry rest ih =>
    rw [List.foldl_cons, ih]
    have hstep : (match Dict.get user2 entry.1 with
        | some w => if w = 0 then init.1 else init.1 + entry.2 * w
        | none => init.1) = init.1 + entry.2 * Dict.val user2 entry.1 := by
      unfold Dict.val
      cases hget : Dict.get user2 entry.1 with
      | none => simp
      | some w =>
        by_cases hw : w = 0
        · simp [hw]
        · simp [hw]
    simp only [hstep, List.map_cons, List.sum_cons]
    refine Prod.ext ?_ ?_ <;> simp only <;> ring

theorem foldl_similarity_second (user2 : Dict α) (init : α) :
    user2.foldl (fun (norm2 : α) (entry : String × α) => norm2 + entry.2 * entry.2) init =
      init + (user2.map (fun entry => entry.2 * entry.2)).sum := by
  induction user2 generalizing init with
  | nil => simp
  | cons entry rest ih =>
    rw [List.foldl_cons, ih]
    simp only [List.map_cons, List.sum_cons]
    ring

/-- The three accumulators of `calculateUserSimilarity` as sums over the keys of the rows. -/
theorem calculateUserSimilarity_eq (sqrt : α → α) (u v : Dict α) (hu : (Dict.keys u).Nodup)
    (hv : (Dict.keys v).Nodup) :
    calculateUserSimilarity sqrt u v =
      if 0 < sqrt (dotOver (Dict.keys u) u u) * sqrt (dotOver (Dict.keys v) v v) then
        dotOver (Dict.keys u) u v /
          (sqrt (dotOver (Dict.keys u) u u) * sqrt (dotOver (Dict.keys v) v v))
      else 0 := by
  have h1 := Dict.sum_entries u hu (fun c x => x * Dict.val v c)
  have h2 := Dict.sum_entries u hu (fun c x => x * x)
  have h3 := Dict.sum_entries v hv (fun c x => x * x)
  simp only at h1 h2 h3
  unfold calculateUserSimilarity dotOver
  rw [foldl_similarity_first, foldl_similarity_second]
  simp only [zero_add, h1, h2, h3, gt_iff_lt]

theorem dotOver_self_nonneg (keys : List String) (u : Dict α) : 0 ≤ dotOver keys u u := by
  unfold dotOver
  refine List.sum_nonneg (fun x hx => ?_)
  obtain ⟨c, -, rfl⟩ := List.mem_map.1 hx
  exact mul_self_nonneg _

theorem dotOver_self_pos (u : Dict α) (c : String) (hc : Dict.val u c ≠ 0) :
    0 < dotOver (Dict.keys u) u u := by
  have hmem : c ∈ Dict.keys u := by
    by_contra hnot
    exact hc (Dict.val_eq_zero_of_not_mem u c hnot)
  have hle : Dict.val u c * Dict.val u c ≤ dotOver (Dict.keys u) u u := by
    unfold dotOver
    refine List.single_le_sum (fun x hx => ?_) _
      (List.mem_map.2 ⟨c, hmem, rfl⟩)
    obtain ⟨k, -, rfl⟩ := List.mem_map.1 hx
    exact mul_self_nonneg _
  exact lt_of_lt_of_le (mul_self_pos.2 hc) hle

theorem dotOver_eq_zero_left (keys : List String) (u v : Dict α)
    (h : ∀ c, Dict.val u c = 0) : dotOver keys u v = 0 := by
  unfold dotOver
  simp [h]

theorem dotOver_eq_zero_right (keys : List String) (u v : Dict α)
    (h : ∀ c, Dict.val v c = 0) : dotOver keys u v = 0 := by
  unfold dotOver
  simp [h]

theorem dotOver_perm {keys keys' : List String} (h : keys.Perm keys') (u v : Dict α) :
    dotOver keys u v = dotOver keys' u v := by
  unfold dotOver
  exact (h.map _).sum_eq

/-- The dot product does not depend on which of the two rows supplies the keys. -/
theorem dotOver_swap (u v : Dict α) (hu : (Dict.keys u).Nodup) (hv : (Dict.keys v).Nodup) :
    dotOver (Dict.keys u) u v = dotOver (Dict.keys v) v u := by
  unfold dotOver
  rw [← List.sum_toFinset _ hu, ← List.sum_toFinset _ hv]
  have hleft : (Dict.keys u).toFinset.sum (fun c => Dict.val u c * Dict.val v c) =
      ((Dict.keys u).toFinset ∪ (Dict.keys v).toFinset).sum
        (fun c => Dict.val u c * Dict.val v c) := by
    refine Finset.sum_subset Finset.subset_union_left (fun c _ hc => ?_)
    rw [Dict.val_eq_zero_of_not_mem u c (by simpa using hc), zero_mul]
  have hright : (Dict.keys v).toFinset.sum (fun c => Dict.val v c * Dict.val u c) =
      ((Dict.keys u).toFinset ∪ (Dict.keys v).toFinset).sum
        (fun c => Dict.val v c * Dict.val u c) := by
    refine Finset.sum_subset Finset.subset_union_right (fun c _ hc => ?_)
    rw [Dict.val_eq_zero_of_not_mem v c (by simpa using hc), zero_mul]
  rw [hleft, hright]
  exact Finset.sum_congr rfl (fun c _ => mul_comm _ _)

end Similarity

/-! ## The demo snapshot evaluated -/

section DemoEval

theorem sqrt_twentyFive : Real.sqrt 25 = 5 := by
  rw [show (25 : ℝ) = 5 ^ 2 by norm_num]
  exact Real.sqrt_sq (by norm_num)

theorem demoEngine_contentItems : (demoEngine ℝ).contentItems = demoItems ℝ := rfl

theorem demoEngine_userProfiles : (demoEngine ℝ).userProfiles = demoProfiles := rfl

set_option maxRecDepth 4000 in
theorem demoEngine_interactionMatrix :
    (demoEngine ℝ).interactionMatrix =
      [ ("p1", [("A", 1), ("B", 0), ("C", 0), ("D", 0)]),
        ("p3", [("A", 1), ("B", 0), ("C", 0), ("D", 0)]),
        ("p2", [("A", 1), ("B", 0), ("C", 0), ("D", 0)]),
        ("p4", [("A", 3), ("B", 0), ("C", 4), ("D", 0)]) ] := by
  simp [demoEngine, ensureInitialized, initializeEngine, demoStore, Engine.new, initializeModel,
    generateContentFeatures, processInteractions, demoItems, demoProfiles, demoLog, emptyMatrix,
    emptyRow, addInteraction, Dict.set, Dict.get, interactionWeight]
  norm_num

theorem demoEngine_init :
    ensureInitialized (demoStore ℝ) (Engine.new ℝ) = (demoEngine ℝ, .ok ()) := by
  refine Prod.ext rfl ?_
  simp [ensureInitialized, initializeEngine, demoStore, Engine.new]

theorem demoEngine_built : Built (demoEngine ℝ) := ⟨demoLog, rfl⟩

set_option maxRecDepth 4000 in
theorem demoEngine_findSimilarUsers :
    findSimilarUsers Real.sqrt (demoEngine ℝ) "p1" = .ok (demoSimilar ℝ) := by
  unfold findSimilarUsers similarityTo
  rw [demoEngine_interactionMatrix, demoEngine_userProfiles]
  simp [demoProfiles, mapExcept, calculateUserSimilarity, sortDesc, Dict.get, demoSimilar]
  norm_num [sqrt_twentyFive]

set_option maxRecDepth 4000 in
theorem demoEngine_collaborative_B :
    getCollaborativeScore Real.sqrt (demoEngine ℝ) "p1" "B" = .ok 0 := by
  unfold getCollaborativeScore
  rw [demoEngine_findSimilarUsers, demoEngine_interactionMatrix]
  simp [demoSimilar, Dict.get, orDefault]

set_option maxRecDepth 4000 in
theorem demoEngine_collaborative_C :
    getCollaborativeScore Real.sqrt (demoEngine ℝ) "p1" "C" = .ok (12 / 13) := by
  unfold getCollaborativeScore
  rw [demoEngine_findSimilarUsers, demoEngine_interactionMatrix]
  simp [demoSimilar, Dict.get, orDefault]
  norm_num

set_option maxRecDepth 4000 in
theorem demoEngine_collaborative_D :
    getCollaborativeScore Real.sqrt (demoEngine ℝ) "p1" "D" = .ok 0 := by
  unfold getCollaborativeScore
  rw [demoEngine_findSimilarUsers, demoEngine_interactionMatrix]
  simp [demoSimilar, Dict.get, orDefault]

set_option maxRecDepth 4000 in
theorem demoEngine_recommended :
    getPersonalizedRecommendations Real.sqrt (demoStore ℝ) (Engine.new ℝ) "p1" 5 =
      (demoEngine ℝ, .ok (demoRecommended ℝ)) := by
  refine Prod.ext ?_ ?_
  · rw [getPersonalizedRecommendations_fst, demoEngine_init]
  · rw [getPersonalizedRecommendations_snd _ _ _ _ _ _ demoEngine_init]
    unfold watchHistory
    rw [demoEngine_interactionMatrix, demoEngine_userProfiles, demoEngine_contentItems]
    simp [demoProfiles, demoItems, Dict.get, mapExcept, scoreItem, demoEngine_collaborative_B,
      demoEngine_collaborative_C, demoEngine_collaborative_D, getContentBasedScore, orDefault,
      sortDesc, demoRecommended]
    norm_num

end DemoEval

/-! ## Personalised recommendations: the properties -/

section PersonalizedClaims

variable {α : Type} [LinearOrderedField α]

/-- C1: on every engine state whose matrix was built by `processInteractions`, for every known
profile id and every count, `getPersonalizedRecommendations` returns a list, and no item of that
list has a strictly positive accumulated weight in the profile's row. -/
theorem personalized_excludes_watched (sqrt : α → α) (store : Store α) (e e' : Engine α)
    (profileId : String) (count : Nat) (hI : ensureInitialized store e = (e', .ok ()))
    (hbuilt : Built e') (hknown : ∃ p ∈ e'.userProfiles, p.id = profileId) :
    ∃ l, getPersonalizedRecommendations sqrt store e profileId count = (e', .ok l) ∧
      ∀ s ∈ l, ¬ 0 < weight e' profileId s.item.id := by
  obtain ⟨l, hl⟩ := getPersonalizedRecommendations_run sqrt store e e' profileId count hI
    (matrixOK_of_built e' hbuilt).1 hknown
  refine ⟨l, hl, fun s hs => ?_⟩
  obtain ⟨-, profile, scored, -, hmap, rfl⟩ :=
    getPersonalizedRecommendations_ok sqrt store e e' profileId count l hl
  have hs' : s ∈ scored :=
    (sortDesc_perm ScoredItem.score scored).mem_iff.1 (List.mem_of_mem_take hs)
  obtain ⟨item, hitem, hsc⟩ := mapExcept_mem _ _ _ hmap hs'
  rw [(scoreItem_ok sqrt e' profileId profile item s hsc).1]
  have hnot : item.id ∉ watchHistory e' profileId := by
    simpa using (List.mem_filter.1 hitem).2
  exact not_lt.2 (weight_nonpos_of_not_mem_watchHistory e' profileId item.id hnot)

/-- C1 at the demo snapshot: `p1` has viewed `A`, and `A` is not recommended. -/
theorem personalized_excludes_watched_witness :
    ensureInitialized (demoStore ℝ) (Engine.new ℝ) = (demoEngine ℝ, .ok ()) ∧
      Built (demoEngine ℝ) ∧ (∃ p ∈ (demoEngine ℝ).userProfiles, p.id = "p1") ∧
      ∃ l, getPersonalizedRecommendations Real.sqrt (demoStore ℝ) (Engine.new ℝ) "p1" 5 =
          (demoEngine ℝ, .ok l) ∧
        ∀ s ∈ l, ¬ 0 < weight (demoEngine ℝ) "p1" s.item.id :=
  ⟨demoEngine_init, demoEngine_built, ⟨_, List.mem_cons_self _ _, rfl⟩,
    personalized_excludes_watched Real.sqrt (demoStore ℝ) (Engine.new ℝ) (demoEngine ℝ) "p1" 5
      demoEngine_init demoEngine_built ⟨_, List.mem_cons_self _ _, rfl⟩⟩

/-- C2: once the initialisation step has succeeded, `getPersonalizedRecommendations` throws the
not-found error exactly when no profile of the loaded catalog has the id; the call then yields
the error alone, with the message naming the id, and no list. -/
theorem personalized_notFound_iff (sqrt : α → α) (store : Store α) (e e' : Engine α)
    (profileId : String) (count : Nat) (hI : ensureInitialized store e = (e', .ok ())) :
    ((∃ message, (getPersonalizedRecommendations sqrt store e profileId count).2 =
          .error (.notFound message)) ↔ ∀ p ∈ e'.userProfiles, p.id ≠ profileId) ∧
      ((∀ p ∈ e'.userProfiles, p.id ≠ profileId) →
        getPersonalizedRecommendations sqrt store e profileId count =
          (e', .error (.notFound ("Profile with ID " ++ profileId ++ " not found")))) := by
  have hmiss : (∀ p ∈ e'.userProfiles, p.id ≠ profileId) →
      getPersonalizedRecommendations sqrt store e profileId count =
        (e', .error (.notFound ("Profile with ID " ++ profileId ++ " not found"))) := by
    intro hno
    have hfind : e'.userProfiles.find? (fun p => p.id = profileId) = none :=
      List.find?_eq_none.2 (fun p hp => by simpa using hno p hp)
    refine Prod.ext ?_ ?_
    · rw [getPersonalizedRecommendations_fst, hI]
    · rw [getPersonalizedRecommendations_snd sqrt store e e' profileId count hI, hfind]
  refine ⟨⟨?_, fun hno => ⟨_, congrArg Prod.snd (hmiss hno)⟩⟩, hmiss⟩
  rintro ⟨message, hmsg⟩
  rw [getPersonalizedRecommendations_snd sqrt store e e' profileId count hI] at hmsg
  split at hmsg
  · rename_i hfind
    intro p hp
    simpa using List.find?_eq_none.1 hfind p hp
  · rename_i profile hfind
    exfalso
    split at hmsg
    · rename_i err hmap
      obtain ⟨item, -, hitem⟩ := mapExcept_error _ _ _ hmap
      have := scoreItem_error sqrt e' profileId profile item err hitem
      rw [this] at hmsg
      cases hmsg
    · cases hmsg

/-- C2 at the demo snapshot: the profile catalog has no `p9`. -/
theorem personalized_notFound_iff_witness :
    ensureInitialized (demoStore ℝ) (Engine.new ℝ) = (demoEngine ℝ, .ok ()) ∧
      (∀ p ∈ (demoEngine ℝ).userProfiles, p.id ≠ "p9") ∧
      getPersonalizedRecommendations Real.sqrt (demoStore ℝ) (Engine.new ℝ) "p9" 5 =
        (demoEngine ℝ, .error (.notFound "Profile with ID p9 not found")) :=
  have hno : ∀ p ∈ (demoEngine ℝ).userProfiles, p.id ≠ "p9" := by
    rw [demoEngine_userProfiles]
    simp [demoProfiles]
  ⟨demoEngine_init, hno,
    (personalized_notFound_iff Real.sqrt (demoStore ℝ) (Engine.new ℝ) (demoEngine ℝ) "p9" 5
      demoEngine_init).2 hno⟩

/-- C3: every item of a list returned by `getPersonalizedRecommendations` carries the score
`0.7 * getCollaborativeScore(profileId, item.id) + 0.3 * getContentBasedScore(profile, item)`,
where `profile` is the catalog profile found for the id. -/
theorem personalized_score_hybrid (sqrt : α → α) (store : Store α) (e e' : Engine α)
    (profileId : String) (count : Nat) (l : List (ScoredItem α))
    (h : getPersonalizedRecommendations sqrt store e profileId count = (e', .ok l)) :
    ∃ profile, e'.userProfiles.find? (fun p => p.id = profileId) = some profile ∧
      ∀ s ∈ l, ∃ c, getCollaborativeScore sqrt e' profileId s.item.id = .ok c ∧
        s.score = 7 / 10 * c + 3 / 10 * getContentBasedScore profile s.item := by
  obtain ⟨-, profile, scored, hfind, hmap, rfl⟩ :=
    getPersonalizedRecommendations_ok sqrt store e e' profileId count l h
  refine ⟨profile, hfind, fun s hs => ?_⟩
  have hs' : s ∈ scored :=
    (sortDesc_perm ScoredItem.score scored).mem_iff.1 (List.mem_of_mem_take hs)
  obtain ⟨item, -, hsc⟩ := mapExcept_mem _ _ _ hmap hs'
  obtain ⟨hitem, c, hc, hscore⟩ := scoreItem_ok sqrt e' profileId profile item s hsc
  refine ⟨c, by rw [hitem]; exact hc, ?_⟩
  rw [hscore, hitem]
  ring

/-- C3 at the demo snapshot. -/
theorem personalized_score_hybrid_witness :
    getPersonalizedRecommendations Real.sqrt (demoStore ℝ) (Engine.new ℝ) "p1" 5 =
        (demoEngine ℝ, .ok (demoRecommended ℝ)) ∧
      ∃ profile, (demoEngine ℝ).userProfiles.find? (fun p => p.id = "p1") = some profile ∧
        ∀ s ∈ demoRecommended ℝ,
          ∃ c, getCollaborativeScore Real.sqrt (demoEngine ℝ) "p1" s.item.id = .ok c ∧
            s.score = 7 / 10 * c + 3 / 10 * getContentBasedScore profile s.item :=
  ⟨demoEngine_recommended,
    personalized_score_hybrid Real.sqrt (demoStore ℝ) (Engine.new ℝ) (demoEngine ℝ) "p1" 5
      (demoRecommended ℝ) demoEngine_recommended⟩

/-- C4: a list returned by `getPersonalizedRecommendations` is in non-increasing order of score,
and two of its entries with equal score stand in the order of their items in the content
catalog. -/
theorem personalized_sorted_stable (sqrt : α → α) (store : Store α) (e e' : Engine α)
    (profileId : String) (count : Nat) (l : List (ScoredItem α))
    (h : getPersonalizedRecommendations sqrt store e profileId count = (e', .ok l)) :
    l.Pairwise (fun a b => b.score ≤ a.score) ∧
      ∀ a b, List.Sublist [a, b] l → a.score = b.score →
        List.Sublist [a.item, b.item] e'.contentItems := by
  obtain ⟨-, profile, scored, -, hmap, rfl⟩ :=
    getPersonalizedRecommendations_ok sqrt store e e' profileId count l h
  refine ⟨(sortDesc_pairwise ScoredItem.score scored).sublist (List.take_sublist _ _), ?_⟩
  intro a b hab heq
  have h1 : List.Sublist [a, b] scored :=
    sortDesc_stable ScoredItem.score scored (hab.trans (List.take_sublist _ _)) heq
  have h2 := h1.map ScoredItem.item
  have h3 : scored.map ScoredItem.item =
      (e'.contentItems.filter (fun item => item.id ∉ watchHistory e' profileId)).map id :=
    mapExcept_map _ _ _ hmap ScoredItem.item id
      (fun item s hs => (scoreItem_ok sqrt e' profileId profile item s hs).1)
  rw [h3, List.map_id] at h2
  exact h2.trans (List.filter_sublist _)

/-- C4 at the demo snapshot: `C` outranks `B` and `D`, which tie and keep the catalog order. -/
theorem personalized_sorted_stable_witness :
    getPersonalizedRecommendations Real.sqrt (demoStore ℝ) (Engine.new ℝ) "p1" 5 =
        (demoEngine ℝ, .ok (demoRecommended ℝ)) ∧
      (demoRecommended ℝ).Pairwise (fun a b => b.score ≤ a.score) ∧
      ∀ a b, List.Sublist [a, b] (demoRecommended ℝ) → a.score = b.score →
        List.Sublist [a.item, b.item] (demoEngine ℝ).contentItems :=
  ⟨demoEngine_recommended,
    personalized_sorted_stable Real.sqrt (demoStore ℝ) (Engine.new ℝ) (demoEngine ℝ) "p1" 5
      (demoRecommended ℝ) demoEngine_recommended⟩

/-- C5: on every engine state whose matrix was built by `processInteractions`, for every known
profile and every natural count, `getPersonalizedRecommendations` returns a list of exactly
`min count k` items, `k` being the number of catalog items whose accumulated weight for the
profile is not strictly positive; with `k = 0` the list is empty. -/
theorem personalized_length (sqrt : α → α) (store : Store α) (e e' : Engine α)
    (profileId : String) (count : Nat) (hI : ensureInitialized store e = (e', .ok ()))
    (hbuilt : Built e') (hknown : ∃ p ∈ e'.userProfiles, p.id = profileId) :
    ∃ l, getPersonalizedRecommendations sqrt store e profileId count = (e', .ok l) ∧
      l.length = min count
        (e'.contentItems.filter (fun item => ¬ 0 < weight e' profileId item.id)).length ∧
      ((e'.contentItems.filter (fun item => ¬ 0 < weight e' profileId item.id)).length = 0 →
        l = []) := by
  have hok := matrixOK_of_built e' hbuilt
  obtain ⟨l, hl⟩ := getPersonalizedRecommendations_run sqrt store e e' profileId count hI
    hok.1 hknown
  obtain ⟨-, profile, scored, -, hmap, hlist⟩ :=
    getPersonalizedRecommendations_ok sqrt store e e' profileId count l hl
  have hfilter : e'.contentItems.filter (fun item => item.id ∉ watchHistory e' profileId) =
      e'.contentItems.filter (fun item => ¬ 0 < weight e' profileId item.id) := by
    refine List.filter_congr (fun item _ => ?_)
    have := mem_watchHistory_iff e' profileId item.id (fun row hrow => hok.2 profileId row hrow)
    simp only [this]
  have hlen : l.length = min count
      (e'.contentItems.filter (fun item => ¬ 0 < weight e' profileId item.id)).length := by
    rw [hlist, List.length_take, (sortDesc_perm ScoredItem.score scored).length_eq,
      mapExcept_length _ _ _ hmap, hfilter]
  refine ⟨l, hl, hlen, fun hzero => ?_⟩
  rw [hzero, Nat.min_zero] at hlen
  exact List.length_eq_zero.1 hlen

/-- C5 at the demo snapshot: three of the four items are not in the watch history of `p1`; a
count of 2 gives two items. -/
theorem personalized_length_witness :
    ensureInitialized (demoStore ℝ) (Engine.new ℝ) = (demoEngine ℝ, .ok ()) ∧
      Built (demoEngine ℝ) ∧ (∃ p ∈ (demoEngine ℝ).userProfiles, p.id = "p1") ∧
      ∃ l, getPersonalizedRecommendations Real.sqrt (demoStore ℝ) (Engine.new ℝ) "p1" 2 =
          (demoEngine ℝ, .ok l) ∧
        l.length = min 2
          ((demoEngine ℝ).contentItems.filter
            (fun item => ¬ 0 < weight (demoEngine ℝ) "p1" item.id)).length ∧
        (((demoEngine ℝ).contentItems.filter
            (fun item => ¬ 0 < weight (demoEngine ℝ) "p1" item.id)).length = 0 → l = []) :=
  ⟨demoEngine_init, demoEngine_built, ⟨_, List.mem_cons_self _ _, rfl⟩,
    personalized_length Real.sqrt (demoStore ℝ) (Engine.new ℝ) (demoEngine ℝ) "p1" 2
      demoEngine_init demoEngine_built ⟨_, List.mem_cons_self _ _, rfl⟩⟩

end PersonalizedClaims

/-! ## Similar users: the properties -/

section SimilarityClaims

variable {α : Type} [LinearOrderedField α]

/-- C6: no entry of a list returned by `findSimilarUsers(profileId)` has the id `profileId`, and
none has a similarity less than or equal to 0; on a matrix built by `processInteractions` the
method returns such a list for every id. -/
theorem similar_users_others_positive (sqrt : α → α) (e : Engine α) (profileId : String) :
    (∀ l, findSimilarUsers sqrt e profileId = .ok l →
        ∀ s ∈ l, s.id ≠ profileId ∧ ¬ s.similarity ≤ 0) ∧
      (Built e → ∃ l, findSimilarUsers sqrt e profileId = .ok l) := by
  refine ⟨fun l h s hs => ?_, fun hbuilt => ?_⟩
  · obtain ⟨hid, hpos⟩ := findSimilarUsers_mem sqrt e profileId l h s hs
    exact ⟨hid, not_le.2 hpos⟩
  · exact findSimilarUsers_total sqrt e profileId (matrixOK_of_built e hbuilt).1

/-- C6 at the demo snapshot: the similar users of `p1` are `p3`, `p2` and `p4`. -/
theorem similar_users_others_positive_witness :
    findSimilarUsers Real.sqrt (demoEngine ℝ) "p1" = .ok (demoSimilar ℝ) ∧
      (∀ s ∈ demoSimilar ℝ, s.id ≠ "p1" ∧ ¬ s.similarity ≤ 0) ∧ Built (demoEngine ℝ) ∧
      ∃ l, findSimilarUsers Real.sqrt (demoEngine ℝ) "p1" = .ok l :=
  ⟨demoEngine_findSimilarUsers,
    (similar_users_others_positive Real.sqrt (demoEngine ℝ) "p1").1 (demoSimilar ℝ)
      demoEngine_findSimilarUsers,
    demoEngine_built,
    (similar_users_others_positive Real.sqrt (demoEngine ℝ) "p1").2 demoEngine_built⟩

/-- C7: a list returned by `findSimilarUsers` is in non-increasing order of similarity; on a
matrix built by `processInteractions` the method returns such a list for every id. -/
theorem similar_users_sorted (sqrt : α → α) (e : Engine α) (profileId : String) :
    (∀ l, findSimilarUsers sqrt e profileId = .ok l →
        l.Pairwise (fun a b => b.similarity ≤ a.similarity)) ∧
      (Built e → ∃ l, findSimilarUsers sqrt e profileId = .ok l) :=
  ⟨fun l h => findSimilarUsers_sorted sqrt e profileId l h,
    fun hbuilt => findSimilarUsers_total sqrt e profileId (matrixOK_of_built e hbuilt).1⟩

/-- C7 at the demo snapshot. -/
theorem similar_users_sorted_witness :
    findSimilarUsers Real.sqrt (demoEngine ℝ) "p1" = .ok (demoSimilar ℝ) ∧
      (demoSimilar ℝ).Pairwise (fun a b => b.similarity ≤ a.similarity) ∧
      Built (demoEngine ℝ) ∧ ∃ l, findSimilarUsers Real.sqrt (demoEngine ℝ) "p1" = .ok l :=
  ⟨demoEngine_findSimilarUsers,
    (similar_users_sorted Real.sqrt (demoEngine ℝ) "p1").1 (demoSimilar ℝ)
      demoEngine_findSimilarUsers,
    demoEngine_built, (similar_users_sorted Real.sqrt (demoEngine ℝ) "p1").2 demoEngine_built⟩

/-- C8, refuted as stated: in the demo snapshot `p3` and `p2` are equally similar to `p1`, and
`findSimilarUsers` lists `p3` before `p2`, the order of the profile catalog, although
`"p2" < "p3"`. -/
theorem similar_users_ties_not_by_id :
    findSimilarUsers Real.sqrt (demoEngine ℝ) "p1" = .ok (demoSimilar ℝ) ∧
      ¬ ∀ a b : SimilarUser ℝ, List.Sublist [a, b] (demoSimilar ℝ) →
          a.similarity = b.similarity → a.id < b.id := by
  refine ⟨demoEngine_findSimilarUsers, fun h => ?_⟩
  have hlt : "p3" < "p2" := h ⟨"p3", 1⟩ ⟨"p2", 1⟩ (by simp [demoSimilar]) rfl
  rw [String.lt_iff_toList_lt] at hlt
  exact absurd hlt (by decide)

/-- C8 as amended: two entries of a list returned by `findSimilarUsers` that have equal
similarity stand in the order of their profiles in the profile catalog; on a matrix built by
`processInteractions` the method returns such a list for every id. -/
theorem similar_users_ties_catalog_order (sqrt : α → α) (e : Engine α) (profileId : String) :
    (∀ l, findSimilarUsers sqrt e profileId = .ok l →
        ∀ a b, List.Sublist [a, b] l → a.similarity = b.similarity →
          List.Sublist [a.id, b.id] (e.userProfiles.map Profile.id)) ∧
      (Built e → ∃ l, findSimilarUsers sqrt e profileId = .ok l) :=
  ⟨fun l h a b hab heq => findSimilarUsers_ties sqrt e profileId l h a b hab heq,
    fun hbuilt => findSimilarUsers_total sqrt e profileId (matrixOK_of_built e hbuilt).1⟩

/-- C8 as amended, at the demo snapshot. -/
theorem similar_users_ties_catalog_order_witness :
    findSimilarUsers Real.sqrt (demoEngine ℝ) "p1" = .ok (demoSimilar ℝ) ∧
      (∀ a b, List.Sublist [a, b] (demoSimilar ℝ) → a.similarity = b.similarity →
        List.Sublist [a.id, b.id] ((demoEngine ℝ).userProfiles.map Profile.id)) ∧
      Built (demoEngine ℝ) ∧ ∃ l, findSimilarUsers Real.sqrt (demoEngine ℝ) "p1" = .ok l :=
  ⟨demoEngine_findSimilarUsers,
    (similar_users_ties_catalog_order Real.sqrt (demoEngine ℝ) "p1").1 (demoSimilar ℝ)
      demoEngine_findSimilarUsers,
    demoEngine_built,
    (similar_users_ties_catalog_order Real.sqrt (demoEngine ℝ) "p1").2 demoEngine_built⟩

/-- C9: for two rows over the same set of content ids, and a square root that is positive on
positive numbers, `calculateUserSimilarity(u, v)` is the dot product divided by the product of
the square roots of the two sums of squares (a positive divisor) when both rows have a non-zero
entry, and is 0 when either row is all-zero. -/
theorem user_similarity_cosine (sqrt : α → α) (u v : Dict α) (hu : (Dict.keys u).Nodup)
    (hv : (Dict.keys v).Nodup) (hkeys : (Dict.keys v).Perm (Dict.keys u))
    (hsqrt : ∀ x, 0 < x → 0 < sqrt x) :
    ((∃ c, Dict.val u c ≠ 0) → (∃ c, Dict.val v c ≠ 0) →
        0 < sqrt (dotOver (Dict.keys u) u u) * sqrt (dotOver (Dict.keys u) v v) ∧
          calculateUserSimilarity sqrt u v =
            dotOver (Dict.keys u) u v /
              (sqrt (dotOver (Dict.keys u) u u) * sqrt (dotOver (Dict.keys u) v v))) ∧
      ((∀ c, Dict.val u c = 0) ∨ (∀ c, Dict.val v c = 0) →
        calculateUserSimilarity sqrt u v = 0) := by
  have heq := calculateUserSimilarity_eq sqrt u v hu hv
  rw [dotOver_perm hkeys v v] at heq
  refine ⟨fun hnu hnv => ?_, fun hzero => ?_⟩
  · obtain ⟨c, hc⟩ := hnu
    obtain ⟨d, hd⟩ := hnv
    have h1 := hsqrt _ (dotOver_self_pos u c hc)
    have h2 := hsqrt _ (dotOver_self_pos v d hd)
    rw [dotOver_perm hkeys v v] at h2
    have hpos := mul_pos h1 h2
    exact ⟨hpos, by rw [heq, if_pos hpos]⟩
  · have hdot : dotOver (Dict.keys u) u v = 0 := by
      rcases hzero with h | h
      · exact dotOver_eq_zero_left _ u v h
      · exact dotOver_eq_zero_right _ u v h
    rw [heq, hdot]
    split <;> simp

/-- C9 at the rows of `p1` and `p4` of the demo snapshot, with the real square root. -/
theorem user_similarity_cosine_witness :
    (Dict.keys (demoRow1 ℝ)).Nodup ∧ (Dict.keys (demoRow4 ℝ)).Nodup ∧
      (Dict.keys (demoRow4 ℝ)).Perm (Dict.keys (demoRow1 ℝ)) ∧
      (∀ x : ℝ, 0 < x → 0 < Real.sqrt x) ∧
      ((∃ c, Dict.val (demoRow1 ℝ) c ≠ 0) → (∃ c, Dict.val (demoRow4 ℝ) c ≠ 0) →
        0 < Real.sqrt (dotOver (Dict.keys (demoRow1 ℝ)) (demoRow1 ℝ) (demoRow1 ℝ)) *
              Real.sqrt (dotOver (Dict.keys (demoRow1 ℝ)) (demoRow4 ℝ) (demoRow4 ℝ)) ∧
          calculateUserSimilarity Real.sqrt (demoRow1 ℝ) (demoRow4 ℝ) =
            dotOver (Dict.keys (demoRow1 ℝ)) (demoRow1 ℝ) (demoRow4 ℝ) /
              (Real.sqrt (dotOver (Dict.keys (demoRow1 ℝ)) (demoRow1 ℝ) (demoRow1 ℝ)) *
                Real.sqrt (dotOver (Dict.keys (demoRow1 ℝ)) (demoRow4 ℝ) (demoRow4 ℝ)))) ∧
      ((∀ c, Dict.val (demoRow1 ℝ) c = 0) ∨ (∀ c, Dict.val (demoRow4 ℝ) c = 0) →
        calculateUserSimilarity Real.sqrt (demoRow1 ℝ) (demoRow4 ℝ) = 0) :=
  have hu : (Dict.keys (demoRow1 ℝ)).Nodup := by simp [Dict.keys, demoRow1]
  have hv : (Dict.keys (demoRow4 ℝ)).Nodup := by simp [Dict.keys, demoRow4]
  have hk : (Dict.keys (demoRow4 ℝ)).Perm (Dict.keys (demoRow1 ℝ)) := List.Perm.refl _
  have hs : ∀ x : ℝ, 0 < x → 0 < Real.sqrt x := fun _ hx => Real.sqrt_pos.2 hx
  ⟨hu, hv, hk, hs, user_similarity_cosine Real.sqrt (demoRow1 ℝ) (demoRow4 ℝ) hu hv hk hs⟩

/-- C10: for every two rows, whatever their key sets, `calculateUserSimilarity(u, v)` equals
`calculateUserSimilarity(v, u)`. -/
theorem user_similarity_symm (sqrt : α → α) (u v : Dict α) (hu : (Dict.keys u).Nodup)
    (hv : (Dict.keys v).Nodup) :
    calculateUserSimilarity sqrt u v = calculateUserSimilarity sqrt v u := by
  rw [calculateUserSimilarity_eq sqrt u v hu hv, calculateUserSimilarity_eq sqrt v u hv hu,
    dotOver_swap u v hu hv,
    mul_comm (sqrt (dotOver (Dict.keys u) u u)) (sqrt (dotOver (Dict.keys v) v v))]

/-- C10 at two rows with different key sets. -/
theorem user_similarity_symm_witness :
    (Dict.keys (demoRowAB ℝ)).Nodup ∧ (Dict.keys (demoRowBC ℝ)).Nodup ∧
      calculateUserSimilarity Real.sqrt (demoRowAB ℝ) (demoRowBC ℝ) =
        calculateUserSimilarity Real.sqrt (demoRowBC ℝ) (demoRowAB ℝ) :=
  have hu : (Dict.keys (demoRowAB ℝ)).Nodup := by simp [Dict.keys, demoRowAB]
  have hv : (Dict.keys (demoRowBC ℝ)).Nodup := by simp [Dict.keys, demoRowBC]
  ⟨hu, hv, user_similarity_symm Real.sqrt (demoRowAB ℝ) (demoRowBC ℝ) hu hv⟩

end SimilarityClaims

/-! ## Collaborative score: the properties -/

section CollaborativeClaims

variable {α : Type} [LinearOrderedField α]

theorem orDefault_zero (x : Option α) : orDefault x 0 = x.getD 0 := by
  unfold orDefault
  cases x with
  | none => rfl
  | some v =>
    by_cases hv : v = 0
    · simp [hv]
    · simp [hv]

theorem cell_orDefault (e : Engine α) (profileId contentId : String) :
    orDefault ((Dict.get e.interactionMatrix profileId).bind
      (fun row => Dict.get row contentId)) 0 = weight e profileId contentId := by
  rw [orDefault_zero]
  unfold weight Dict.val
  cases Dict.get e.interactionMatrix profileId with
  | none => simp [Dict.get]
  | some row => simp

theorem foldl_collaborative (e : Engine α) (contentId : String) (l : List (SimilarUser α))
    (init : α × α) :
    l.foldl (fun (acc : α × α) (s : SimilarUser α) =>
        (acc.1 + orDefault ((Dict.get e.interactionMatrix s.id).bind
            (fun row => Dict.get row contentId)) 0 * s.similarity,
          acc.2 + s.similarity)) init =
      (init.1 + (l.map (fun s => weight e s.id contentId * s.similarity)).sum,
        init.2 + (l.map SimilarUser.similarity).sum) := by
  induction l generalizing init with
  | nil => simp
  | cons s rest ih =>
    rw [List.foldl_cons, ih]
    simp only [cell_orDefault, List.map_cons, List.sum_cons]
    refine Prod.ext ?_ ?_ <;> simp only <;> ring

theorem getCollaborativeScore_eq (sqrt : α → α) (e : Engine α) (profileId contentId : String)
    (l : List (SimilarUser α)) (h : findSimilarUsers sqrt e profileId = .ok l) :
    getCollaborativeScore sqrt e profileId contentId =
      .ok (if 0 < (l.map SimilarUser.similarity).sum then
        (l.map (fun s => weight e s.id contentId * s.similarity)).sum /
          (l.map SimilarUser.similarity).sum
      else 0) := by
  unfold getCollaborativeScore
  rw [h]
  simp only [foldl_collaborative, zero_add, gt_iff_lt]

theorem similarity_sum_pos (sqrt : α → α) (e : Engine α) (profileId : String)
    (l : List (SimilarUser α)) (h : findSimilarUsers sqrt e profileId = .ok l) (hne : l ≠ []) :
    0 < (l.map SimilarUser.similarity).sum := by
  have hall : ∀ x ∈ l.map SimilarUser.similarity, 0 < x := by
    intro x hx
    obtain ⟨s, hs, rfl⟩ := List.mem_map.1 hx
    exact (findSimilarUsers_mem sqrt e profileId l h s hs).2
  cases l with
  | nil => exact absurd rfl hne
  | cons s rest =>
    simp only [List.map_cons, List.sum_cons]
    have h1 : 0 < s.similarity := hall _ (by simp)
    have h2 : 0 ≤ (rest.map SimilarUser.similarity).sum :=
      List.sum_nonneg (fun x hx => le_of_lt (hall x (by simp at hx ⊢; exact Or.inr hx)))
    linarith

/-- C12: with `l` the list returned by `findSimilarUsers(profileId)`, `getCollaborativeScore`
returns the sum of `matrix[n][contentId] * s` over the entries `(n, s)` of `l` divided by the
(positive) sum of the `s` when `l` is non-empty, and 0 when `l` is empty, as it is when
`profileId` has no row; on a matrix built by `processInteractions` it returns for every pair. -/
theorem collaborative_score_weighted_mean (sqrt : α → α) (e : Engine α)
    (profileId contentId : String) :
    (∀ l, findSimilarUsers sqrt e profileId = .ok l →
        (l ≠ [] → 0 < (l.map SimilarUser.similarity).sum ∧
          getCollaborativeScore sqrt e profileId contentId =
            .ok ((l.map (fun s => weight e s.id contentId * s.similarity)).sum /
              (l.map SimilarUser.similarity).sum)) ∧
        (l = [] → getCollaborativeScore sqrt e profileId contentId = .ok 0)) ∧
      (Dict.get e.interactionMatrix profileId = none →
        findSimilarUsers sqrt e profileId = .ok [] ∧
          getCollaborativeScore sqrt e profileId contentId = .ok 0) ∧
      (Built e → ∃ c, getCollaborativeScore sqrt e profileId contentId = .ok c) := by
  have hempty : findSimilarUsers sqrt e profileId = .ok [] →
      getCollaborativeScore sqrt e profileId contentId = .ok 0 := by
    intro h
    rw [getCollaborativeScore_eq sqrt e profileId contentId [] h]
    simp
  refine ⟨fun l h => ⟨fun hne => ?_, fun hnil => hempty (hnil ▸ h)⟩, fun hrow => ?_,
    fun hbuilt => ?_⟩
  · have hpos := similarity_sum_pos sqrt e profileId l h hne
    exact ⟨hpos, by rw [getCollaborativeScore_eq sqrt e profileId contentId l h, if_pos hpos]⟩
  · have h : findSimilarUsers sqrt e profileId = .ok [] := by
      unfold findSimilarUsers
      rw [hrow]
    exact ⟨h, hempty h⟩
  · obtain ⟨l, hl⟩ := findSimilarUsers_total sqrt e profileId (matrixOK_of_built e hbuilt).1
    exact ⟨_, getCollaborativeScore_eq sqrt e profileId contentId l hl⟩

/-- C12 at the demo snapshot: the score of `C` for `p1` is `(0 * 1 + 0 * 1 + 4 * (3/5))`
divided by `1 + 1 + 3/5`. -/
theorem collaborative_score_weighted_mean_witness :
    findSimilarUsers Real.sqrt (demoEngine ℝ) "p1" = .ok (demoSimilar ℝ) ∧
      demoSimilar ℝ ≠ [] ∧
      0 < ((demoSimilar ℝ).map SimilarUser.similarity).sum ∧
      getCollaborativeScore Real.sqrt (demoEngine ℝ) "p1" "C" =
        .ok (((demoSimilar ℝ).map
            (fun s => weight (demoEngine ℝ) s.id "C" * s.similarity)).sum /
          ((demoSimilar ℝ).map SimilarUser.similarity).sum) :=
  have hne : demoSimilar ℝ ≠ [] := by simp [demoSimilar]
  ⟨demoEngine_findSimilarUsers, hne,
    ((collaborative_score_weighted_mean Real.sqrt (demoEngine ℝ) "p1" "C").1 (demoSimilar ℝ)
      demoEngine_findSimilarUsers).1 hne⟩

end CollaborativeClaims

/-! ## `processInteractions`: keys and cells -/

section MatrixCells

variable {α : Type} [LinearOrderedField α]

theorem Dict.keys_set_of_get {β : Type} (d : Dict β) (k : String) (v w : β)
    (h : Dict.get d k = some w) : Dict.keys (Dict.set d k v) = Dict.keys d := by
  induction d with
  | nil => simp [Dict.get] at h
  | cons hd tl ih =>
    obtain ⟨k', v'⟩ := hd
    by_cases hk : k' = k
    · simp [Dict.set, Dict.keys, hk]
    · simp only [Dict.get, hk, if_false] at h
      have := ih h
      simp only [Dict.keys] at this
      simp [Dict.set, Dict.keys, hk, this]

theorem Dict.mem_set {β : Type} (d : Dict β) (k : String) (v : β) (x : String × β)
    (h : x ∈ Dict.set d k v) : x = (k, v) ∨ x ∈ d := by
  induction d with
  | nil =>
    simp only [Dict.set, List.mem_singleton] at h
    exact Or.inl h
  | cons hd tl ih =>
    obtain ⟨k', v'⟩ := hd
    by_cases hk : k' = k
    · simp only [Dict.set, hk, if_true, List.mem_cons] at h
      rcases h with h | h
      · exact Or.inl h
      · exact Or.inr (List.mem_cons_of_mem _ h)
    · simp only [Dict.set, hk, if_false, List.mem_cons] at h
      rcases h with h | h
      · exact Or.inr (h ▸ List.mem_cons_self _ _)
      · exact (ih h).imp id (List.mem_cons_of_mem _)

theorem get_foldl_set_of_not_mem {β γ : Type} (f : γ → String) (v : β) (l : List γ)
    (acc : Dict β) (k : String) (h : ∀ x ∈ l, f x ≠ k) :
    Dict.get (l.foldl (fun d x => Dict.set d (f x) v) acc) k = Dict.get acc k := by
  induction l generalizing acc with
  | nil => rfl
  | cons y ys ih =>
    rw [List.foldl_cons, ih _ (fun x hx => h x (List.mem_cons_of_mem _ hx)),
      Dict.get_set_ne acc v (Ne.symm (h y (List.mem_cons_self _ _)))]

/-- Reading a dictionary filled by a loop of writes of one value. -/
theorem get_foldl_set_of_mem {β γ : Type} (f : γ → String) (v : β) (l : List γ) (acc : Dict β)
    (k : String) (h : ∃ x ∈ l, f x = k) :
    Dict.get (l.foldl (fun d x => Dict.set d (f x) v) acc) k = some v := by
  induction l generalizing acc with
  | nil => simp at h
  | cons y ys ih =>
    rw [List.foldl_cons]
    by_cases hys : ∃ x ∈ ys, f x = k
    · exact ih _ hys
    · obtain ⟨x, hx, hfx⟩ := h
      rcases List.mem_cons.1 hx with rfl | hx
      · rw [get_foldl_set_of_not_mem f v ys _ k (fun z hz hc => hys ⟨z, hz, hc⟩), ← hfx,
          Dict.get_set_self]
      · exact absurd ⟨x, hx, hfx⟩ hys

theorem nodup_keys_foldl_set_const {β γ : Type} (f : γ → String) (v : β) (l : List γ)
    (acc : Dict β) (h : (Dict.keys acc).Nodup) :
    (Dict.keys (l.foldl (fun d x => Dict.set d (f x) v) acc)).Nodup := by
  induction l generalizing acc with
  | nil => simpa using h
  | cons x xs ih => exact ih _ (Dict.nodup_keys_set acc (f x) v h)

theorem mem_foldl_set_const {β γ : Type} (f : γ → String) (v : β) (l : List γ)
    (acc : Dict β) (x : String × β)
    (h : x ∈ l.foldl (fun d y => Dict.set d (f y) v) acc) : x.2 = v ∨ x ∈ acc := by
  induction l generalizing acc with
  | nil => exact Or.inr h
  | cons y ys ih =>
    rw [List.foldl_cons] at h
    rcases ih _ h with h' | h'
    · exact Or.inl h'
    · rcases Dict.mem_set acc (f y) v x h' with h'' | h''
      · exact Or.inl (by rw [h''])
      · exact Or.inr h''

theorem get_emptyRow (items : List (ContentItem α)) (c : String) :
    ((∃ item ∈ items, item.id = c) → Dict.get (emptyRow items) c = some (0 : α)) ∧
      ((∀ item ∈ items, item.id ≠ c) → Dict.get (emptyRow items) c = (none : Option α)) := by
  unfold emptyRow
  exact ⟨fun h => get_foldl_set_of_mem (fun item : ContentItem α => item.id) 0 items [] c h,
    fun h => get_foldl_set_of_not_mem (fun item : ContentItem α => item.id) 0 items [] c h⟩

theorem get_emptyMatrix (profiles : List Profile) (items : List (ContentItem α)) (k : String) :
    ((∃ p ∈ profiles, p.id = k) →
        Dict.get (emptyMatrix profiles items) k = some (emptyRow items)) ∧
      ((∀ p ∈ profiles, p.id ≠ k) → Dict.get (emptyMatrix profiles items) k = none) := by
  unfold emptyMatrix
  exact ⟨fun h => get_foldl_set_of_mem (fun p : Profile => p.id) _ profiles [] k h,
    fun h => get_foldl_set_of_not_mem (fun p : Profile => p.id) _ profiles [] k h⟩

theorem mem_keys_emptyRow (items : List (ContentItem α)) (c : String) :
    c ∈ Dict.keys (emptyRow items) ↔ ∃ item ∈ items, item.id = c := by
  rw [← Dict.get_isSome_iff]
  by_cases h : ∃ item ∈ items, item.id = c
  · simp [(get_emptyRow items c).1 h, h]
  · have h' : ∀ item ∈ items, item.id ≠ c := fun item hi hc => h ⟨item, hi, hc⟩
    simp [(get_emptyRow items c).2 h', h]

theorem mem_keys_emptyMatrix (profiles : List Profile) (items : List (ContentItem α))
    (k : String) :
    k ∈ Dict.keys (emptyMatrix profiles items) ↔ ∃ p ∈ profiles, p.id = k := by
  rw [← Dict.get_isSome_iff]
  by_cases h : ∃ p ∈ profiles, p.id = k
  · simp [(get_emptyMatrix profiles items k).1 h, h]
  · have h' : ∀ p ∈ profiles, p.id ≠ k := fun p hp hc => h ⟨p, hp, hc⟩
    simp [(get_emptyMatrix profiles items k).2 h', h]

theorem keys_addInteraction (items : List (ContentItem α)) (m : Dict (Dict α))
    (i : Interaction) : Dict.keys (addInteraction items m i) = Dict.keys m := by
  unfold addInteraction
  split
  · rfl
  · rename_i row hrow
    split
    · rfl
    · split
      · rfl
      · exact Dict.keys_set_of_get m _ _ row hrow

theorem keys_foldl_addInteraction (items : List (ContentItem α)) (log : List Interaction)
    (m : Dict (Dict α)) :
    Dict.keys (log.foldl (addInteraction items) m) = Dict.keys m := by
  induction log generalizing m with
  | nil => rfl
  | cons i rest ih => rw [List.foldl_cons, ih, keys_addInteraction]

theorem rowKeys_addInteraction (items : List (ContentItem α)) (m : Dict (Dict α))
    (i : Interaction) (ks : List String) (h : ∀ entry ∈ m, Dict.keys entry.2 = ks) :
    ∀ entry ∈ addInteraction items m i, Dict.keys entry.2 = ks := by
  unfold addInteraction
  split
  · exact h
  · rename_i row hrow
    split
    · exact h
    · split
      · exact h
      · rename_i w hcell
        intro entry hentry
        rcases Dict.mem_set m _ _ entry hentry with rfl | hmem
        · simp only
          rw [Dict.keys_set_of_get row _ _ w hcell]
          exact h _ (Dict.mem_of_get_eq_some hrow)
        · exact h entry hmem

theorem rowKeys_foldl_addInteraction (items : List (ContentItem α)) (log : List Interaction)
    (m : Dict (Dict α)) (ks : List String) (h : ∀ entry ∈ m, Dict.keys entry.2 = ks) :
    ∀ entry ∈ log.foldl (addInteraction items) m, Dict.keys entry.2 = ks := by
  induction log generalizing m with
  | nil => exact h
  | cons i rest ih =>
    rw [List.foldl_cons]
    exact ih _ (rowKeys_addInteraction items m i ks h)

theorem rowKeys_emptyMatrix (profiles : List Profile) (items : List (ContentItem α)) :
    ∀ entry ∈ emptyMatrix profiles items, Dict.keys entry.2 = Dict.keys (emptyRow items) := by
  intro entry hentry
  unfold emptyMatrix at hentry
  rcases mem_foldl_set_const (fun p : Profile => p.id) (emptyRow items) profiles [] entry hentry
    with h | h
  · rw [h]
  · simp at h

end MatrixCells

/-! ## `processInteractions`: the properties -/

section MatrixClaims

variable {α : Type} [LinearOrderedField α]

theorem cell_addInteraction (items : List (ContentItem α)) (m : Dict (Dict α))
    (i : Interaction) (profileId contentId : String) (b : α)
    (hitem : ∃ item ∈ items, item.id = contentId) (h : cell m profileId contentId = some b) :
    cell (addInteraction items m i) profileId contentId =
      some (b + if i.profileId = profileId ∧ i.contentId = contentId then
        interactionWeight i.type else 0) := by
  unfold addInteraction
  cases hrow : Dict.get m i.profileId with
  | none =>
    have hne : i.profileId ≠ profileId := by
      rintro rfl
      simp [cell, hrow] at h
    simp [hne, h]
  | some row =>
    simp only []
    by_cases hfind : (items.find? (fun item => item.id = i.contentId)).isNone
    · have hne : i.contentId ≠ contentId := by
        rintro rfl
        obtain ⟨item, hmem, hid⟩ := hitem
        have hnone := Option.isNone_iff_eq_none.1 hfind
        have := List.find?_eq_none.1 hnone item hmem
        simp [hid] at this
      simp [hfind, hne, h]
    · simp only [hfind]
      cases hcell : Dict.get row i.contentId with
      | none =>
        have hne : ¬ (i.profileId = profileId ∧ i.contentId = contentId) := by
          rintro ⟨rfl, rfl⟩
          simp [cell, hrow, hcell] at h
        simp [hne, h]
      | some w =>
        simp only [Bool.false_eq_true, if_false]
        by_cases hp : profileId = i.profileId
        · subst hp
          have hb : Dict.get row contentId = some b := by simpa [cell, hrow] using h
          by_cases hc : contentId = i.contentId
          · subst hc
            have hwb : w = b := by
              rw [hcell] at hb
              exact Option.some.inj hb
            simp [cell, Dict.get_set_self, hwb]
          · have hc' : ¬ i.contentId = contentId := fun hx => hc hx.symm
            simp [cell, Dict.get_set_self, Dict.get_set_ne row _ hc, hb, hc']
        · have hp' : ¬ i.profileId = profileId := fun hx => hp hx.symm
          have : cell (Dict.set m i.profileId
              (Dict.set row i.contentId (w + interactionWeight i.type))) profileId contentId =
              cell m profileId contentId := by
            unfold cell
            rw [Dict.get_set_ne m _ hp]
          rw [this, h]
          simp [hp']

theorem logWeight_cons (i : Interaction) (log : List Interaction)
    (profileId contentId : String) :
    (logWeight (i :: log) profileId contentId : α) =
      (if i.profileId = profileId ∧ i.contentId = contentId then interactionWeight i.type
        else 0) + logWeight log profileId contentId := by
  unfold logWeight
  by_cases h : i.profileId = profileId ∧ i.contentId = contentId
  · simp [List.filter_cons, h]
  · simp [List.filter_cons, h]

theorem cell_foldl_addInteraction (items : List (ContentItem α)) (log : List Interaction)
    (m : Dict (Dict α)) (profileId contentId : String) (b : α)
    (hitem : ∃ item ∈ items, item.id = contentId) (h : cell m profileId contentId = some b) :
    cell (log.foldl (addInteraction items) m) profileId contentId =
      some (b + logWeight log profileId contentId) := by
  induction log generalizing m b with
  | nil => simpa [logWeight] using h
  | cons i rest ih =>
    rw [List.foldl_cons,
      ih _ _ (cell_addInteraction items m i profileId contentId b hitem h), logWeight_cons]
    congr 1
    ring

theorem cell_emptyMatrix (profiles : List Profile) (items : List (ContentItem α))
    (p : Profile) (hp : p ∈ profiles) (item : ContentItem α) (hitem : item ∈ items) :
    cell (emptyMatrix profiles items) p.id item.id = some (0 : α) := by
  unfold cell
  rw [(get_emptyMatrix profiles items p.id).1 ⟨p, hp, rfl⟩]
  exact (get_emptyRow items item.id).1 ⟨item, hitem, rfl⟩

/-- C13: for every interaction log, every catalog profile `p` and every catalog item `c`, the
cell `matrix[p][c]` built by `processInteractions` exists and holds the sum of the weights of
the interactions of the log on the pair, with `view = 1`, `complete = 3`, `like = 5`,
`dislike = -5` and every other type `1/2`. -/
theorem matrix_cell_sum (e : Engine α) (interactions : List Interaction) :
    (∀ p ∈ e.userProfiles, ∀ item ∈ e.contentItems,
        cell (processInteractions e interactions).interactionMatrix p.id item.id =
          some (logWeight interactions p.id item.id)) ∧
      (interactionWeight "view" = (1 : α) ∧ interactionWeight "complete" = (3 : α) ∧
        interactionWeight "like" = (5 : α) ∧ interactionWeight "dislike" = (-5 : α) ∧
        ∀ type, type ≠ "view" → type ≠ "complete" → type ≠ "like" → type ≠ "dislike" →
          interactionWeight type = (1 / 2 : α)) := by
  refine ⟨fun p hp item hitem => ?_, ?_⟩
  · have := cell_foldl_addInteraction e.contentItems interactions
      (emptyMatrix e.userProfiles e.contentItems) p.id item.id 0 ⟨item, hitem, rfl⟩
      (cell_emptyMatrix e.userProfiles e.contentItems p hp item hitem)
    simpa [processInteractions] using this
  · refine ⟨by simp [interactionWeight], by simp [interactionWeight],
      by simp [interactionWeight], by simp [interactionWeight], ?_⟩
    intro type h1 h2 h3 h4
    simp [interactionWeight, h1, h2, h3, h4]

/-- C14: the matrix built by `processInteractions` is dense: its keys are pairwise distinct and
are exactly the catalog profile ids, the keys of every row are pairwise distinct and are exactly
the catalog content ids, and so every (profile, item) pair of the catalogs has a cell. -/
theorem matrix_dense (e : Engine α) (interactions : List Interaction) :
    (Dict.keys (processInteractions e interactions).interactionMatrix).Nodup ∧
      (∀ k, k ∈ Dict.keys (processInteractions e interactions).interactionMatrix ↔
        ∃ p ∈ e.userProfiles, p.id = k) ∧
      (∀ entry ∈ (processInteractions e interactions).interactionMatrix,
        (Dict.keys entry.2).Nodup ∧
          ∀ c, c ∈ Dict.keys entry.2 ↔ ∃ item ∈ e.contentItems, item.id = c) ∧
      (∀ p ∈ e.userProfiles, ∀ item ∈ e.contentItems,
        ∃ w, cell (processInteractions e interactions).interactionMatrix p.id item.id =
          some w) := by
  have hkeys : Dict.keys (processInteractions e interactions).interactionMatrix =
      Dict.keys (emptyMatrix e.userProfiles e.contentItems) := by
    simp only [processInteractions]
    exact keys_foldl_addInteraction e.contentItems interactions _
  refine ⟨?_, fun k => ?_, fun entry hentry => ?_, fun p hp item hitem => ?_⟩
  · rw [hkeys]
    unfold emptyMatrix
    exact nodup_keys_foldl_set_const (fun p : Profile => p.id) _ e.userProfiles []
      (by simp [Dict.keys])
  · rw [hkeys]
    exact mem_keys_emptyMatrix e.userProfiles e.contentItems k
  · have hrow : Dict.keys entry.2 = Dict.keys (emptyRow e.contentItems) := by
      simp only [processInteractions] at hentry
      exact rowKeys_foldl_addInteraction e.contentItems interactions _ _
        (rowKeys_emptyMatrix e.userProfiles e.contentItems) entry hentry
    rw [hrow]
    exact ⟨nodup_keys_emptyRow e.contentItems, fun c => mem_keys_emptyRow e.contentItems c⟩
  · have := cell_foldl_addInteraction e.contentItems interactions
      (emptyMatrix e.userProfiles e.contentItems) p.id item.id 0 ⟨item, hitem, rfl⟩
      (cell_emptyMatrix e.userProfiles e.contentItems p hp item hitem)
    refine ⟨logWeight interactions p.id item.id, ?_⟩
    simpa [processInteractions] using this

theorem knownInteraction_false (e : Engine α) (i : Interaction)
    (h : knownInteraction e i = false) :
    (∀ p ∈ e.userProfiles, p.id ≠ i.profileId) ∨
      (∀ item ∈ e.contentItems, item.id ≠ i.contentId) := by
  unfold knownInteraction at h
  rcases Bool.and_eq_false_iff.1 h with h | h
  · left
    intro p hp hid
    have := List.any_eq_false.1 h p hp
    simp [hid] at this
  · right
    intro item hitem hid
    have := List.any_eq_false.1 h item hitem
    simp [hid] at this

theorem addInteraction_unknown (e : Engine α) (m : Dict (Dict α)) (i : Interaction)
    (hm : ∀ k, k ∈ Dict.keys m → ∃ p ∈ e.userProfiles, p.id = k)
    (h : knownInteraction e i = false) : addInteraction e.contentItems m i = m := by
  unfold addInteraction
  rcases knownInteraction_false e i h with hp | hc
  · have hnone : Dict.get m i.profileId = none := by
      rw [Dict.get_eq_none_iff]
      intro hmem
      obtain ⟨p, hp', hid⟩ := hm _ hmem
      exact hp p hp' hid
    rw [hnone]
  · split
    · rfl
    · have hfind : e.contentItems.find? (fun item => item.id = i.contentId) = none :=
        List.find?_eq_none.2 (fun item hitem => by simpa using hc item hitem)
      simp [hfind]

theorem foldl_addInteraction_filter (e : Engine α) (log : List Interaction)
    (m : Dict (Dict α)) (hm : ∀ k, k ∈ Dict.keys m → ∃ p ∈ e.userProfiles, p.id = k) :
    log.foldl (addInteraction e.contentItems) m =
      (log.filter (knownInteraction e)).foldl (addInteraction e.contentItems) m := by
  induction log generalizing m with
  | nil => rfl
  | cons i rest ih =>
    cases hk : knownInteraction e i with
    | false =>
      rw [List.foldl_cons, addInteraction_unknown e m i hm hk,
        List.filter_cons_of_neg (by simp [hk])]
      exact ih m hm
    | true =>
      rw [List.foldl_cons, List.filter_cons_of_pos hk, List.foldl_cons]
      exact ih _ (by rw [keys_addInteraction]; exact hm)

/-- C15: `processInteractions` is a total function of the log, and the matrix it builds is the
one it builds from the log without the interactions whose `profileId` is not a catalog profile
id or whose `contentId` is not a catalog content id. -/
theorem matrix_ignores_unknown (e : Engine α) (interactions : List Interaction) :
    (processInteractions e interactions).interactionMatrix =
      (processInteractions e (interactions.filter (knownInteraction e))).interactionMatrix := by
  simp only [processInteractions]
  exact foldl_addInteraction_filter e interactions _
    (fun k hk => (mem_keys_emptyMatrix e.userProfiles e.contentItems k).1 hk)

end MatrixClaims

/-! ## `processInteractions` at the demo snapshot -/

section MatrixWitness

/-- C13 at the demo snapshot: `p4` has a view and a completion of `C`, and the cell holds 4. -/
theorem matrix_cell_sum_witness :
    cell (processInteractions (demoEngine ℝ) demoLog).interactionMatrix "p4" "C" =
        some (logWeight demoLog "p4" "C") ∧
      (logWeight demoLog "p4" "C" : ℝ) = 4 :=
  ⟨(matrix_cell_sum (demoEngine ℝ) demoLog).1 ⟨"p4", none⟩
      (by rw [demoEngine_userProfiles]; simp [demoProfiles])
      ⟨"C", some ["action", "drama"], some 2010, some "series", none, none⟩
      (by rw [demoEngine_contentItems]; simp [demoItems]),
    by
      simp [logWeight, demoLog, interactionWeight]
      norm_num⟩

end MatrixWitness

/-! ## `getContentBasedScore`: the properties -/

section ContentScoreClaims

variable {α : Type} [LinearOrderedField α]

/-- The genre term computed by `getContentBasedScore` is the genre score of the
specification. -/
theorem getContentBasedScore_eq (profile : Profile) (content : ContentItem α) :
    getContentBasedScore profile content =
      genreScore profile content * (6 / 10) +
        (match content.year with
          | some year => if year = 0 then 1 / 2 else min ((year - 2000) / 25) 1
          | none => 1 / 2) * (1 / 10) +
        orDefault content.popularity (1 / 2) * (3 / 10) := by
  unfold getContentBasedScore genreScore
  cases hg : content.genres.getD [] with
  | nil => simp
  | cons g gs =>
    simp only [List.length_cons, gt_iff_lt, Nat.succ_pos, if_true, List.countP_eq_length_filter]

/-- C16: for a content item whose year is present with `year ≥ 2000` and whose popularity is
present and non-zero, `getContentBasedScore` is
`0.6 * g + 0.1 * min((year - 2000) / 25, 1) + 0.3 * popularity`, with `g` the genre score of the
specification. -/
theorem content_score_formula (profile : Profile) (content : ContentItem α)
    (year popularity : α) (hyear : content.year = some year) (hrecent : 2000 ≤ year)
    (hpop : content.popularity = some popularity) (hnonzero : popularity ≠ 0) :
    getContentBasedScore profile content =
      6 / 10 * genreScore profile content + 1 / 10 * min ((year - 2000) / 25) 1 +
        3 / 10 * popularity := by
  have hy : year ≠ 0 := by
    intro h
    rw [h] at hrecent
    norm_num at hrecent
  rw [getContentBasedScore_eq, hyear, hpop]
  simp only [hy, if_false, orDefault, hnonzero]
  ring

/-- C16 at item `B` of the demo snapshot and the profile `p1`. -/
theorem content_score_formula_witness :
    (demoItemRecent ℝ).year = some 2021 ∧ (2000 : ℝ) ≤ 2021 ∧
      (demoItemRecent ℝ).popularity = some (3 / 5) ∧ (3 / 5 : ℝ) ≠ 0 ∧
      getContentBasedScore demoProfile1 (demoItemRecent ℝ) =
        6 / 10 * genreScore demoProfile1 (demoItemRecent ℝ) +
          1 / 10 * min (((2021 : ℝ) - 2000) / 25) 1 + 3 / 10 * (3 / 5) :=
  ⟨rfl, by norm_num, rfl, by norm_num,
    content_score_formula demoProfile1 (demoItemRecent ℝ) 2021 (3 / 5) rfl (by norm_num) rfl
      (by norm_num)⟩

/-- C17, refuted as stated: for the item of 1990 the year term of `getContentBasedScore` is
`min(-10/25, 1) = -2/5`, not the clamped value 0, and the score is `4/5`, not `21/25`. -/
theorem content_score_year_not_clamped :
    (demoItemOld ℝ).year = some 1990 ∧
      getContentBasedScore demoProfile1 (demoItemOld ℝ) = 4 / 5 ∧
      6 / 10 * genreScore demoProfile1 (demoItemOld ℝ) +
          1 / 10 * max 0 (min 1 (((1990 : ℝ) - 2000) / 25)) + 3 / 10 * (4 / 5) = 21 / 25 ∧
      getContentBasedScore demoProfile1 (demoItemOld ℝ) ≠
        6 / 10 * genreScore demoProfile1 (demoItemOld ℝ) +
          1 / 10 * max 0 (min 1 (((1990 : ℝ) - 2000) / 25)) + 3 / 10 * (4 / 5) := by
  have h1 : getContentBasedScore demoProfile1 (demoItemOld ℝ) = 4 / 5 := by
    simp [getContentBasedScore, demoProfile1, demoItemOld, orDefault]
    norm_num
  have h2 : 6 / 10 * genreScore demoProfile1 (demoItemOld ℝ) +
      1 / 10 * max 0 (min 1 (((1990 : ℝ) - 2000) / 25)) + 3 / 10 * (4 / 5) = 21 / 25 := by
    simp [genreScore, demoProfile1, demoItemOld]
    norm_num
  refine ⟨rfl, h1, h2, ?_⟩
  rw [h1, h2]
  norm_num

/-- C17 as amended: for a content item whose year is present and non-zero and whose popularity
is present and non-zero, `getContentBasedScore` is
`0.6 * g + 0.1 * min((year - 2000) / 25, 1) + 0.3 * popularity`; the year term is at most 1, it
is the clamped value when `year ≥ 2000`, and it is negative when `year < 2000`. -/
theorem content_score_year_term (profile : Profile) (content : ContentItem α)
    (year popularity : α) (hyear : content.year = some year) (hy : year ≠ 0)
    (hpop : content.popularity = some popularity) (hnonzero : popularity ≠ 0) :
    getContentBasedScore profile content =
        6 / 10 * genreScore profile content + 1 / 10 * min ((year - 2000) / 25) 1 +
          3 / 10 * popularity ∧
      min ((year - 2000) / 25) 1 ≤ 1 ∧
      (2000 ≤ year → min ((year - 2000) / 25) 1 = max 0 (min 1 ((year - 2000) / 25))) ∧
      (year < 2000 → min ((year - 2000) / 25) 1 < 0) := by
  refine ⟨?_, min_le_right _ _, fun hge => ?_, fun hlt => ?_⟩
  · rw [getContentBasedScore_eq, hyear, hpop]
    simp only [hy, if_false, orDefault, hnonzero]
    ring
  · have h0 : 0 ≤ (year - 2000) / 25 := div_nonneg (sub_nonneg.2 hge) (by norm_num)
    rw [min_comm, max_eq_right (le_min zero_le_one h0)]
  · have hneg : (year - 2000) / 25 < 0 := div_neg_of_neg_of_pos (sub_neg.2 hlt) (by norm_num)
    exact lt_of_le_of_lt (min_le_left _ _) hneg

/-- C17 as amended, at the item of 1990. -/
theorem content_score_year_term_witness :
    (demoItemOld ℝ).year = some 1990 ∧ (1990 : ℝ) ≠ 0 ∧
      (demoItemOld ℝ).popularity = some (4 / 5) ∧ (4 / 5 : ℝ) ≠ 0 ∧
      getContentBasedScore demoProfile1 (demoItemOld ℝ) =
        6 / 10 * genreScore demoProfile1 (demoItemOld ℝ) +
          1 / 10 * min (((1990 : ℝ) - 2000) / 25) 1 + 3 / 10 * (4 / 5) ∧
      min (((1990 : ℝ) - 2000) / 25) 1 < 0 :=
  have h := content_score_year_term demoProfile1 (demoItemOld ℝ) 1990 (4 / 5) rfl
    (by norm_num) rfl (by norm_num)
  ⟨rfl, by norm_num, rfl, by norm_num, h.1, h.2.2.2 (by norm_num)⟩

/-- C18, the code at a popularity of 0: the popularity term of `getContentBasedScore` is the
default `1/2`, so the score is `0.6 + 0.1 + 0.3 * (1/2) = 17/20` and not `0.6 + 0.1 + 0.3 * 0`. -/
theorem content_score_popularity_zero :
    (demoItemUnpopular ℝ).popularity = some 0 ∧
      orDefault (demoItemUnpopular ℝ).popularity (1 / 2) = 1 / 2 ∧
      getContentBasedScore demoProfile1 (demoItemUnpopular ℝ) = 17 / 20 ∧
      getContentBasedScore demoProfile1 (demoItemUnpopular ℝ) ≠
        6 / 10 * genreScore demoProfile1 (demoItemUnpopular ℝ) +
          1 / 10 * min (((2025 : ℝ) - 2000) / 25) 1 + 3 / 10 * 0 := by
  have h1 : getContentBasedScore demoProfile1 (demoItemUnpopular ℝ) = 17 / 20 := by
    simp [getContentBasedScore, demoProfile1, demoItemUnpopular, orDefault]
    norm_num
  refine ⟨rfl, by simp [demoItemUnpopular, orDefault], h1, ?_⟩
  rw [h1]
  simp [genreScore, demoProfile1, demoItemUnpopular]
  norm_num

end ContentScoreClaims

/-! ## `getSimilarContent`: the properties -/

section SimilarContentClaims

variable {α : Type} [LinearOrderedField α]

theorem getSimilarContent_fst (store : Store α) (e : Engine α) (contentId : String)
    (count : Nat) :
    (getSimilarContent store e contentId count).1 = (ensureInitialized store e).1 := by
  unfold getSimilarContent
  split
  · rename_i e' err hI
    rw [hI]
  · rename_i e' hI
    rw [hI]
    split <;> rfl

/-- The result of the method once the initialisation step has succeeded. -/
theorem getSimilarContent_snd (store : Store α) (e e' : Engine α) (contentId : String)
    (count : Nat) (hI : ensureInitialized store e = (e', .ok ())) :
    (getSimilarContent store e contentId count).2 =
      match e'.contentItems.find? (fun item => item.id = contentId) with
      | none => .error (.notFound ("Content with ID " ++ contentId ++ " not found"))
      | some baseContent =>
        .ok ((sortDesc ScoredItem.score
          ((e'.contentItems.filter (fun item => item.id ≠ contentId)).map
            (fun item =>
              { item := item, score := calculateContentSimilarity baseContent item }))).take
          count) := by
  unfold getSimilarContent
  rw [hI]
  dsimp only
  split <;> rfl

/-- C19: once the initialisation step has succeeded, `getSimilarContent` throws the not-found
error exactly when no item of the loaded content catalog has the id; the call then yields the
error alone, with the message naming the id. -/
theorem similar_content_notFound_iff (store : Store α) (e e' : Engine α) (contentId : String)
    (count : Nat) (hI : ensureInitialized store e = (e', .ok ())) :
    ((∃ message, (getSimilarContent store e contentId count).2 =
          .error (.notFound message)) ↔ ∀ item ∈ e'.contentItems, item.id ≠ contentId) ∧
      ((∃ err, (getSimilarContent store e contentId count).2 = .error err) ↔
        ∀ item ∈ e'.contentItems, item.id ≠ contentId) ∧
      ((∀ item ∈ e'.contentItems, item.id ≠ contentId) →
        getSimilarContent store e contentId count =
          (e', .error (.notFound ("Content with ID " ++ contentId ++ " not found")))) := by
  have hmiss : (∀ item ∈ e'.contentItems, item.id ≠ contentId) →
      getSimilarContent store e contentId count =
        (e', .error (.notFound ("Content with ID " ++ contentId ++ " not found"))) := by
    intro hno
    have hfind : e'.contentItems.find? (fun item => item.id = contentId) = none :=
      List.find?_eq_none.2 (fun item hitem => by simpa using hno item hitem)
    refine Prod.ext ?_ ?_
    · rw [getSimilarContent_fst, hI]
    · rw [getSimilarContent_snd store e e' contentId count hI, hfind]
  have hfail : ∀ err, (getSimilarContent store e contentId count).2 = .error err →
      ∀ item ∈ e'.contentItems, item.id ≠ contentId := by
    intro err herr
    rw [getSimilarContent_snd store e e' contentId count hI] at herr
    split at herr
    · rename_i hfind
      intro item hitem
      simpa using List.find?_eq_none.1 hfind item hitem
    · cases herr
  exact ⟨⟨fun ⟨message, h⟩ => hfail _ h, fun hno => ⟨_, congrArg Prod.snd (hmiss hno)⟩⟩,
    ⟨fun ⟨err, h⟩ => hfail err h, fun hno => ⟨_, congrArg Prod.snd (hmiss hno)⟩⟩, hmiss⟩

/-- C19 at the demo snapshot: the content catalog has no `Z`. -/
theorem similar_content_notFound_iff_witness :
    ensureInitialized (demoStore ℝ) (Engine.new ℝ) = (demoEngine ℝ, .ok ()) ∧
      (∀ item ∈ (demoEngine ℝ).contentItems, item.id ≠ "Z") ∧
      getSimilarContent (demoStore ℝ) (Engine.new ℝ) "Z" 5 =
        (demoEngine ℝ, .error (.notFound "Content with ID Z not found")) :=
  have hno : ∀ item ∈ (demoEngine ℝ).contentItems, item.id ≠ "Z" := by
    rw [demoEngine_contentItems]
    simp [demoItems]
  ⟨demoEngine_init, hno,
    (similar_content_notFound_iff (demoStore ℝ) (Engine.new ℝ) (demoEngine ℝ) "Z" 5
      demoEngine_init).2.2 hno⟩

/-- C20: once the initialisation step has succeeded, `getSimilarContent` returns a list for
every known content id and every count, and no item of the list has that id. -/
theorem similar_content_excludes_base (store : Store α) (e e' : Engine α) (contentId : String)
    (count : Nat) (hI : ensureInitialized store e = (e', .ok ()))
    (hknown : ∃ item ∈ e'.contentItems, item.id = contentId) :
    ∃ l, getSimilarContent store e contentId count = (e', .ok l) ∧
      ∀ s ∈ l, s.item.id ≠ contentId := by
  obtain ⟨q, hq, hqid⟩ := hknown
  cases hfind : e'.contentItems.find? (fun item => item.id = contentId) with
  | none =>
    have := List.find?_eq_none.1 hfind q hq
    simp [hqid] at this
  | some baseContent =>
    refine ⟨(sortDesc ScoredItem.score
        ((e'.contentItems.filter (fun item => item.id ≠ contentId)).map
          (fun item =>
            { item := item, score := calculateContentSimilarity baseContent item }))).take
        count, Prod.ext ?_ ?_, ?_⟩
    · rw [getSimilarContent_fst, hI]
    · rw [getSimilarContent_snd store e e' contentId count hI, hfind]
    · intro s hs
      have hs' := (sortDesc_perm ScoredItem.score _).mem_iff.1 (List.mem_of_mem_take hs)
      obtain ⟨item, hitem, rfl⟩ := List.mem_map.1 hs'
      simpa using (List.mem_filter.1 hitem).2

set_option maxRecDepth 4000 in
theorem demoEngine_similarContent :
    getSimilarContent (demoStore ℝ) (Engine.new ℝ) "A" 5 =
      (demoEngine ℝ, .ok (demoSimilarContent ℝ)) := by
  refine Prod.ext ?_ ?_
  · rw [getSimilarContent_fst, demoEngine_init]
  · rw [getSimilarContent_snd _ _ _ _ _ demoEngine_init, demoEngine_contentItems]
    simp [demoItems, calculateContentSimilarity, distinct, sortDesc, demoSimilarContent]
    norm_num

/-- C20 at the demo snapshot: the items similar to `A` are `B`, `D` and `C`. -/
theorem similar_content_excludes_base_witness :
    ensureInitialized (demoStore ℝ) (Engine.new ℝ) = (demoEngine ℝ, .ok ()) ∧
      (∃ item ∈ (demoEngine ℝ).contentItems, item.id = "A") ∧
      getSimilarContent (demoStore ℝ) (Engine.new ℝ) "A" 5 =
        (demoEngine ℝ, .ok (demoSimilarContent ℝ)) ∧
      ∃ l, getSimilarContent (demoStore ℝ) (Engine.new ℝ) "A" 5 = (demoEngine ℝ, .ok l) ∧
        ∀ s ∈ l, s.item.id ≠ "A" :=
  ⟨demoEngine_init, ⟨_, List.mem_cons_self _ _, rfl⟩, demoEngine_similarContent,
    similar_content_excludes_base (demoStore ℝ) (Engine.new ℝ) (demoEngine ℝ) "A" 5
      demoEngine_init ⟨_, List.mem_cons_self _ _, rfl⟩⟩

end SimilarContentClaims

/-! ## `distinct` and `calculateContentSimilarity`: lemmas -/

section ContentSimilarity

variable {α : Type} [LinearOrderedField α]

theorem distinct_foldl (l seen : List String) (h : seen.Nodup) :
    (l.foldl (fun seen g => if g ∈ seen then seen else seen ++ [g]) seen).Nodup ∧
      ∀ x, x ∈ l.foldl (fun seen g => if g ∈ seen then seen else seen ++ [g]) seen ↔
        x ∈ seen ∨ x ∈ l := by
  induction l generalizing seen with
  | nil => exact ⟨h, fun x => by simp⟩
  | cons g gs ih =>
    rw [List.foldl_cons]
    by_cases hg : g ∈ seen
    · rw [if_pos hg]
      refine ⟨(ih seen h).1, fun x => ?_⟩
      rw [(ih seen h).2 x, List.mem_cons]
      constructor
      · rintro (hx | hx)
        · exact Or.inl hx
        · exact Or.inr (Or.inr hx)
      · rintro (hx | rfl | hx)
        · exact Or.inl hx
        · exact Or.inl hg
        · exact Or.inr hx
    · rw [if_neg hg]
      have hnd : (seen ++ [g]).Nodup := by
        rw [List.nodup_append]
        refine ⟨h, List.nodup_singleton g, ?_⟩
        intro a ha hb
        rw [List.mem_singleton] at hb
        exact hg (hb ▸ ha)
      refine ⟨(ih _ hnd).1, fun x => ?_⟩
      rw [(ih _ hnd).2 x, List.mem_append, List.mem_singleton, List.mem_cons]
      tauto

theorem nodup_distinct (l : List String) : (distinct l).Nodup :=
  (distinct_foldl l [] List.nodup_nil).1

theorem mem_distinct (l : List String) (x : String) : x ∈ distinct l ↔ x ∈ l := by
  unfold distinct
  rw [(distinct_foldl l [] List.nodup_nil).2 x]
  simp

theorem length_distinct (l : List String) : (distinct l).length = l.toFinset.card := by
  rw [← List.toFinset_card_of_nodup (nodup_distinct l)]
  congr 1
  ext x
  simp [mem_distinct]

theorem length_filter_mem (l₁ l₂ : List String) (h : l₁.Nodup) :
    (l₁.filter (fun g => g ∈ l₂)).length = (l₁.toFinset ∩ l₂.toFinset).card := by
  rw [← List.toFinset_card_of_nodup (h.filter _)]
  congr 1
  ext x
  simp [List.mem_filter]

/-- The three terms of `calculateContentSimilarity`, for a first genre list without
duplicates. -/
theorem calculateContentSimilarity_eq (content1 content2 : ContentItem α)
    (h : (content1.genres.getD []).Nodup) :
    calculateContentSimilarity content1 content2 =
      6 / 10 * genreJaccard content1 content2 +
        3 / 10 * (1 - min (yearDiff content1 content2) 1) +
        1 / 10 * typeMatch content1 content2 := by
  unfold calculateContentSimilarity genreJaccard yearDiff typeMatch
  simp only [length_distinct, length_filter_mem _ _ h, List.toFinset_append, gt_iff_lt]
  by_cases hcard : ((content1.genres.getD []).toFinset ∪
      (content2.genres.getD []).toFinset).card = 0
  · simp only [hcard, lt_self_iff_false, if_false, if_true]
    ring
  · simp only [hcard, Nat.pos_of_ne_zero hcard, if_true, if_false]
    ring

theorem yearDiff_comm (content1 content2 : ContentItem α) :
    yearDiff content1 content2 = yearDiff content2 content1 := by
  unfold yearDiff
  cases content1.year with
  | none => cases content2.year <;> rfl
  | some year1 =>
    cases content2.year with
    | none => rfl
    | some year2 =>
      simp only [abs_sub_comm year1 year2, or_comm]

theorem yearDiff_nonneg (content1 content2 : ContentItem α) :
    0 ≤ yearDiff content1 content2 := by
  unfold yearDiff
  split
  · split
    · norm_num
    · exact div_nonneg (abs_nonneg _) (by norm_num)
  · norm_num

theorem genreJaccard_comm (content1 content2 : ContentItem α) :
    genreJaccard content1 content2 = genreJaccard content2 content1 := by
  unfold genreJaccard
  rw [Finset.union_comm, Finset.inter_comm]

theorem typeMatch_comm (content1 content2 : ContentItem α) :
    typeMatch content1 content2 = typeMatch content2 content1 := by
  unfold typeMatch
  simp only [eq_comm]

theorem genreJaccard_mem_unit (content1 content2 : ContentItem α) :
    0 ≤ genreJaccard content1 content2 ∧ genreJaccard content1 content2 ≤ 1 := by
  unfold genreJaccard
  split
  · exact ⟨le_refl _, zero_le_one⟩
  · rename_i hcard
    have hpos : (0 : α) < (((content1.genres.getD []).toFinset ∪
        (content2.genres.getD []).toFinset).card : α) := by
      exact_mod_cast Nat.pos_of_ne_zero hcard
    refine ⟨div_nonneg (Nat.cast_nonneg _) (le_of_lt hpos), (div_le_one hpos).2 ?_⟩
    exact_mod_cast Finset.card_le_card
      (Finset.inter_subset_left.trans Finset.subset_union_left)

end ContentSimilarity

/-! ## `calculateContentSimilarity`: the properties -/

section ContentSimilarityClaims

variable {α : Type} [LinearOrderedField α]

theorem demo_similarity_yearZero :
    calculateContentSimilarity (demoItemYearZero ℝ) (demoItemMillennium ℝ) = 17 / 20 := by
  simp [calculateContentSimilarity, demoItemYearZero, demoItemMillennium, distinct]
  norm_num

theorem demo_similarity_repeated :
    calculateContentSimilarity (demoItemRepeated ℝ) (demoItemRecent ℝ) = 8 / 5 := by
  simp [calculateContentSimilarity, demoItemRepeated, demoItemRecent, distinct]
  norm_num

/-- C21, refuted as stated: the year of the first item is present and equal to 0, the code takes
the year difference to be `1/2` and returns `17/20`, while the formula of the claim with
`Y = 1 - min(|0 - 2000| / 50, 1) = 0` gives `7/10`. -/
theorem content_similarity_year_zero :
    (demoItemYearZero ℝ).year = some 0 ∧ (demoItemMillennium ℝ).year = some 2000 ∧
      calculateContentSimilarity (demoItemYearZero ℝ) (demoItemMillennium ℝ) = 17 / 20 ∧
      6 / 10 * genreJaccard (demoItemYearZero ℝ) (demoItemMillennium ℝ) +
          3 / 10 * (1 - min (|(0 : ℝ) - 2000| / 50) 1) +
          1 / 10 * typeMatch (demoItemYearZero ℝ) (demoItemMillennium ℝ) = 7 / 10 ∧
      calculateContentSimilarity (demoItemYearZero ℝ) (demoItemMillennium ℝ) ≠
        6 / 10 * genreJaccard (demoItemYearZero ℝ) (demoItemMillennium ℝ) +
          3 / 10 * (1 - min (|(0 : ℝ) - 2000| / 50) 1) +
          1 / 10 * typeMatch (demoItemYearZero ℝ) (demoItemMillennium ℝ) := by
  have h2 : 6 / 10 * genreJaccard (demoItemYearZero ℝ) (demoItemMillennium ℝ) +
      3 / 10 * (1 - min (|(0 : ℝ) - 2000| / 50) 1) +
      1 / 10 * typeMatch (demoItemYearZero ℝ) (demoItemMillennium ℝ) = 7 / 10 := by
    simp [genreJaccard, typeMatch, demoItemYearZero, demoItemMillennium]
    norm_num
  refine ⟨rfl, rfl, demo_similarity_yearZero, h2, ?_⟩
  rw [demo_similarity_yearZero, h2]
  norm_num

/-- C21 as amended: for two content items, the genre list of the first without duplicates,
`calculateContentSimilarity(a, b) = 0.6 * J + 0.3 * Y + 0.1 * T` with `J` the Jaccard similarity
of the genre sets, `T` the type match, `Y = 1 - min(|year(a) - year(b)| / 50, 1)` when both years
are present and non-zero, and `Y = 1/2` when either year is missing. -/
theorem content_similarity_formula (a b : ContentItem α) (h : (a.genres.getD []).Nodup) :
    (∀ year1 year2, a.year = some year1 → b.year = some year2 → year1 ≠ 0 → year2 ≠ 0 →
        calculateContentSimilarity a b =
          6 / 10 * genreJaccard a b + 3 / 10 * (1 - min (|year1 - year2| / 50) 1) +
            1 / 10 * typeMatch a b) ∧
      (a.year = none ∨ b.year = none →
        calculateContentSimilarity a b =
          6 / 10 * genreJaccard a b + 3 / 10 * (1 / 2) + 1 / 10 * typeMatch a b) := by
  refine ⟨fun year1 year2 h1 h2 hz1 hz2 => ?_, fun hmissing => ?_⟩
  · rw [calculateContentSimilarity_eq a b h]
    have hd : yearDiff a b = |year1 - year2| / 50 := by
      unfold yearDiff
      rw [h1, h2]
      simp [hz1, hz2]
    rw [hd]
  · rw [calculateContentSimilarity_eq a b h]
    have hd : yearDiff a b = 1 / 2 := by
      unfold yearDiff
      rcases hmissing with h1 | h2
      · rw [h1]
      · rw [h2]
        cases a.year <;> rfl
    rw [hd, min_eq_left (by norm_num : (1 / 2 : α) ≤ 1)]
    norm_num

/-- C21 as amended, at the items of 2021 and of 1990. -/
theorem content_similarity_formula_witness :
    ((demoItemRecent ℝ).genres.getD []).Nodup ∧ (demoItemRecent ℝ).year = some 2021 ∧
      (demoItemOld ℝ).year = some 1990 ∧ (2021 : ℝ) ≠ 0 ∧ (1990 : ℝ) ≠ 0 ∧
      calculateContentSimilarity (demoItemRecent ℝ) (demoItemOld ℝ) =
        6 / 10 * genreJaccard (demoItemRecent ℝ) (demoItemOld ℝ) +
          3 / 10 * (1 - min (|(2021 : ℝ) - 1990| / 50) 1) +
          1 / 10 * typeMatch (demoItemRecent ℝ) (demoItemOld ℝ) :=
  have hn : ((demoItemRecent ℝ).genres.getD []).Nodup := by simp [demoItemRecent]
  ⟨hn, rfl, rfl, by norm_num, by norm_num,
    (content_similarity_formula (demoItemRecent ℝ) (demoItemOld ℝ) hn).1 2021 1990 rfl rfl
      (by norm_num) (by norm_num)⟩

/-- For a first genre list without duplicates the similarity lies in the unit interval. -/
theorem calculateContentSimilarity_mem_unit (a b : ContentItem α)
    (h : (a.genres.getD []).Nodup) :
    0 ≤ calculateContentSimilarity a b ∧ calculateContentSimilarity a b ≤ 1 := by
  rw [calculateContentSimilarity_eq a b h]
  obtain ⟨hJ0, hJ1⟩ := genreJaccard_mem_unit a b
  have hY0 : 0 ≤ min (yearDiff a b) 1 := le_min (yearDiff_nonneg a b) zero_le_one
  have hY1 : min (yearDiff a b) 1 ≤ 1 := min_le_right _ _
  have hT : 0 ≤ typeMatch a b ∧ typeMatch a b ≤ 1 := by
    unfold typeMatch
    split <;> norm_num
  constructor <;> linarith [hT.1, hT.2]

/-- C26, the code at a genre list with a repeated entry: the genre named twice in the first list
is counted twice in the intersection and once in the union, so the genre term is 2 and the
similarity is `8/5`, outside the documented range from 0 to 1. -/
theorem content_similarity_above_one :
    (demoItemRepeated ℝ).genres = some ["action", "action"] ∧
      (demoItemRecent ℝ).genres = some ["action"] ∧
      calculateContentSimilarity (demoItemRepeated ℝ) (demoItemRecent ℝ) = 8 / 5 ∧
      ¬ calculateContentSimilarity (demoItemRepeated ℝ) (demoItemRecent ℝ) ≤ 1 := by
  refine ⟨rfl, rfl, demo_similarity_repeated, ?_⟩
  rw [demo_similarity_repeated]
  norm_num

/-- C30: for two content items whose genre lists contain no duplicates,
`calculateContentSimilarity(a, b)` equals `calculateContentSimilarity(b, a)`. -/
theorem content_similarity_symm (a b : ContentItem α) (ha : (a.genres.getD []).Nodup)
    (hb : (b.genres.getD []).Nodup) :
    calculateContentSimilarity a b = calculateContentSimilarity b a := by
  rw [calculateContentSimilarity_eq a b ha, calculateContentSimilarity_eq b a hb,
    genreJaccard_comm a b, yearDiff_comm a b, typeMatch_comm a b]

/-- C30 at the items `B` and `C` of the demo snapshot. -/
theorem content_similarity_symm_witness :
    ((demoItemRecent ℝ).genres.getD []).Nodup ∧ ((demoItemSeries ℝ).genres.getD []).Nodup ∧
      calculateContentSimilarity (demoItemRecent ℝ) (demoItemSeries ℝ) =
        calculateContentSimilarity (demoItemSeries ℝ) (demoItemRecent ℝ) :=
  have ha : ((demoItemRecent ℝ).genres.getD []).Nodup := by simp [demoItemRecent]
  have hb : ((demoItemSeries ℝ).genres.getD []).Nodup := by simp [demoItemSeries]
  ⟨ha, hb, content_similarity_symm (demoItemRecent ℝ) (demoItemSeries ℝ) ha hb⟩

end ContentSimilarityClaims

/-! ## `generateContentFeatures` and `initialize`: the properties -/

section FeatureClaims

variable {α : Type} [LinearOrderedField α]

theorem get_foldl_set_fun_of_not_mem {β γ : Type} (f : γ → String) (v : γ → β) (l : List γ)
    (acc : Dict β) (k : String) (h : ∀ x ∈ l, f x ≠ k) :
    Dict.get (l.foldl (fun d x => Dict.set d (f x) (v x)) acc) k = Dict.get acc k := by
  induction l generalizing acc with
  | nil => rfl
  | cons y ys ih =>
    rw [List.foldl_cons, ih _ (fun x hx => h x (List.mem_cons_of_mem _ hx)),
      Dict.get_set_ne acc (v y) (Ne.symm (h y (List.mem_cons_self _ _)))]

/-- Reading a dictionary filled by a loop of writes: some element of the loop with the key wrote
the value. -/
theorem get_foldl_set_fun_of_mem {β γ : Type} (f : γ → String) (v : γ → β) (l : List γ)
    (acc : Dict β) (k : String) (h : ∃ x ∈ l, f x = k) :
    ∃ x ∈ l, f x = k ∧ Dict.get (l.foldl (fun d x => Dict.set d (f x) (v x)) acc) k =
      some (v x) := by
  induction l generalizing acc with
  | nil => simp at h
  | cons y ys ih =>
    rw [List.foldl_cons]
    by_cases hys : ∃ x ∈ ys, f x = k
    · obtain ⟨x, hx, hfx, hget⟩ := ih (Dict.set acc (f y) (v y)) hys
      exact ⟨x, List.mem_cons_of_mem _ hx, hfx, hget⟩
    · obtain ⟨x, hx, hfx⟩ := h
      rcases List.mem_cons.1 hx with rfl | hx
      · refine ⟨x, List.mem_cons_self _ _, hfx, ?_⟩
        rw [get_foldl_set_fun_of_not_mem f v ys _ k (fun z hz hc => hys ⟨z, hz, hc⟩), ← hfx,
          Dict.get_set_self]
      · exact absurd ⟨x, hx, hfx⟩ hys

theorem nodup_keys_foldl_set_fun {β γ : Type} (f : γ → String) (v : γ → β) (l : List γ)
    (acc : Dict β) (h : (Dict.keys acc).Nodup) :
    (Dict.keys (l.foldl (fun d x => Dict.set d (f x) (v x)) acc)).Nodup := by
  induction l generalizing acc with
  | nil => simpa using h
  | cons x xs ih => exact ih _ (Dict.nodup_keys_set acc (f x) (v x) h)

theorem mem_foldl_set_fun {β γ : Type} (f : γ → String) (v : γ → β) (l : List γ)
    (acc : Dict β) (x : String × β)
    (h : x ∈ l.foldl (fun d y => Dict.set d (f y) (v y)) acc) :
    x ∈ acc ∨ ∃ y ∈ l, x = (f y, v y) := by
  induction l generalizing acc with
  | nil => exact Or.inl h
  | cons y ys ih =>
    rw [List.foldl_cons] at h
    rcases ih _ h with h' | ⟨z, hz, hxz⟩
    · rcases Dict.mem_set acc (f y) (v y) x h' with h'' | h''
      · exact Or.inr ⟨y, List.mem_cons_self _ _, h''⟩
      · exact Or.inl h''
    · exact Or.inr ⟨z, List.mem_cons_of_mem _ hz, hxz⟩

theorem mem_allGenres (e : Engine α) (g : String) :
    g ∈ distinct (e.contentItems.flatMap (fun item => item.genres.getD [])) ↔
      genreUniverse e.contentItems g := by
  rw [mem_distinct, List.mem_flatMap]
  rfl

/-- The genre vector built by `normalizeGenres`: its keys are pairwise distinct, they are the
genres observed in the catalog, and each holds 1 or 0 as the given list has the genre or not. -/
theorem normalizeGenres_spec (e : Engine α) (genres : List String) :
    (Dict.keys (normalizeGenres e genres : Dict α)).Nodup ∧
      (∀ g, g ∈ Dict.keys (normalizeGenres e genres : Dict α) ↔
        genreUniverse e.contentItems g) ∧
      ∀ g, genreUniverse e.contentItems g →
        Dict.get (normalizeGenres e genres : Dict α) g =
          some (if g ∈ genres then 1 else 0) := by
  have hval : ∀ g, genreUniverse e.contentItems g →
      Dict.get (normalizeGenres e genres : Dict α) g = some (if g ∈ genres then 1 else 0) := by
    intro g hg
    obtain ⟨x, -, hx, hget⟩ := get_foldl_set_fun_of_mem (fun g : String => g)
      (fun g : String => (if g ∈ genres then (1 : α) else 0))
      (distinct (e.contentItems.flatMap (fun item => item.genres.getD []))) [] g
      ⟨g, (mem_allGenres e g).2 hg, rfl⟩
    have hx' : x = g := hx
    subst hx'
    exact hget
  refine ⟨?_, fun g => ?_, hval⟩
  · exact nodup_keys_foldl_set_fun (fun g : String => g) _ _ [] (by simp [Dict.keys])
  · rw [← Dict.get_isSome_iff]
    constructor
    · intro hsome
      by_contra hnot
      have hnone : Dict.get (normalizeGenres e genres : Dict α) g = none := by
        unfold normalizeGenres
        rw [get_foldl_set_fun_of_not_mem (fun g : String => g) _ _ [] g
          (fun x hx hxg => hnot ((mem_allGenres e g).1 (hxg ▸ hx)))]
        rfl
      rw [hnone] at hsome
      simp at hsome
    · intro hg
      rw [hval g hg]
      rfl

/-- C23: after `generateContentFeatures` every genre-membership map of the feature table has
pairwise distinct keys that are exactly the genres of the catalog items; the map built for an
item holds 1 at the genres of the item and 0 at the others; every catalog id has an entry, built
for an item with that id, and it is the entry of the item itself when the ids are pairwise
distinct. -/
theorem content_features_genres (e : Engine α) :
    (∀ entry ∈ (generateContentFeatures e).contentFeatures,
        (Dict.keys entry.2.genres).Nodup ∧
          ∀ g, g ∈ Dict.keys entry.2.genres ↔ genreUniverse e.contentItems g) ∧
      (∀ item ∈ e.contentItems, ∀ g, genreUniverse e.contentItems g →
        Dict.get (featuresOf e item).genres g =
          some (if g ∈ item.genres.getD [] then 1 else 0)) ∧
      (∀ item ∈ e.contentItems, ∃ item' ∈ e.contentItems, item'.id = item.id ∧
        Dict.get (generateContentFeatures e).contentFeatures item.id =
          some (featuresOf e item')) ∧
      ((e.contentItems.map (fun item => item.id)).Nodup → ∀ item ∈ e.contentItems,
        Dict.get (generateContentFeatures e).contentFeatures item.id =
          some (featuresOf e item)) := by
  have hentry : ∀ item ∈ e.contentItems, ∃ item' ∈ e.contentItems, item'.id = item.id ∧
      Dict.get (generateContentFeatures e).contentFeatures item.id =
        some (featuresOf e item') := by
    intro item hitem
    exact get_foldl_set_fun_of_mem (fun item : ContentItem α => item.id) (featuresOf e)
      e.contentItems [] item.id ⟨item, hitem, rfl⟩
  refine ⟨fun entry hmem => ?_, fun item _ g hg => ?_, hentry, fun hnodup item hitem => ?_⟩
  · rcases mem_foldl_set_fun (fun item : ContentItem α => item.id) (featuresOf e)
      e.contentItems [] entry hmem with h | ⟨item, -, rfl⟩
    · simp at h
    · exact ⟨(normalizeGenres_spec e (item.genres.getD [])).1,
        (normalizeGenres_spec e (item.genres.getD [])).2.1⟩
  · exact (normalizeGenres_spec e (item.genres.getD [])).2.2 g hg
  · obtain ⟨item', hitem', hid, hget⟩ := hentry item hitem
    have heq : item' = item :=
      List.inj_on_of_nodup_map hnodup hitem' hitem hid
    rw [← heq]
    rw [heq] at hget ⊢
    exact hget

set_option maxRecDepth 4000 in
theorem demoEngine_features_series :
    (featuresOf (demoEngine ℝ) (demoItemSeries ℝ)).genres = [("action", 1), ("drama", 1)] := by
  unfold featuresOf normalizeGenres
  rw [demoEngine_contentItems]
  simp [demoItems, demoItemSeries, distinct, Dict.set]

/-- C23 at the demo snapshot: the catalog genres are `action` and `drama`, and the entry of `C`
holds 1 for both. -/
theorem content_features_genres_witness :
    ((demoEngine ℝ).contentItems.map (fun item => item.id)).Nodup ∧
      demoItemSeries ℝ ∈ (demoEngine ℝ).contentItems ∧
      Dict.get (generateContentFeatures (demoEngine ℝ)).contentFeatures "C" =
        some (featuresOf (demoEngine ℝ) (demoItemSeries ℝ)) ∧
      (featuresOf (demoEngine ℝ) (demoItemSeries ℝ)).genres = [("action", 1), ("drama", 1)] :=
  have hn : ((demoEngine ℝ).contentItems.map (fun item => item.id)).Nodup := by
    rw [demoEngine_contentItems]
    simp [demoItems]
  have hm : demoItemSeries ℝ ∈ (demoEngine ℝ).contentItems := by
    rw [demoEngine_contentItems]
    simp [demoItems, demoItemSeries]
  ⟨hn, hm, (content_features_genres (demoEngine ℝ)).2.2.2 hn (demoItemSeries ℝ) hm,
    demoEngine_features_series⟩

/-- C24, refuted as stated: the demo engine is initialised, the store now holds the snapshot
with the dislike, and after a second `initialize()` the catalogs and the matrix of the engine
are still those of the first snapshot, not those of the store. -/
theorem initialize_keeps_first_snapshot :
    (demoEngine ℝ).initialized = true ∧
      (dislikeStore ℝ).content = .ok (dislikeItems ℝ) ∧
      (dislikeStore ℝ).profiles = .ok dislikeProfiles ∧
      (initializeEngine (dislikeStore ℝ) (demoEngine ℝ)).2 = .ok () ∧
      (initializeEngine (dislikeStore ℝ) (demoEngine ℝ)).1.contentItems = demoItems ℝ ∧
      (initializeEngine (dislikeStore ℝ) (demoEngine ℝ)).1.userProfiles = demoProfiles ∧
      (initializeEngine (dislikeStore ℝ) (demoEngine ℝ)).1.contentItems ≠ dislikeItems ℝ ∧
      (initializeEngine (dislikeStore ℝ) (demoEngine ℝ)).1.userProfiles ≠ dislikeProfiles := by
  have h : initializeEngine (dislikeStore ℝ) (demoEngine ℝ) = (demoEngine ℝ, .ok ()) := by
    have hinit : (demoEngine ℝ).initialized = true := rfl
    unfold initializeEngine
    rw [if_pos hinit]
  rw [h]
  refine ⟨rfl, rfl, rfl, rfl, rfl, rfl, ?_, ?_⟩
  · rw [demoEngine_contentItems]
    simp [demoItems, dislikeItems]
  · rw [demoEngine_userProfiles]
    simp [demoProfiles, dislikeProfiles]

/-- C24 as amended: `initialize()` on an engine that is already initialised returns at once and
leaves every field of the engine as it was, whatever the store holds. -/
theorem initialize_idle_when_initialized (store : Store α) (e : Engine α)
    (h : e.initialized = true) : initializeEngine store e = (e, .ok ()) := by
  unfold initializeEngine
  rw [if_pos h]

/-- C24 as amended, at the demo engine and the store with the dislike. -/
theorem initialize_idle_when_initialized_witness :
    (demoEngine ℝ).initialized = true ∧
      initializeEngine (dislikeStore ℝ) (demoEngine ℝ) = (demoEngine ℝ, .ok ()) :=
  ⟨rfl, initialize_idle_when_initialized (dislikeStore ℝ) (demoEngine ℝ) rfl⟩

end FeatureClaims

/-! ## Bounds on the similarity and on the collaborative score: the properties -/

section BoundClaims

variable {α : Type} [LinearOrderedField α]

theorem dislikeEngine_init :
    ensureInitialized (dislikeStore ℝ) (Engine.new ℝ) = (dislikeEngine ℝ, .ok ()) := by
  refine Prod.ext rfl ?_
  simp [ensureInitialized, initializeEngine, dislikeStore, Engine.new]

theorem dislikeEngine_built : Built (dislikeEngine ℝ) := ⟨dislikeLog, rfl⟩

set_option maxRecDepth 4000 in
theorem dislikeEngine_interactionMatrix :
    (dislikeEngine ℝ).interactionMatrix = [("p1", dislikeRow1 ℝ), ("p2", dislikeRow2 ℝ)] := by
  simp [dislikeEngine, ensureInitialized, initializeEngine, dislikeStore, Engine.new,
    initializeModel, generateContentFeatures, processInteractions, dislikeItems,
    dislikeProfiles, dislikeLog, emptyMatrix, emptyRow, addInteraction, Dict.set, Dict.get,
    interactionWeight, dislikeRow1, dislikeRow2]

/-- C25, the code at a like and a dislike of one item: the rows of `p1` and `p2` built by
`processInteractions` are `{A: 5, B: 0}` and `{A: -5, B: 0}`, and `calculateUserSimilarity`
returns -1, outside the documented range from 0 to 1. -/
theorem user_similarity_negative :
    Built (dislikeEngine ℝ) ∧
      Dict.get (dislikeEngine ℝ).interactionMatrix "p1" = some (dislikeRow1 ℝ) ∧
      Dict.get (dislikeEngine ℝ).interactionMatrix "p2" = some (dislikeRow2 ℝ) ∧
      calculateUserSimilarity Real.sqrt (dislikeRow1 ℝ) (dislikeRow2 ℝ) = -1 ∧
      ¬ 0 ≤ calculateUserSimilarity Real.sqrt (dislikeRow1 ℝ) (dislikeRow2 ℝ) := by
  have h : calculateUserSimilarity Real.sqrt (dislikeRow1 ℝ) (dislikeRow2 ℝ) = -1 := by
    simp [calculateUserSimilarity, dislikeRow1, dislikeRow2, Dict.get]
  refine ⟨dislikeEngine_built, ?_, ?_, h, ?_⟩
  · rw [dislikeEngine_interactionMatrix]
    simp [Dict.get]
  · rw [dislikeEngine_interactionMatrix]
    simp [Dict.get]
  · rw [h]
    norm_num

theorem dotOver_eq_finset_sum (keys : List String) (hk : keys.Nodup) (u v : Dict α) :
    dotOver keys u v = keys.toFinset.sum (fun c => Dict.val u c * Dict.val v c) := by
  unfold dotOver
  rw [List.sum_toFinset _ hk]

/-- The sum of the squares of a row over the keys of another row is at most its own. -/
theorem dotOver_self_le (u v : Dict α) (hu : (Dict.keys u).Nodup) (hv : (Dict.keys v).Nodup) :
    dotOver (Dict.keys u) v v ≤ dotOver (Dict.keys v) v v := by
  rw [dotOver_eq_finset_sum _ hu, dotOver_eq_finset_sum _ hv]
  have h1 : (Dict.keys u).toFinset.sum (fun c => Dict.val v c * Dict.val v c) ≤
      ((Dict.keys u).toFinset ∪ (Dict.keys v).toFinset).sum
        (fun c => Dict.val v c * Dict.val v c) :=
    Finset.sum_le_sum_of_subset_of_nonneg Finset.subset_union_left
      (fun c _ _ => mul_self_nonneg _)
  have h2 : (Dict.keys v).toFinset.sum (fun c => Dict.val v c * Dict.val v c) =
      ((Dict.keys u).toFinset ∪ (Dict.keys v).toFinset).sum
        (fun c => Dict.val v c * Dict.val v c) := by
    refine Finset.sum_subset Finset.subset_union_right (fun c _ hc => ?_)
    rw [Dict.val_eq_zero_of_not_mem v c (by simpa using hc), zero_mul]
  rw [h2]
  exact h1

/-- The Cauchy-Schwarz inequality for the three sums of `calculateUserSimilarity`. -/
theorem dotOver_sq_le (u v : Dict α) (hu : (Dict.keys u).Nodup) (hv : (Dict.keys v).Nodup) :
    dotOver (Dict.keys u) u v ^ 2 ≤
      dotOver (Dict.keys u) u u * dotOver (Dict.keys v) v v := by
  have hcs : dotOver (Dict.keys u) u v ^ 2 ≤
      dotOver (Dict.keys u) u u * dotOver (Dict.keys u) v v := by
    rw [dotOver_eq_finset_sum _ hu, dotOver_eq_finset_sum _ hu, dotOver_eq_finset_sum _ hu]
    have := Finset.sum_mul_sq_le_sq_mul_sq (Dict.keys u).toFinset
      (fun c => Dict.val u c) (fun c => Dict.val v c)
    simpa only [sq] using this
  exact le_trans hcs
    (mul_le_mul_of_nonneg_left (dotOver_self_le u v hu hv) (dotOver_self_nonneg _ u))

/-- In exact arithmetic, with a square root that is non-negative and satisfies
`sqrt x * sqrt x = x` on non-negative numbers, `calculateUserSimilarity(u, v)` lies between -1
and 1, and between 0 and 1 when all weights of both rows are non-negative. Doubles do not keep
the upper bound. -/
theorem calculateUserSimilarity_exact_bounds (sqrt : α → α) (u v : Dict α) (hu : (Dict.keys u).Nodup)
    (hv : (Dict.keys v).Nodup) (hsqrt : ∀ x, 0 ≤ x → 0 ≤ sqrt x ∧ sqrt x * sqrt x = x) :
    (-1 ≤ calculateUserSimilarity sqrt u v ∧ calculateUserSimilarity sqrt u v ≤ 1) ∧
      ((∀ c, 0 ≤ Dict.val u c) → (∀ c, 0 ≤ Dict.val v c) →
        0 ≤ calculateUserSimilarity sqrt u v ∧ calculateUserSimilarity sqrt u v ≤ 1) := by
  have heq := calculateUserSimilarity_eq sqrt u v hu hv
  obtain ⟨h1, hs1⟩ := hsqrt _ (dotOver_self_nonneg (Dict.keys u) u)
  obtain ⟨h2, hs2⟩ := hsqrt _ (dotOver_self_nonneg (Dict.keys v) v)
  have hsq : (sqrt (dotOver (Dict.keys u) u u) * sqrt (dotOver (Dict.keys v) v v)) ^ 2 =
      dotOver (Dict.keys u) u u * dotOver (Dict.keys v) v v := by
    calc (sqrt (dotOver (Dict.keys u) u u) * sqrt (dotOver (Dict.keys v) v v)) ^ 2
        = (sqrt (dotOver (Dict.keys u) u u) * sqrt (dotOver (Dict.keys u) u u)) *
            (sqrt (dotOver (Dict.keys v) v v) * sqrt (dotOver (Dict.keys v) v v)) := by ring
      _ = dotOver (Dict.keys u) u u * dotOver (Dict.keys v) v v := by rw [hs1, hs2]
  have hbound : -1 ≤ calculateUserSimilarity sqrt u v ∧
      calculateUserSimilarity sqrt u v ≤ 1 := by
    rw [heq]
    split
    · rename_i hpos
      have hle : dotOver (Dict.keys u) u v ^ 2 ≤
          (sqrt (dotOver (Dict.keys u) u u) * sqrt (dotOver (Dict.keys v) v v)) ^ 2 := by
        rw [hsq]
        exact dotOver_sq_le u v hu hv
      obtain ⟨hlo, hhi⟩ := abs_le_of_sq_le_sq' hle (le_of_lt hpos)
      refine ⟨?_, (div_le_one hpos).2 hhi⟩
      rw [le_div_iff₀ hpos]
      linarith
    · norm_num
  refine ⟨hbound, fun hunn hvnn => ⟨?_, hbound.2⟩⟩
  rw [heq]
  split
  · rename_i hpos
    refine div_nonneg ?_ (le_of_lt hpos)
    unfold dotOver
    refine List.sum_nonneg (fun x hx => ?_)
    obtain ⟨c, -, rfl⟩ := List.mem_map.1 hx
    exact mul_nonneg (hunn c) (hvnn c)
  · exact le_refl _

end BoundClaims

/-! ## The collaborative score as a mean, and the full candidate list: the properties -/

section MeanClaims

variable {α : Type} [LinearOrderedField α]

theorem exists_min_image {β : Type} (f : β → α) (l : List β) (h : l ≠ []) :
    ∃ a ∈ l, ∀ s ∈ l, f a ≤ f s := by
  induction l with
  | nil => exact absurd rfl h
  | cons x xs ih =>
    by_cases hxs : xs = []
    · subst hxs
      exact ⟨x, List.mem_cons_self _ _, fun s hs => by
        rw [List.mem_singleton] at hs
        rw [hs]⟩
    · obtain ⟨a, ha, hmin⟩ := ih hxs
      by_cases hle : f x ≤ f a
      · refine ⟨x, List.mem_cons_self _ _, fun s hs => ?_⟩
        rcases List.mem_cons.1 hs with rfl | hs
        · exact le_refl _
        · exact le_trans hle (hmin s hs)
      · refine ⟨a, List.mem_cons_of_mem _ ha, fun s hs => ?_⟩
        rcases List.mem_cons.1 hs with rfl | hs
        · exact le_of_lt (not_le.1 hle)
        · exact hmin s hs

theorem exists_max_image {β : Type} (f : β → α) (l : List β) (h : l ≠ []) :
    ∃ b ∈ l, ∀ s ∈ l, f s ≤ f b := by
  obtain ⟨b, hb, hmax⟩ := exists_min_image (fun s => - f s) l h
  exact ⟨b, hb, fun s hs => neg_le_neg_iff.1 (hmax s hs)⟩

/-- A mean with positive weights is at least every lower bound of the values. -/
theorem weighted_mean_ge {β : Type} (w s : β → α) (l : List β) (lo : α)
    (hs : ∀ x ∈ l, 0 < s x) (hlo : ∀ x ∈ l, lo ≤ w x) :
    lo * (l.map s).sum ≤ (l.map (fun x => w x * s x)).sum := by
  induction l with
  | nil => simp
  | cons x xs ih =>
    simp only [List.map_cons, List.sum_cons]
    have h1 : lo * s x ≤ w x * s x :=
      mul_le_mul_of_nonneg_right (hlo x (List.mem_cons_self _ _))
        (le_of_lt (hs x (List.mem_cons_self _ _)))
    have h2 := ih (fun y hy => hs y (List.mem_cons_of_mem _ hy))
      (fun y hy => hlo y (List.mem_cons_of_mem _ hy))
    linarith

theorem weighted_mean_le {β : Type} (w s : β → α) (l : List β) (hi : α)
    (hs : ∀ x ∈ l, 0 < s x) (hhi : ∀ x ∈ l, w x ≤ hi) :
    (l.map (fun x => w x * s x)).sum ≤ hi * (l.map s).sum := by
  induction l with
  | nil => simp
  | cons x xs ih =>
    simp only [List.map_cons, List.sum_cons]
    have h1 : w x * s x ≤ hi * s x :=
      mul_le_mul_of_nonneg_right (hhi x (List.mem_cons_self _ _))
        (le_of_lt (hs x (List.mem_cons_self _ _)))
    have h2 := ih (fun y hy => hs y (List.mem_cons_of_mem _ hy))
      (fun y hy => hhi y (List.mem_cons_of_mem _ hy))
    linarith

/-- In exact arithmetic, when the list `l` returned by `findSimilarUsers(profileId)` is
non-empty, `getCollaborativeScore(profileId, contentId)` returns a value between the least and
the greatest accumulated weight for `contentId` among the neighbours of `l`. Doubles keep this
up to rounding only. -/
theorem getCollaborativeScore_exact_between (sqrt : α → α) (e : Engine α) (profileId contentId : String)
    (l : List (SimilarUser α)) (h : findSimilarUsers sqrt e profileId = .ok l) (hne : l ≠ []) :
    ∃ c, getCollaborativeScore sqrt e profileId contentId = .ok c ∧
      (∃ a ∈ l, (∀ s ∈ l, weight e a.id contentId ≤ weight e s.id contentId) ∧
        weight e a.id contentId ≤ c) ∧
      (∃ b ∈ l, (∀ s ∈ l, weight e s.id contentId ≤ weight e b.id contentId) ∧
        c ≤ weight e b.id contentId) := by
  have hpos := similarity_sum_pos sqrt e profileId l h hne
  have hall : ∀ s ∈ l, 0 < s.similarity :=
    fun s hs => (findSimilarUsers_mem sqrt e profileId l h s hs).2
  refine ⟨_, by rw [getCollaborativeScore_eq sqrt e profileId contentId l h, if_pos hpos],
    ?_, ?_⟩
  · obtain ⟨a, ha, hmin⟩ := exists_min_image (fun s : SimilarUser α => weight e s.id contentId)
      l hne
    refine ⟨a, ha, hmin, ?_⟩
    rw [le_div_iff₀ hpos]
    exact weighted_mean_ge (fun s : SimilarUser α => weight e s.id contentId)
      SimilarUser.similarity l _ hall hmin
  · obtain ⟨b, hb, hmax⟩ := exists_max_image (fun s : SimilarUser α => weight e s.id contentId)
      l hne
    refine ⟨b, hb, hmax, ?_⟩
    rw [div_le_iff₀ hpos]
    exact weighted_mean_le (fun s : SimilarUser α => weight e s.id contentId)
      SimilarUser.similarity l _ hall hmax

/-- C29: on a matrix built by `processInteractions`, for a known profile and a count at least
the size of the catalog, the items returned by `getPersonalizedRecommendations` are, up to
order, the catalog items whose accumulated weight for the profile is less than or equal to 0;
so the returned ids are exactly the ids of those items. -/
theorem personalized_all_nonpositive (sqrt : α → α) (store : Store α) (e e' : Engine α)
    (profileId : String) (count : Nat) (hI : ensureInitialized store e = (e', .ok ()))
    (hbuilt : Built e') (hknown : ∃ p ∈ e'.userProfiles, p.id = profileId)
    (hcount : e'.contentItems.length ≤ count) :
    ∃ l, getPersonalizedRecommendations sqrt store e profileId count = (e', .ok l) ∧
      (l.map ScoredItem.item).Perm
        (e'.contentItems.filter (fun item => weight e' profileId item.id ≤ 0)) ∧
      ∀ id, id ∈ l.map (fun s => s.item.id) ↔
        ∃ item ∈ e'.contentItems, item.id = id ∧ weight e' profileId item.id ≤ 0 := by
  have hok := matrixOK_of_built e' hbuilt
  obtain ⟨l, hl⟩ := getPersonalizedRecommendations_run sqrt store e e' profileId count hI
    hok.1 hknown
  obtain ⟨-, profile, scored, -, hmap, hlist⟩ :=
    getPersonalizedRecommendations_ok sqrt store e e' profileId count l hl
  have hfilter : e'.contentItems.filter (fun item => item.id ∉ watchHistory e' profileId) =
      e'.contentItems.filter (fun item => weight e' profileId item.id ≤ 0) := by
    refine List.filter_congr (fun item _ => ?_)
    have := mem_watchHistory_iff e' profileId item.id (fun row hrow => hok.2 profileId row hrow)
    simp only [this, not_lt]
  have hitems : scored.map ScoredItem.item =
      e'.contentItems.filter (fun item => weight e' profileId item.id ≤ 0) := by
    rw [← hfilter]
    have := mapExcept_map _ _ _ hmap ScoredItem.item id
      (fun item s hs => (scoreItem_ok sqrt e' profileId profile item s hs).1)
    rw [List.map_id] at this
    exact this
  have hlen : (sortDesc ScoredItem.score scored).length ≤ count := by
    rw [(sortDesc_perm ScoredItem.score scored).length_eq, ← List.length_map scored
      ScoredItem.item, hitems]
    exact le_trans (List.length_filter_le _ _) hcount
  have hperm : (l.map ScoredItem.item).Perm
      (e'.contentItems.filter (fun item => weight e' profileId item.id ≤ 0)) := by
    rw [hlist, List.take_of_length_le hlen, ← hitems]
    exact (sortDesc_perm ScoredItem.score scored).map ScoredItem.item
  refine ⟨l, hl, hperm, fun id => ?_⟩
  have hmapid : l.map (fun s => s.item.id) =
      (l.map ScoredItem.item).map (fun item => item.id) := by
    rw [List.map_map]
    rfl
  rw [hmapid, List.mem_map]
  constructor
  · rintro ⟨item, hitem, rfl⟩
    obtain ⟨hmem, hw⟩ := List.mem_filter.1 (hperm.mem_iff.1 hitem)
    exact ⟨item, hmem, rfl, by simpa using hw⟩
  · rintro ⟨item, hmem, rfl, hw⟩
    exact ⟨item, hperm.mem_iff.2 (List.mem_filter.2 ⟨hmem, by simpa using hw⟩), rfl⟩

theorem dislikeEngine_weight : weight (dislikeEngine ℝ) "p2" "A" = -5 := by
  unfold weight
  rw [dislikeEngine_interactionMatrix]
  simp [Dict.get, Dict.val, dislikeRow2]

/-- C29 at the snapshot with a dislike: `p2` has only disliked `A`, its weight is -5, and `A`
is among the recommendations for `p2`. -/
theorem personalized_all_nonpositive_witness :
    ensureInitialized (dislikeStore ℝ) (Engine.new ℝ) = (dislikeEngine ℝ, .ok ()) ∧
      Built (dislikeEngine ℝ) ∧ (∃ p ∈ (dislikeEngine ℝ).userProfiles, p.id = "p2") ∧
      (dislikeEngine ℝ).contentItems.length ≤ 2 ∧
      weight (dislikeEngine ℝ) "p2" "A" = -5 ∧
      ∃ l, getPersonalizedRecommendations Real.sqrt (dislikeStore ℝ) (Engine.new ℝ) "p2" 2 =
          (dislikeEngine ℝ, .ok l) ∧
        (l.map ScoredItem.item).Perm
          ((dislikeEngine ℝ).contentItems.filter
            (fun item => weight (dislikeEngine ℝ) "p2" item.id ≤ 0)) ∧
        ∀ id, id ∈ l.map (fun s => s.item.id) ↔
          ∃ item ∈ (dislikeEngine ℝ).contentItems,
            item.id = id ∧ weight (dislikeEngine ℝ) "p2" item.id ≤ 0 :=
  have hk : ∃ p ∈ (dislikeEngine ℝ).userProfiles, p.id = "p2" :=
    ⟨⟨"p2", none⟩, List.mem_cons_of_mem _ (List.mem_cons_self _ _), rfl⟩
  have hc : (dislikeEngine ℝ).contentItems.length ≤ 2 := le_refl 2
  ⟨dislikeEngine_init, dislikeEngine_built, hk, hc, dislikeEngine_weight,
    personalized_all_nonpositive Real.sqrt (dislikeStore ℝ) (Engine.new ℝ) (dislikeEngine ℝ)
      "p2" 2 dislikeEngine_init dislikeEngine_built hk hc⟩

end MeanClaims

/-! ## Double-precision arithmetic: lemmas -/

section DoubleLemmas

theorem roundHalfEven_intCast (m : ℤ) : roundHalfEven (m : ℚ) = m := by
  unfold roundHalfEven
  simp

theorem abs_sub_roundHalfEven_le (q : ℚ) : |q - roundHalfEven q| ≤ 1 / 2 := by
  have h1 : (⌊q⌋ : ℚ) ≤ q := Int.floor_le q
  have h2 : q < ⌊q⌋ + 1 := Int.lt_floor_add_one q
  unfold roundHalfEven
  simp only
  rw [abs_le]
  split_ifs with ha hb hc
  · constructor <;> linarith
  · push_cast
    constructor <;> linarith
  · constructor <;> linarith
  · push_cast
    constructor <;> linarith

theorem leadingBit_spec (fuel n : ℕ) (h : n ≤ fuel) (hn : n ≠ 0) :
    2 ^ leadingBit fuel n ≤ n ∧ n < 2 ^ (leadingBit fuel n + 1) := by
  induction fuel generalizing n with
  | zero => omega
  | succ fuel ih =>
    unfold leadingBit
    split_ifs with h2
    · have h1 : n = 1 := by omega
      subst h1
      simp
    · obtain ⟨h3, h4⟩ := ih (n / 2) (by omega) (by omega)
      rw [pow_succ] at h4
      rw [pow_succ, pow_succ, pow_succ]
      generalize 2 ^ leadingBit fuel (n / 2) = p at h3 h4
      constructor <;> omega

theorem binade_spec (x : ℚ) (hx : x ≠ 0) :
    (2 : ℚ) ^ binade x ≤ |x| ∧ |x| < 2 ^ (binade x + 1) := by
  have hn : x.num.natAbs ≠ 0 := by
    rw [Ne, Int.natAbs_eq_zero, Rat.num_eq_zero]
    exact hx
  obtain ⟨ha1, ha2⟩ := leadingBit_spec x.num.natAbs x.num.natAbs (le_refl _) hn
  obtain ⟨hb1, hb2⟩ := leadingBit_spec x.den x.den (le_refl _) x.den_nz
  have habs : |x| = (x.num.natAbs : ℚ) / (x.den : ℚ) := by
    rw [Rat.abs_def, Rat.divInt_eq_div]
    push_cast
    rw [Nat.cast_natAbs, Int.cast_abs]
  have hd : (0 : ℚ) < x.den := by exact_mod_cast x.den_pos
  have ha1q : (2 : ℚ) ^ leadingBit x.num.natAbs x.num.natAbs ≤ x.num.natAbs := by
    exact_mod_cast ha1
  have ha2q : (x.num.natAbs : ℚ) < 2 ^ (leadingBit x.num.natAbs x.num.natAbs + 1) := by
    exact_mod_cast ha2
  have hb1q : (2 : ℚ) ^ leadingBit x.den x.den ≤ x.den := by exact_mod_cast hb1
  have hb2q : (x.den : ℚ) < 2 ^ (leadingBit x.den x.den + 1) := by exact_mod_cast hb2
  have hpa : (0 : ℚ) < 2 ^ leadingBit x.num.natAbs x.num.natAbs := by positivity
  have hpb : (0 : ℚ) < 2 ^ leadingBit x.den x.den := by positivity
  have hsub : ∀ a b : ℕ, (2 : ℚ) ^ ((a : ℤ) - (b : ℤ)) = 2 ^ a / 2 ^ b := by
    intro a b
    rw [zpow_sub₀ (two_ne_zero), zpow_natCast, zpow_natCast]
  unfold binade
  simp only
  split_ifs with h
  · refine ⟨h, ?_⟩
    rw [add_comm, ← add_sub_assoc, add_comm, ← Nat.cast_succ, hsub, habs,
      div_lt_div_iff₀ hd hpb]
    calc (x.num.natAbs : ℚ) * 2 ^ leadingBit x.den x.den
        ≤ x.num.natAbs * x.den := by
          apply mul_le_mul_of_nonneg_left hb1q (Nat.cast_nonneg _)
      _ < 2 ^ (leadingBit x.num.natAbs x.num.natAbs).succ * x.den := by
          apply mul_lt_mul_of_pos_right ha2q hd
  · rw [sub_add_cancel]
    refine ⟨?_, not_le.1 h⟩
    rw [sub_sub, ← Nat.cast_succ, hsub, habs, div_le_div_iff₀ (by positivity) hd]
    calc (2 : ℚ) ^ leadingBit x.num.natAbs x.num.natAbs * x.den
        ≤ x.num.natAbs * x.den := by
          apply mul_le_mul_of_nonneg_right ha1q (le_of_lt hd)
      _ ≤ x.num.natAbs * 2 ^ (leadingBit x.den x.den).succ := by
          apply mul_le_mul_of_nonneg_left (le_of_lt hb2q) (Nat.cast_nonneg _)

theorem binade_unique (x : ℚ) (e : ℤ) (h1 : (2 : ℚ) ^ e ≤ |x|) (h2 : |x| < 2 ^ (e + 1)) :
    binade x = e := by
  have hx : x ≠ 0 := by
    intro h0
    rw [h0, abs_zero] at h1
    exact absurd h1 (not_le.2 (by positivity))
  obtain ⟨h3, h4⟩ := binade_spec x hx
  have h5 : (2 : ℚ) ^ e < 2 ^ (binade x + 1) := lt_of_le_of_lt h1 h4
  have h6 : (2 : ℚ) ^ binade x < 2 ^ (e + 1) := lt_of_le_of_lt h3 h2
  rw [zpow_lt_zpow_iff_right₀ (by norm_num : (1 : ℚ) < 2)] at h5 h6
  omega

theorem roundDouble_zero : roundDouble 0 = 0 := by
  unfold roundDouble
  rw [if_pos rfl]

theorem roundDouble_of_ne_zero (x : ℚ) (hx : x ≠ 0) :
    roundDouble x = (roundHalfEven (x / 2 ^ (binade x - 52)) : ℚ) * 2 ^ (binade x - 52) := by
  unfold roundDouble
  rw [if_neg hx]

theorem zpow_sub_fiftyTwo (e : ℤ) : (2 : ℚ) ^ (e - 52) = 2 ^ e / 2 ^ 52 := by
  rw [zpow_sub₀ two_ne_zero]
  norm_num

/-- The relative error of a rounding is at most `2 ^ (-53)`. -/
theorem roundDouble_error (x : ℚ) : |roundDouble x - x| ≤ 1 / 2 ^ 53 * |x| := by
  by_cases hx : x = 0
  · subst hx
    rw [roundDouble_zero]
    simp
  · obtain ⟨h1, -⟩ := binade_spec x hx
    rw [roundDouble_of_ne_zero x hx]
    have hppos : (0 : ℚ) < 2 ^ (binade x - 52) := by positivity
    have hq := abs_sub_roundHalfEven_le (x / 2 ^ (binade x - 52))
    have heq : (roundHalfEven (x / 2 ^ (binade x - 52)) : ℚ) * 2 ^ (binade x - 52) - x =
        -((x / 2 ^ (binade x - 52) - roundHalfEven (x / 2 ^ (binade x - 52))) *
          2 ^ (binade x - 52)) := by
      field_simp
      ring
    rw [heq, abs_neg, abs_mul, abs_of_pos hppos]
    calc |x / 2 ^ (binade x - 52) - roundHalfEven (x / 2 ^ (binade x - 52))| *
          2 ^ (binade x - 52)
        ≤ 1 / 2 * 2 ^ (binade x - 52) := mul_le_mul_of_nonneg_right hq (le_of_lt hppos)
      _ = 1 / 2 ^ 53 * 2 ^ binade x := by
          rw [zpow_sub_fiftyTwo]
          ring
      _ ≤ 1 / 2 ^ 53 * |x| := mul_le_mul_of_nonneg_left h1 (by positivity)

theorem roundDouble_ge (x : ℚ) (hx : 0 ≤ x) : (1 - 1 / 2 ^ 53) * x ≤ roundDouble x := by
  have h := roundDouble_error x
  rw [abs_of_nonneg hx, abs_le] at h
  linarith [h.1]

theorem roundDouble_le (x : ℚ) (hx : 0 ≤ x) : roundDouble x ≤ (1 + 1 / 2 ^ 53) * x := by
  have h := roundDouble_error x
  rw [abs_of_nonneg hx, abs_le] at h
  linarith [h.2]

theorem roundDouble_nonneg (x : ℚ) (hx : 0 ≤ x) : 0 ≤ roundDouble x :=
  le_trans (mul_nonneg (by norm_num) hx) (roundDouble_ge x hx)

theorem roundDouble_pos (x : ℚ) (hx : 0 < x) : 0 < roundDouble x :=
  lt_of_lt_of_le (mul_pos (by norm_num) hx) (roundDouble_ge x (le_of_lt hx))

/-- A number whose scaled significand is an integer is its own rounding. -/
theorem roundDouble_of_scaled_int (x : ℚ) (m : ℤ) (h : x / 2 ^ (binade x - 52) = m) :
    roundDouble x = x := by
  by_cases hx : x = 0
  · subst hx
    exact roundDouble_zero
  · rw [roundDouble_of_ne_zero x hx, h, roundHalfEven_intCast, ← h]
    field_simp

/-- An integer of at most 53 bits times a power of two is its own rounding. -/
theorem roundDouble_int_mul_zpow (R k : ℤ) (hR : |R| ≤ 2 ^ 53) :
    roundDouble ((R : ℚ) * 2 ^ k) = R * 2 ^ k := by
  by_cases h0 : R = 0
  · subst h0
    simp [roundDouble_zero]
  have hx : (R : ℚ) * 2 ^ k ≠ 0 := by
    apply mul_ne_zero
    · exact_mod_cast h0
    · positivity
  obtain ⟨h1, -⟩ := binade_spec _ hx
  have hRq : |(R : ℚ)| ≤ 2 ^ 53 := by
    rw [← Int.cast_abs]
    exact_mod_cast hR
  have habs : |(R : ℚ) * 2 ^ k| = |(R : ℚ)| * 2 ^ k := by
    rw [abs_mul, abs_of_pos (by positivity : (0 : ℚ) < 2 ^ k)]
  have hle : (2 : ℚ) ^ binade ((R : ℚ) * 2 ^ k) ≤ 2 ^ (k + 53) := by
    refine le_trans h1 ?_
    rw [habs, zpow_add₀ two_ne_zero, mul_comm]
    apply mul_le_mul_of_nonneg_left _ (by positivity)
    exact_mod_cast hRq
  rw [zpow_le_zpow_iff_right₀ (by norm_num : (1 : ℚ) < 2)] at hle
  rcases lt_or_eq_of_le hle with hlt | heq
  · obtain ⟨j, hj⟩ : ∃ j : ℕ, k - (binade ((R : ℚ) * 2 ^ k) - 52) = j :=
      ⟨(k - (binade ((R : ℚ) * 2 ^ k) - 52)).toNat, (Int.toNat_of_nonneg (by omega)).symm⟩
    apply roundDouble_of_scaled_int _ (R * 2 ^ j)
    rw [mul_div_assoc, ← zpow_sub₀ two_ne_zero, hj, zpow_natCast]
    push_cast
    rfl
  · have hge : (2 : ℚ) ^ 53 ≤ |(R : ℚ)| := by
      rw [heq, habs, zpow_add₀ two_ne_zero, mul_comm] at h1
      have h2 := le_of_mul_le_mul_right h1 (by positivity : (0 : ℚ) < 2 ^ k)
      exact_mod_cast h2
    have hRabs : |R| = 2 ^ 53 := by
      apply le_antisymm hR
      rw [← Int.cast_abs] at hge
      exact_mod_cast hge
    obtain ⟨m, hm⟩ : ∃ m : ℤ, R = 2 * m := by
      rcases abs_eq (by norm_num : (0 : ℤ) ≤ 2 ^ 53) |>.1 hRabs with h | h
      · exact ⟨2 ^ 52, by rw [h]; norm_num⟩
      · exact ⟨-2 ^ 52, by rw [h]; norm_num⟩
    apply roundDouble_of_scaled_int _ m
    rw [heq, mul_div_assoc, ← zpow_sub₀ two_ne_zero, hm]
    have hk : k - (k + 53 - 52) = -1 := by ring
    rw [hk]
    push_cast
    norm_num
    ring

/-- Rounding is idempotent: the result of a rounding is its own rounding. -/
theorem roundDouble_idem (x : ℚ) : roundDouble (roundDouble x) = roundDouble x := by
  by_cases hx : x = 0
  · subst hx
    rw [roundDouble_zero, roundDouble_zero]
  · rw [roundDouble_of_ne_zero x hx]
    apply roundDouble_int_mul_zpow
    obtain ⟨-, h2⟩ := binade_spec x hx
    have hppos : (0 : ℚ) < 2 ^ (binade x - 52) := by positivity
    have hq := abs_sub_roundHalfEven_le (x / 2 ^ (binade x - 52))
    have hlt : |x / 2 ^ (binade x - 52)| < 2 ^ 53 := by
      rw [abs_div, abs_of_pos hppos, div_lt_iff₀ hppos, zpow_sub_fiftyTwo]
      have h3 : (2 : ℚ) ^ 53 * (2 ^ binade x / 2 ^ 52) = 2 ^ (binade x + 1) := by
        rw [zpow_add₀ two_ne_zero]
        ring
      rw [h3]
      exact h2
    have h4 : |(roundHalfEven (x / 2 ^ (binade x - 52)) : ℚ)| < 2 ^ 53 + 1 := by
      have h5 := abs_sub_abs_le_abs_sub (roundHalfEven (x / 2 ^ (binade x - 52)) : ℚ)
        (x / 2 ^ (binade x - 52))
      rw [abs_sub_comm] at h5
      linarith
    rw [← Int.cast_abs] at h4
    have h6 : |roundHalfEven (x / 2 ^ (binade x - 52))| < 2 ^ 53 + 1 := by exact_mod_cast h4
    omega

theorem sqrtBits_spec (n b r : ℕ) (h1 : r * r ≤ n) (h2 : n < (r + 2 ^ b) * (r + 2 ^ b)) :
    sqrtBits n b r * sqrtBits n b r ≤ n ∧ n < (sqrtBits n b r + 1) * (sqrtBits n b r + 1) := by
  induction b generalizing r with
  | zero =>
    simpa [sqrtBits] using ⟨h1, h2⟩
  | succ b ih =>
    unfold sqrtBits
    split_ifs with h
    · apply ih _ h
      rw [pow_succ] at h2
      have h3 : r + 2 ^ b + 2 ^ b = r + 2 ^ b * 2 := by ring
      rw [h3]
      exact h2
    · exact ih r h1 (not_le.1 h)

/-- The result of `sqrtDouble` is the integer nearest to the square root of the scaled
argument, scaled back. -/
theorem sqrtDouble_eq (x : ℚ) (hx : 0 < x) :
    ∃ (m : ℕ) (k : ℤ) (y : ℚ), sqrtDouble x = (m : ℚ) / 2 ^ k ∧ y = x * 2 ^ (2 * k) ∧
      (2 : ℚ) ^ 52 ≤ m ∧ ((m : ℚ) - 1 / 2) ^ 2 ≤ y ∧ y ≤ ((m : ℚ) + 1 / 2) ^ 2 ∧
      ((m : ℚ) ^ 2 ≤ y ∨ (2 : ℚ) ^ 52 + 1 ≤ m) ∧ (y ≤ (m : ℚ) ^ 2 ∨ y ≤ ((m : ℚ) + 1 / 2) ^ 2) := by
  obtain ⟨h1, h2⟩ := binade_spec x (ne_of_gt hx)
  rw [abs_of_pos hx] at h1 h2
  unfold sqrtDouble
  rw [if_neg (not_le.2 hx)]
  dsimp only
  refine ⟨_, _, _, rfl, rfl, ?_⟩
  set k : ℤ := 52 - binade x / 2 with hk
  set y : ℚ := x * 2 ^ (2 * k) with hy
  have hpk : (0 : ℚ) < 2 ^ (2 * k) := by positivity
  have hy1 : (2 : ℚ) ^ 104 ≤ y := by
    have h3 : (2 : ℚ) ^ (104 : ℤ) ≤ y :=
      calc (2 : ℚ) ^ (104 : ℤ) ≤ 2 ^ (binade x + 2 * k) :=
            zpow_le_zpow_right₀ (by norm_num) (by omega)
        _ = 2 ^ binade x * 2 ^ (2 * k) := zpow_add₀ two_ne_zero _ _
        _ ≤ x * 2 ^ (2 * k) := mul_le_mul_of_nonneg_right h1 (le_of_lt hpk)
    exact_mod_cast h3
  have hy2 : y < (2 : ℚ) ^ 106 := by
    have h3 : y < (2 : ℚ) ^ (106 : ℤ) :=
      calc y < 2 ^ (binade x + 1) * 2 ^ (2 * k) := mul_lt_mul_of_pos_right h2 hpk
        _ = 2 ^ (binade x + 1 + 2 * k) := (zpow_add₀ two_ne_zero _ _).symm
        _ ≤ 2 ^ (106 : ℤ) := zpow_le_zpow_right₀ (by norm_num) (by omega)
    exact_mod_cast h3
  have hy0 : 0 ≤ y := le_trans (by positivity) hy1
  have hN1 : (⌊y⌋₊ : ℚ) ≤ y := Nat.floor_le hy0
  have hN2 : y < ⌊y⌋₊ + 1 := Nat.lt_floor_add_one y
  have hN3 : 2 ^ 104 ≤ ⌊y⌋₊ := Nat.le_floor (by exact_mod_cast hy1)
  have hN4 : ⌊y⌋₊ < 2 ^ 106 := (Nat.floor_lt hy0).2 (by exact_mod_cast hy2)
  obtain ⟨hs1, hs2⟩ := sqrtBits_spec ⌊y⌋₊ 53 0 (Nat.zero_le _) (by
    rw [Nat.zero_add, ← pow_add]
    exact hN4)
  set n : ℕ := sqrtBits ⌊y⌋₊ 53 0 with hn
  have hn52 : 2 ^ 52 ≤ n := by
    by_contra hlt
    have h4 : n + 1 ≤ 2 ^ 52 := by omega
    have h5 : (n + 1) * (n + 1) ≤ 2 ^ 52 * 2 ^ 52 := Nat.mul_le_mul h4 h4
    rw [← pow_add] at h5
    omega
  have hn52q : (2 : ℚ) ^ 52 ≤ n := by exact_mod_cast hn52
  have hn1 : (n : ℚ) * n ≤ y := le_trans (by exact_mod_cast hs1) hN1
  have hn2 : y < ((n : ℚ) + 1) * (n + 1) := by
    have h4 : ((⌊y⌋₊ : ℚ) + 1) ≤ ((n : ℚ) + 1) * (n + 1) := by exact_mod_cast hs2
    linarith
  have hn0 : (1 : ℚ) ≤ n := le_trans (by norm_num) hn52q
  have hexp1 : ((n : ℚ) + 1 + 1 / 2) ^ 2 = (n + 1) * (n + 1) + (n + 1) + 1 / 4 := by ring
  have hexp2 : ((n : ℚ) - 1 / 2) ^ 2 = n * n - n + 1 / 4 := by ring
  split_ifs with h
  · push_cast
    refine ⟨by linarith, ?_, ?_, Or.inr (by linarith), Or.inr ?_⟩
    · have h5 : (n : ℚ) + 1 - 1 / 2 = n + 1 / 2 := by ring
      rw [h5, sq]
      exact le_of_lt h
    · rw [hexp1]
      linarith
    · rw [hexp1]
      linarith
  · refine ⟨hn52q, ?_, ?_, Or.inl ?_, Or.inr ?_⟩
    · rw [hexp2]
      linarith
    · rw [sq]
      exact not_lt.1 h
    · rw [sq]
      exact hn1
    · rw [sq]
      exact not_lt.1 h

/-- The square of the rounded square root is within two roundings of the argument. -/
theorem sqrtDouble_spec (x : ℚ) (hx : 0 < x) :
    0 < sqrtDouble x ∧ (1 - 1 / 2 ^ 53) ^ 2 * x ≤ sqrtDouble x ^ 2 ∧
      sqrtDouble x ^ 2 ≤ (1 + 1 / 2 ^ 53) ^ 2 * x := by
  obtain ⟨m, k, y, hs, hy, hm, hlo, hhi, hcase, -⟩ := sqrtDouble_eq x hx
  have hpk : (0 : ℚ) < 2 ^ k := by positivity
  have hpow : (0 : ℚ) < 2 ^ 52 := by positivity
  have hmpos : (0 : ℚ) < m := lt_of_lt_of_le hpow hm
  have hkk : (2 : ℚ) ^ (2 * k) = (2 ^ k) ^ 2 := by
    rw [two_mul, zpow_add₀ two_ne_zero, sq]
  have hx' : x = y / (2 ^ k) ^ 2 := by
    rw [hy, hkk]
    field_simp
  have hsq : sqrtDouble x ^ 2 = (m : ℚ) ^ 2 / (2 ^ k) ^ 2 := by
    rw [hs, div_pow]
  have hu : (1 : ℚ) / 2 ^ 53 * 2 ^ 52 = 1 / 2 := by norm_num
  have hlow : (1 - 1 / 2 ^ 53) ^ 2 * y ≤ (m : ℚ) ^ 2 := by
    have h1 : (1 - 1 / 2 ^ 53) * ((m : ℚ) + 1 / 2) ≤ m := by nlinarith
    have h2 : (0 : ℚ) ≤ (1 - 1 / 2 ^ 53) * ((m : ℚ) + 1 / 2) :=
      mul_nonneg (by norm_num) (by linarith)
    calc (1 - 1 / 2 ^ 53) ^ 2 * y ≤ (1 - 1 / 2 ^ 53) ^ 2 * ((m : ℚ) + 1 / 2) ^ 2 :=
          mul_le_mul_of_nonneg_left hhi (sq_nonneg _)
      _ = ((1 - 1 / 2 ^ 53) * ((m : ℚ) + 1 / 2)) ^ 2 := by ring
      _ ≤ (m : ℚ) ^ 2 := pow_le_pow_left₀ h2 h1 2
  have hupp : (m : ℚ) ^ 2 ≤ (1 + 1 / 2 ^ 53) ^ 2 * y := by
    rcases hcase with h | h
    · have h3 : (1 : ℚ) ≤ (1 + 1 / 2 ^ 53) ^ 2 := by norm_num
      have hy0 : 0 ≤ y := le_trans (sq_nonneg _) h
      nlinarith
    · have h1 : (m : ℚ) ≤ (1 + 1 / 2 ^ 53) * ((m : ℚ) - 1 / 2) := by nlinarith
      calc (m : ℚ) ^ 2 ≤ ((1 + 1 / 2 ^ 53) * ((m : ℚ) - 1 / 2)) ^ 2 :=
            pow_le_pow_left₀ (le_of_lt hmpos) h1 2
        _ = (1 + 1 / 2 ^ 53) ^ 2 * ((m : ℚ) - 1 / 2) ^ 2 := by ring
        _ ≤ (1 + 1 / 2 ^ 53) ^ 2 * y := mul_le_mul_of_nonneg_left hlo (sq_nonneg _)
  refine ⟨?_, ?_, ?_⟩
  · rw [hs]
    exact div_pos hmpos hpk
  · rw [hsq, hx', ← mul_div_assoc]
    exact div_le_div_of_nonneg_right hlow (le_of_lt (by positivity))
  · rw [hsq, hx', ← mul_div_assoc]
    exact div_le_div_of_nonneg_right hupp (le_of_lt (by positivity))

end DoubleLemmas

/-! ## The rounded methods with the identity for rounding -/

section RoundedIdentity

variable {α : Type} [LinearOrderedField α]

theorem rounded_calculateUserSimilarity_id (sqrt : α → α) (user1 user2 : Dict α) :
    Rounded.calculateUserSimilarity id sqrt user1 user2 =
      calculateUserSimilarity sqrt user1 user2 :=
  rfl

theorem rounded_findSimilarUsers_id (sqrt : α → α) (e : Engine α) (profileId : String) :
    Rounded.findSimilarUsers id sqrt e profileId = findSimilarUsers sqrt e profileId :=
  rfl

theorem rounded_getCollaborativeScore_id (sqrt : α → α) (e : Engine α)
    (profileId contentId : String) :
    Rounded.getCollaborativeScore id sqrt e profileId contentId =
      getCollaborativeScore sqrt e profileId contentId :=
  rfl

theorem rounded_calculateContentSimilarity_id (content1 content2 : ContentItem α) :
    Rounded.calculateContentSimilarity id content1 content2 =
      calculateContentSimilarity content1 content2 :=
  rfl

end RoundedIdentity

/-! ## Identical rows in double-precision arithmetic -/

section RoundedSimilarity

theorem roundDouble_one : roundDouble 1 = 1 := by decide!

theorem rounded_foldl_norm_nonneg (l : Dict ℚ) (c : ℚ) (hc : 0 ≤ c) :
    0 ≤ l.foldl (fun (norm2 : ℚ) (entry : String × ℚ) =>
      roundDouble (norm2 + roundDouble (entry.2 * entry.2))) c := by
  induction l generalizing c with
  | nil => exact hc
  | cons x xs ih =>
    rw [List.foldl_cons]
    exact ih _ (roundDouble_nonneg _
      (add_nonneg hc (roundDouble_nonneg _ (mul_self_nonneg _))))

theorem rounded_foldl_norm_pos_of_pos (l : Dict ℚ) (c : ℚ) (hc : 0 < c) :
    0 < l.foldl (fun (norm2 : ℚ) (entry : String × ℚ) =>
      roundDouble (norm2 + roundDouble (entry.2 * entry.2))) c := by
  induction l generalizing c with
  | nil => exact hc
  | cons x xs ih =>
    rw [List.foldl_cons]
    exact ih _ (roundDouble_pos _
      (add_pos_of_pos_of_nonneg hc (roundDouble_nonneg _ (mul_self_nonneg _))))

theorem rounded_foldl_norm_pos (l : Dict ℚ) (c : ℚ) (hc : 0 ≤ c)
    (h : ∃ entry ∈ l, entry.2 ≠ 0) :
    0 < l.foldl (fun (norm2 : ℚ) (entry : String × ℚ) =>
      roundDouble (norm2 + roundDouble (entry.2 * entry.2))) c := by
  induction l generalizing c with
  | nil =>
    obtain ⟨entry, hmem, -⟩ := h
    simp at hmem
  | cons x xs ih =>
    rw [List.foldl_cons]
    by_cases hx : x.2 = 0
    · apply ih _ (roundDouble_nonneg _
        (add_nonneg hc (roundDouble_nonneg _ (mul_self_nonneg _))))
      obtain ⟨entry, hmem, hne⟩ := h
      rcases List.mem_cons.1 hmem with heq | hmem
      · rw [heq] at hne
        exact absurd hx hne
      · exact ⟨entry, hmem, hne⟩
    · apply rounded_foldl_norm_pos_of_pos
      exact roundDouble_pos _ (add_pos_of_nonneg_of_pos hc
        (roundDouble_pos _ (mul_self_pos.2 hx)))

/-- On a row compared with itself the first loop of `calculateUserSimilarity` keeps the dot
product equal to the first norm, and both equal to what the second loop computes, for a rounding
that fixes 0 and its own results. -/
theorem rounded_foldl_identical {α : Type} [LinearOrderedField α] (fl : α → α)
    (hzero : fl 0 = 0) (hidem : ∀ x, fl (fl x) = fl x) (u : Dict α) (l : List (String × α))
    (hl : ∀ entry ∈ l, Dict.get u entry.1 = some entry.2) (c : α) (hc : fl c = c) :
    l.foldl (fun (acc : α × α) (entry : String × α) =>
        ((match Dict.get u entry.1 with
          | some w => if w = 0 then acc.1 else fl (acc.1 + fl (entry.2 * w))
          | none => acc.1),
          fl (acc.2 + fl (entry.2 * entry.2)))) (c, c) =
      (l.foldl (fun (norm2 : α) (entry : String × α) => fl (norm2 + fl (entry.2 * entry.2))) c,
        l.foldl (fun (norm2 : α) (entry : String × α) => fl (norm2 + fl (entry.2 * entry.2)))
          c) := by
  induction l generalizing c with
  | nil => rfl
  | cons x xs ih =>
    rw [List.foldl_cons, List.foldl_cons]
    have hx := hl x (List.mem_cons_self _ _)
    have hstep : ((match Dict.get u x.1 with
          | some w => if w = 0 then c else fl (c + fl (x.2 * w))
          | none => c),
        fl (c + fl (x.2 * x.2))) = (fl (c + fl (x.2 * x.2)), fl (c + fl (x.2 * x.2))) := by
      rw [hx]
      by_cases h0 : x.2 = 0
      · simp only [h0, if_true, mul_zero, hzero, add_zero, hc]
      · simp only [h0, if_false]
    simp only [hstep]
    exact ih (fun entry hmem => hl entry (List.mem_cons_of_mem _ hmem)) _ (hidem _)

/-- On a row compared with itself, `calculateUserSimilarity` divides the sum of the squares by
the rounded product of its two square roots. -/
theorem rounded_similarity_identical (u : Dict ℚ) (hu : (Dict.keys u).Nodup) :
    Rounded.calculateUserSimilarity roundDouble sqrtDouble u u =
      if roundDouble (sqrtDouble (Rounded.squareSum roundDouble u) *
          sqrtDouble (Rounded.squareSum roundDouble u)) > 0 then
        roundDouble (Rounded.squareSum roundDouble u /
          roundDouble (sqrtDouble (Rounded.squareSum roundDouble u) *
            sqrtDouble (Rounded.squareSum roundDouble u)))
      else 0 := by
  have h := rounded_foldl_identical roundDouble roundDouble_zero roundDouble_idem u u
    (fun entry hmem => Dict.get_eq_some_of_mem hu hmem) 0 roundDouble_zero
  unfold Rounded.calculateUserSimilarity Rounded.squareSum
  simp only [h]

end RoundedSimilarity

section IdenticalRowsClaims

theorem twinEngine_built : Built twinEngine := ⟨twinLog, rfl⟩

theorem twinEngine_interactionMatrix :
    twinEngine.interactionMatrix = [("p1", twinRow), ("p2", twinRow)] := by
  decide!

/-- C11, refuted as stated: in `twinEngine` the profiles `p1` and `p2` have the same row
`{A: 1, B: 1}`, and on doubles `calculateUserSimilarity` returns
`2 / (Math.sqrt(2) * Math.sqrt(2)) = 2 / 2.0000000000000004 = 0.9999999999999998`, which is not
1. -/
theorem identical_rows_similarity_not_one :
    Built twinEngine ∧
      Dict.get twinEngine.interactionMatrix "p1" = some twinRow ∧
      Dict.get twinEngine.interactionMatrix "p2" = some twinRow ∧
      (∃ entry ∈ twinRow, entry.2 ≠ 0) ∧
      Rounded.calculateUserSimilarity roundDouble sqrtDouble twinRow twinRow =
        4503599627370495 / 4503599627370496 ∧
      Rounded.calculateUserSimilarity roundDouble sqrtDouble twinRow twinRow ≠ 1 := by
  refine ⟨twinEngine_built, ?_, ?_, ⟨("A", 1), ?_, ?_⟩, ?_, ?_⟩
  · decide!
  · decide!
  · decide
  · decide!
  · decide!
  · decide!

/-- C11 as amended: for a row with pairwise distinct keys and a non-zero weight, compared with
itself on doubles, `calculateUserSimilarity` returns `n / (Math.sqrt(n) * Math.sqrt(n))` for the
accumulated sum of squares `n`: a value within `5 * 2 ^ (-53)` of 1, which is exactly 1 when the
product `Math.sqrt(n) * Math.sqrt(n)` evaluates to `n`. -/
theorem identical_rows_similarity_near_one (u : Dict ℚ) (hu : (Dict.keys u).Nodup)
    (hnonzero : ∃ entry ∈ u, entry.2 ≠ 0) :
    |Rounded.calculateUserSimilarity roundDouble sqrtDouble u u - 1| ≤ 5 / 2 ^ 53 ∧
      (roundDouble (sqrtDouble (Rounded.squareSum roundDouble u) *
          sqrtDouble (Rounded.squareSum roundDouble u)) = Rounded.squareSum roundDouble u →
        Rounded.calculateUserSimilarity roundDouble sqrtDouble u u = 1) := by
  have hN : 0 < Rounded.squareSum roundDouble u :=
    rounded_foldl_norm_pos u 0 (le_refl _) hnonzero
  obtain ⟨hs, hslo, hshi⟩ := sqrtDouble_spec _ hN
  rw [rounded_similarity_identical u hu]
  generalize Rounded.squareSum roundDouble u = N at hN hs hslo hshi ⊢
  generalize sqrtDouble N = s at hs hslo hshi ⊢
  have hss : 0 < s * s := mul_pos hs hs
  have hp := roundDouble_pos _ hss
  have hplo := roundDouble_ge _ (le_of_lt hss)
  have hphi := roundDouble_le _ (le_of_lt hss)
  rw [if_pos hp]
  generalize roundDouble (s * s) = p at hp hplo hphi ⊢
  rw [sq s] at hslo hshi
  constructor
  · have hq : 0 < N / p := div_pos hN hp
    have hrlo := roundDouble_ge _ (le_of_lt hq)
    have hrhi := roundDouble_le _ (le_of_lt hq)
    have h1 : (1 - 1 / 2 ^ 53) ^ 3 * N ≤ p :=
      calc (1 - 1 / 2 ^ 53) ^ 3 * N = (1 - 1 / 2 ^ 53) * ((1 - 1 / 2 ^ 53) ^ 2 * N) := by ring
        _ ≤ (1 - 1 / 2 ^ 53) * (s * s) := mul_le_mul_of_nonneg_left hslo (by norm_num)
        _ ≤ p := hplo
    have h2 : p ≤ (1 + 1 / 2 ^ 53) ^ 3 * N :=
      calc p ≤ (1 + 1 / 2 ^ 53) * (s * s) := hphi
        _ ≤ (1 + 1 / 2 ^ 53) * ((1 + 1 / 2 ^ 53) ^ 2 * N) :=
          mul_le_mul_of_nonneg_left hshi (by norm_num)
        _ = (1 + 1 / 2 ^ 53) ^ 3 * N := by ring
    have h3 : N / p ≤ 1 / (1 - 1 / 2 ^ 53) ^ 3 := by
      rw [div_le_div_iff₀ hp (by norm_num), one_mul, mul_comm]
      exact h1
    have h4 : 1 / (1 + 1 / 2 ^ 53) ^ 3 ≤ N / p := by
      rw [div_le_div_iff₀ (by norm_num) hp, one_mul, mul_comm]
      exact h2
    have h5 : (1 + 1 / 2 ^ 53) * (1 / (1 - 1 / 2 ^ 53) ^ 3) ≤ (1 : ℚ) + 5 / 2 ^ 53 := by
      norm_num
    have h6 : (1 : ℚ) - 5 / 2 ^ 53 ≤ (1 - 1 / 2 ^ 53) * (1 / (1 + 1 / 2 ^ 53) ^ 3) := by
      norm_num
    have h7 : (1 + 1 / 2 ^ 53) * (N / p) ≤ (1 + 1 / 2 ^ 53) * (1 / (1 - 1 / 2 ^ 53) ^ 3) :=
      mul_le_mul_of_nonneg_left h3 (by norm_num)
    have h8 : (1 - 1 / 2 ^ 53) * (1 / (1 + 1 / 2 ^ 53) ^ 3) ≤ (1 - 1 / 2 ^ 53) * (N / p) :=
      mul_le_mul_of_nonneg_left h4 (by norm_num)
    rw [abs_le]
    constructor <;> linarith
  · intro heq
    rw [heq, div_self (ne_of_gt hN), roundDouble_one]

/-- C11 as amended, at the row `{A: 9, B: 3}`, where the code returns 1. -/
theorem identical_rows_similarity_near_one_witness :
    (Dict.keys nineRow2).Nodup ∧ (∃ entry ∈ nineRow2, entry.2 ≠ 0) ∧
      |Rounded.calculateUserSimilarity roundDouble sqrtDouble nineRow2 nineRow2 - 1| ≤
        5 / 2 ^ 53 ∧
      (roundDouble (sqrtDouble (Rounded.squareSum roundDouble nineRow2) *
          sqrtDouble (Rounded.squareSum roundDouble nineRow2)) =
          Rounded.squareSum roundDouble nineRow2 →
        Rounded.calculateUserSimilarity roundDouble sqrtDouble nineRow2 nineRow2 = 1) :=
  have hu : (Dict.keys nineRow2).Nodup := by decide
  have hn : ∃ entry ∈ nineRow2, entry.2 ≠ 0 := ⟨("A", 9), by decide, by decide!⟩
  ⟨hu, hn, identical_rows_similarity_near_one nineRow2 hu hn⟩

end IdenticalRowsClaims

/-! ## The similarity of two rows on doubles: the range -/

section RoundedBoundClaims

theorem tripleEngine_built : Built tripleEngine := ⟨tripleLog, rfl⟩

/-- C27, the code at two profiles that each viewed the same three items once: the rows of `p1`
and `p2` built by `processInteractions` are both `{A: 1, B: 1, C: 1}`, all weights are
non-negative, and on doubles `calculateUserSimilarity` returns
`3 / (Math.sqrt(3) * Math.sqrt(3)) = 3 / 2.9999999999999996 = 1.0000000000000002`, above the
documented range from 0 to 1 and above the bound 1 of the claim. -/
theorem user_similarity_above_one :
    Built tripleEngine ∧
      Dict.get tripleEngine.interactionMatrix "p1" = some tripleRow ∧
      Dict.get tripleEngine.interactionMatrix "p2" = some tripleRow ∧
      (∀ entry ∈ tripleRow, 0 ≤ entry.2) ∧
      Rounded.calculateUserSimilarity roundDouble sqrtDouble tripleRow tripleRow =
        4503599627370497 / 4503599627370496 ∧
      ¬ Rounded.calculateUserSimilarity roundDouble sqrtDouble tripleRow tripleRow ≤ 1 := by
  refine ⟨tripleEngine_built, ?_, ?_, ?_, ?_, ?_⟩
  · decide!
  · decide!
  · decide!
  · decide!
  · decide!

end RoundedBoundClaims

/-! ## `calculateContentSimilarity` on doubles: the greatest value -/

section RoundedContentClaims

theorem rounded_weights_sum :
    roundDouble (roundDouble (roundDouble (1 * roundDouble (6 / 10)) +
      roundDouble (1 * roundDouble (3 / 10))) + roundDouble (1 * roundDouble (1 / 10))) =
      9007199254740991 / 9007199254740992 := by
  decide!

/-- C22, refuted as stated: the items `B` and `D` of the demo catalog have the same genre list
`['action']`, the same type and the same year 2021, and on doubles `calculateContentSimilarity`
returns `1 * 0.6 + 1 * 0.3 + 1 * 0.1 = 0.8999999999999999 + 0.1 = 0.9999999999999999`, which is
not 1. -/
theorem content_similarity_below_one :
    ((demoItemRecent ℚ).genres.getD []).toFinset = ((demoItemTwin ℚ).genres.getD []).toFinset ∧
      (demoItemRecent ℚ).genres.getD [] ≠ [] ∧
      (demoItemRecent ℚ).type = (demoItemTwin ℚ).type ∧
      (demoItemRecent ℚ).year = some 2021 ∧ (demoItemTwin ℚ).year = some 2021 ∧
      Rounded.calculateContentSimilarity roundDouble (demoItemRecent ℚ) (demoItemTwin ℚ) =
        9007199254740991 / 9007199254740992 ∧
      Rounded.calculateContentSimilarity roundDouble (demoItemRecent ℚ) (demoItemTwin ℚ) ≠ 1 := by
  refine ⟨?_, ?_, ?_, ?_, ?_, ?_, ?_⟩
  · decide
  · decide
  · decide
  · rfl
  · rfl
  · decide!
  · decide!

/-- C22 as amended: for two content items with the same non-empty genre set, the genre list of
the first without duplicates, the same type and the same present, non-zero release year, on
doubles `calculateContentSimilarity` returns `0.6 + 0.3 + 0.1` as doubles add it:
`0.9999999999999999`, that is `1 - 2 ^ (-53)`. -/
theorem content_similarity_rounded_sum (a b : ContentItem ℚ) (year : ℚ)
    (hnodup : (a.genres.getD []).Nodup)
    (hset : (a.genres.getD []).toFinset = (b.genres.getD []).toFinset)
    (hnonempty : a.genres.getD [] ≠ []) (htype : a.type = b.type)
    (hyear1 : a.year = some year) (hyear2 : b.year = some year) (hyear : year ≠ 0) :
    Rounded.calculateContentSimilarity roundDouble a b = 1 - 1 / 2 ^ 53 := by
  have hcard : ((a.genres.getD []).toFinset).card ≠ 0 := by
    rw [Finset.card_ne_zero, List.toFinset_nonempty_iff]
    exact hnonempty
  have hinter : ((a.genres.getD []).filter (fun genre => genre ∈ b.genres.getD [])).length =
      ((a.genres.getD []).toFinset).card := by
    rw [length_filter_mem _ _ hnodup, ← hset, Finset.inter_self]
  have hunion : (distinct (a.genres.getD [] ++ b.genres.getD [])).length =
      ((a.genres.getD []).toFinset).card := by
    rw [length_distinct, List.toFinset_append, ← hset, Finset.union_self]
  have hq : (((a.genres.getD []).toFinset).card : ℚ) / (((a.genres.getD []).toFinset).card : ℚ)
      = 1 := div_self (Nat.cast_ne_zero.2 hcard)
  unfold Rounded.calculateContentSimilarity
  rw [hyear1, hyear2]
  simp only [hinter, hunion, hq, gt_iff_lt, Nat.pos_of_ne_zero hcard, if_true, hyear, or_self,
    if_false, sub_self, roundDouble_zero, abs_zero, zero_div, roundDouble_one, htype,
    min_eq_left (zero_le_one' ℚ), sub_zero]
  rw [rounded_weights_sum]
  norm_num

/-- C22 as amended, at the items `B` and `D` of the demo catalog. -/
theorem content_similarity_rounded_sum_witness :
    ((demoItemRecent ℚ).genres.getD []).Nodup ∧
      ((demoItemRecent ℚ).genres.getD []).toFinset =
        ((demoItemTwin ℚ).genres.getD []).toFinset ∧
      (demoItemRecent ℚ).genres.getD [] ≠ [] ∧
      (demoItemRecent ℚ).type = (demoItemTwin ℚ).type ∧
      (demoItemRecent ℚ).year = some 2021 ∧ (demoItemTwin ℚ).year = some 2021 ∧
      (2021 : ℚ) ≠ 0 ∧
      Rounded.calculateContentSimilarity roundDouble (demoItemRecent ℚ) (demoItemTwin ℚ) =
        1 - 1 / 2 ^ 53 :=
  have hn : ((demoItemRecent ℚ).genres.getD []).Nodup := by decide
  have hs : ((demoItemRecent ℚ).genres.getD []).toFinset =
      ((demoItemTwin ℚ).genres.getD []).toFinset := by decide
  have he : (demoItemRecent ℚ).genres.getD [] ≠ [] := by decide
  ⟨hn, hs, he, rfl, rfl, rfl, by norm_num,
    content_similarity_rounded_sum (demoItemRecent ℚ) (demoItemTwin ℚ) 2021 hn hs he rfl rfl rfl
      (by norm_num)⟩

end RoundedContentClaims

/-! ## Rounded sums: error bounds -/

section RoundedSums

theorem foldl_pair {β γ δ : Type} (f : γ → β → γ) (g : δ → β → δ) (l : List β) (a : γ)
    (c : δ) :
    l.foldl (fun (acc : γ × δ) (x : β) => (f acc.1 x, g acc.2 x)) (a, c) =
      (l.foldl f a, l.foldl g c) := by
  induction l generalizing a c with
  | nil => rfl
  | cons x xs ih =>
    rw [List.foldl_cons, List.foldl_cons, List.foldl_cons]
    exact ih _ _

/-- A sum of positive terms accumulated with a rounding of relative error at most `u`: one factor
`1 - u` or `1 + u` for each term. -/
theorem rounded_sum_bounds {β : Type} (fl : ℚ → ℚ) (u : ℚ) (hu0 : 0 ≤ u) (hu1 : u ≤ 1)
    (hfl : ∀ x, |fl x - x| ≤ u * |x|) (s : β → ℚ) (l : List β) (hs : ∀ x ∈ l, 0 < s x)
    (S0 T0 lo hi : ℚ) (hT0 : 0 ≤ T0) (hlo0 : 0 ≤ lo) (hlo1 : lo ≤ 1) (hhi : 1 ≤ hi)
    (h1 : lo * T0 ≤ S0) (h2 : S0 ≤ hi * T0) :
    (1 - u) ^ l.length * lo * (T0 + (l.map s).sum) ≤
        l.foldl (fun (acc : ℚ) (x : β) => fl (acc + s x)) S0 ∧
      l.foldl (fun (acc : ℚ) (x : β) => fl (acc + s x)) S0 ≤
        (1 + u) ^ l.length * hi * (T0 + (l.map s).sum) := by
  induction l generalizing S0 T0 lo hi with
  | nil => simpa using ⟨h1, h2⟩
  | cons x xs ih =>
    have hx : 0 < s x := hs x (List.mem_cons_self _ _)
    have hS0 : 0 ≤ S0 := le_trans (mul_nonneg hlo0 hT0) h1
    have hsum : 0 ≤ S0 + s x := by linarith
    have herr := hfl (S0 + s x)
    rw [abs_of_nonneg hsum, abs_le] at herr
    have hlo' : (1 - u) * lo * (T0 + s x) ≤ fl (S0 + s x) := by
      have h3 : lo * (T0 + s x) ≤ S0 + s x := by nlinarith
      have h4 : (1 - u) * (lo * (T0 + s x)) ≤ (1 - u) * (S0 + s x) :=
        mul_le_mul_of_nonneg_left h3 (by linarith)
      linarith [herr.1]
    have hhi' : fl (S0 + s x) ≤ (1 + u) * hi * (T0 + s x) := by
      have h3 : S0 + s x ≤ hi * (T0 + s x) := by nlinarith
      have h4 : (1 + u) * (S0 + s x) ≤ (1 + u) * (hi * (T0 + s x)) :=
        mul_le_mul_of_nonneg_left h3 (by linarith)
      linarith [herr.2]
    have h5 := ih (fun y hy => hs y (List.mem_cons_of_mem _ hy)) (fl (S0 + s x)) (T0 + s x)
      ((1 - u) * lo) ((1 + u) * hi) (by linarith) (mul_nonneg (by linarith) hlo0)
      (by nlinarith) (by nlinarith) hlo' hhi'
    rw [List.foldl_cons, List.map_cons, List.sum_cons, List.length_cons, pow_succ, pow_succ]
    have e1 : (1 - u) ^ xs.length * (1 - u) * lo * (T0 + (s x + (xs.map s).sum)) =
        (1 - u) ^ xs.length * ((1 - u) * lo) * (T0 + s x + (xs.map s).sum) := by ring
    have e2 : (1 + u) ^ xs.length * (1 + u) * hi * (T0 + (s x + (xs.map s).sum)) =
        (1 + u) ^ xs.length * ((1 + u) * hi) * (T0 + s x + (xs.map s).sum) := by ring
    rw [e1, e2]
    exact h5

/-- A weighted sum accumulated with a rounding of relative error at most `u`, the weights bounded
by `W` in absolute value: the distance to the exact sum. -/
theorem rounded_weighted_sum_error {β : Type} (fl : ℚ → ℚ) (u : ℚ) (hu0 : 0 ≤ u)
    (hfl : ∀ x, |fl x - x| ≤ u * |x|) (w s : β → ℚ) (W : ℚ) (hW : 0 ≤ W) (l : List β)
    (hs : ∀ x ∈ l, 0 < s x) (hw : ∀ x ∈ l, |w x| ≤ W)
    (A0 P0 T0 E : ℚ) (hT0 : 0 ≤ T0) (hE : 1 + u ≤ E) (hP0 : |P0| ≤ W * T0)
    (hA0 : |A0 - P0| ≤ (E - 1) * (W * T0)) :
    |l.foldl (fun (acc : ℚ) (x : β) => fl (acc + fl (w x * s x))) A0 -
        (P0 + (l.map (fun x => w x * s x)).sum)| ≤
      ((1 + u) ^ l.length * E - 1) * (W * (T0 + (l.map s).sum)) := by
  induction l generalizing A0 P0 T0 E with
  | nil => simpa using hA0
  | cons x xs ih =>
    have hx : 0 < s x := hs x (List.mem_cons_self _ _)
    have hwx : |w x| ≤ W := hw x (List.mem_cons_self _ _)
    have hws : |w x * s x| ≤ W * s x := by
      rw [abs_mul, abs_of_pos hx]
      exact mul_le_mul_of_nonneg_right hwx (le_of_lt hx)
    have hD : 0 ≤ W * T0 := mul_nonneg hW hT0
    have hd : 0 ≤ W * s x := mul_nonneg hW (le_of_lt hx)
    have ht := hfl (w x * s x)
    have ht' : |fl (w x * s x) - w x * s x| ≤ u * (W * s x) :=
      le_trans ht (mul_le_mul_of_nonneg_left hws hu0)
    have hz := hfl (A0 + fl (w x * s x))
    have hA0abs : |A0| ≤ W * T0 + (E - 1) * (W * T0) := by
      have h3 : |A0| ≤ |A0 - P0| + |P0| := by
        have := abs_add (A0 - P0) P0
        rwa [sub_add_cancel] at this
      linarith
    have htabs : |fl (w x * s x)| ≤ W * s x + u * (W * s x) := by
      have h3 : |fl (w x * s x)| ≤ |fl (w x * s x) - w x * s x| + |w x * s x| := by
        have := abs_add (fl (w x * s x) - w x * s x) (w x * s x)
        rwa [sub_add_cancel] at this
      linarith
    have hzabs : |A0 + fl (w x * s x)| ≤
        W * T0 + (E - 1) * (W * T0) + (W * s x + u * (W * s x)) :=
      le_trans (abs_add _ _) (add_le_add hA0abs htabs)
    have hz' : |fl (A0 + fl (w x * s x)) - (A0 + fl (w x * s x))| ≤
        u * (W * T0 + (E - 1) * (W * T0) + (W * s x + u * (W * s x))) :=
      le_trans hz (mul_le_mul_of_nonneg_left hzabs hu0)
    have hP1 : |P0 + w x * s x| ≤ W * (T0 + s x) := by
      have := abs_add P0 (w x * s x)
      linarith
    have hsplit : fl (A0 + fl (w x * s x)) - (P0 + w x * s x) =
        (fl (A0 + fl (w x * s x)) - (A0 + fl (w x * s x))) + (A0 - P0) +
          (fl (w x * s x) - w x * s x) := by ring
    have hA1 : |fl (A0 + fl (w x * s x)) - (P0 + w x * s x)| ≤
        ((1 + u) * E - 1) * (W * (T0 + s x)) := by
      rw [hsplit]
      have h3 := abs_add ((fl (A0 + fl (w x * s x)) - (A0 + fl (w x * s x))) + (A0 - P0))
        (fl (w x * s x) - w x * s x)
      have h4 := abs_add (fl (A0 + fl (w x * s x)) - (A0 + fl (w x * s x))) (A0 - P0)
      have h5 : 0 ≤ (1 + u) * (E - (1 + u)) * (W * s x) :=
        mul_nonneg (mul_nonneg (by linarith) (by linarith)) hd
      nlinarith
    have hE' : 1 + u ≤ (1 + u) * E := by nlinarith
    have h6 := ih (fun y hy => hs y (List.mem_cons_of_mem _ hy))
      (fun y hy => hw y (List.mem_cons_of_mem _ hy)) (fl (A0 + fl (w x * s x)))
      (P0 + w x * s x) (T0 + s x) ((1 + u) * E) (by linarith) hE' hP1 hA1
    rw [List.foldl_cons, List.map_cons, List.sum_cons, List.map_cons, List.sum_cons,
      List.length_cons, pow_succ]
    have e1 : P0 + (w x * s x + (xs.map (fun x => w x * s x)).sum) =
        P0 + w x * s x + (xs.map (fun x => w x * s x)).sum := by ring
    have e2 : ((1 + u) ^ xs.length * (1 + u) * E - 1) * (W * (T0 + (s x + (xs.map s).sum))) =
        ((1 + u) ^ xs.length * ((1 + u) * E) - 1) * (W * (T0 + s x + (xs.map s).sum)) := by
      ring
    rw [e1, e2]
    exact h6

/-- An upper bound of `(1 + u) ^ n` for `n * u ≤ 1`. -/
theorem one_add_pow_le (u : ℚ) (hu0 : 0 ≤ u) (n : ℕ) (hn : (n : ℚ) * u ≤ 1) :
    (1 + u) ^ n ≤ 1 + n * u + (n * u) ^ 2 := by
  induction n with
  | zero => simp
  | succ n ih =>
    have hn' : (n : ℚ) * u ≤ 1 := by
      push_cast at hn
      nlinarith
    have h1 := ih hn'
    have hn0 : (0 : ℚ) ≤ n := Nat.cast_nonneg n
    have h2 : (1 + u) ^ (n + 1) ≤ (1 + n * u + (n * u) ^ 2) * (1 + u) := by
      rw [pow_succ]
      exact mul_le_mul_of_nonneg_right h1 (by linarith)
    have h3 : (1 + (n : ℚ) * u + (n * u) ^ 2) * (1 + u) ≤
        1 + ((n : ℚ) + 1) * u + (((n : ℚ) + 1) * u) ^ 2 := by
      have h4 : 0 ≤ (n : ℚ) * (u * u) * (1 - n * u) :=
        mul_nonneg (mul_nonneg hn0 (mul_nonneg hu0 hu0)) (by linarith)
      have h5 : 0 ≤ u * u := mul_nonneg hu0 hu0
      have h6 : 0 ≤ (n : ℚ) * (u * u) := mul_nonneg hn0 h5
      nlinarith
    push_cast
    exact le_trans h2 h3

end RoundedSums

/-! ## The collaborative score on doubles -/

section RoundedMean

/-- The rounded quotient of a rounded weighted sum by a rounded sum of weights, against the exact
quotient. -/
theorem rounded_quotient_error (u θ η g W T S P A c : ℚ) (hu0 : 0 ≤ u) (hθ1 : θ < 1)
    (hθη : θ ≤ η) (hg : 0 ≤ g) (hW : 0 ≤ W) (hT : 0 < T)
    (hS1 : (1 - θ) * T ≤ S) (hS2 : S ≤ (1 + η) * T) (hP : |P| ≤ W * T)
    (hA : |A - P| ≤ g * (W * T)) (hc : |c - A / S| ≤ u * |A / S|) :
    |c - P / T| ≤ (u + (1 + u) * ((g + η) / (1 - θ))) * W := by
  have hθ' : 0 < 1 - θ := by linarith
  have hS : 0 < S := lt_of_lt_of_le (mul_pos hθ' hT) hS1
  have hη : 0 ≤ g + η := by
    have : 0 ≤ η * T := by nlinarith
    have h0 : 0 ≤ η := by
      by_contra hneg
      have := mul_neg_of_neg_of_pos (not_le.1 hneg) hT
      linarith
    linarith
  have hμ : |P / T| ≤ W := by
    rw [abs_div, abs_of_pos hT, div_le_iff₀ hT]
    exact hP
  have hTS : |T - S| ≤ η * T := by
    rw [abs_le]
    constructor
    · linarith
    · have : θ * T ≤ η * T := mul_le_mul_of_nonneg_right hθη (le_of_lt hT)
      linarith
  have hsplit : A - P / T * S = (A - P) + P / T * (T - S) := by
    field_simp
    ring
  have hnum : |A - P / T * S| ≤ (g + η) * (W * T) := by
    rw [hsplit]
    have h1 := abs_add (A - P) (P / T * (T - S))
    have h2 : |P / T * (T - S)| ≤ W * (η * T) := by
      rw [abs_mul]
      exact mul_le_mul hμ hTS (abs_nonneg _) hW
    linarith
  have hD0 : 0 ≤ (g + η) / (1 - θ) := div_nonneg hη (le_of_lt hθ')
  have hq : |A / S - P / T| ≤ (g + η) / (1 - θ) * W := by
    have heq : A / S - P / T = (A - P / T * S) / S := by
      field_simp
      ring
    rw [heq, abs_div, abs_of_pos hS, div_le_iff₀ hS]
    have h3 : (g + η) * (W * T) ≤ (g + η) / (1 - θ) * W * S := by
      have h4 : (g + η) / (1 - θ) * W * S = (g + η) * W * (S / (1 - θ)) := by
        field_simp
      rw [h4]
      have h5 : T ≤ S / (1 - θ) := by
        rw [le_div_iff₀ hθ']
        linarith
      have h6 : (g + η) * W * T ≤ (g + η) * W * (S / (1 - θ)) :=
        mul_le_mul_of_nonneg_left h5 (mul_nonneg hη hW)
      linarith
    linarith
  have hqabs : |A / S| ≤ W + (g + η) / (1 - θ) * W := by
    have h1 := abs_add (A / S - P / T) (P / T)
    rw [sub_add_cancel] at h1
    linarith
  have hc' : |c - A / S| ≤ u * (W + (g + η) / (1 - θ) * W) :=
    le_trans hc (mul_le_mul_of_nonneg_left hqabs hu0)
  have hfin := abs_add (c - A / S) (A / S - P / T)
  rw [sub_add_sub_cancel] at hfin
  have e : (u + (1 + u) * ((g + η) / (1 - θ))) * W =
      u * (W + (g + η) / (1 - θ) * W) + (g + η) / (1 - θ) * W := by ring
  rw [e]
  linarith

/-- The accumulated error of the collaborative score for at most `2 ^ 20` neighbours. -/
theorem rounded_tolerance_le (n : ℕ) (hn : n ≤ 2 ^ 20) :
    (1 : ℚ) / 2 ^ 53 + (1 + 1 / 2 ^ 53) *
        (((1 + 1 / 2 ^ 53) * (1 + (n * (1 / 2 ^ 53) + (n * (1 / 2 ^ 53)) ^ 2)) - 1 +
          (n * (1 / 2 ^ 53) + (n * (1 / 2 ^ 53)) ^ 2)) / (1 - n * (1 / 2 ^ 53))) ≤
      (2 * n + 3) / 2 ^ 53 := by
  have hn0 : (0 : ℚ) ≤ n := Nat.cast_nonneg n
  have hn1 : (n : ℚ) ≤ 2 ^ 20 := by exact_mod_cast hn
  have hq : (n : ℚ) * n ≤ 2 ^ 40 := by
    have := mul_le_mul hn1 hn1 hn0 (by norm_num)
    norm_num at this ⊢
    exact this
  have hq0 : (0 : ℚ) ≤ n * n := mul_nonneg hn0 hn0
  have hden : (0 : ℚ) < 1 - n * (1 / 2 ^ 53) := by linarith
  have hmain : (1 + 1 / 2 ^ 53) *
      (((1 + 1 / 2 ^ 53) * (1 + ((n : ℚ) * (1 / 2 ^ 53) + (n * (1 / 2 ^ 53)) ^ 2)) - 1 +
        (n * (1 / 2 ^ 53) + (n * (1 / 2 ^ 53)) ^ 2)) / (1 - n * (1 / 2 ^ 53))) ≤
      (2 * n + 2) / 2 ^ 53 := by
    rw [← mul_div_assoc, div_le_iff₀ hden]
    generalize hQ : (n : ℚ) * n = Q at hq hq0
    have e1 : ((n : ℚ) * (1 / 2 ^ 53)) ^ 2 = Q * (1 / 2 ^ 53) ^ 2 := by
      rw [← hQ]
      ring
    rw [e1]
    have e2 : (2 * (n : ℚ) + 2) / 2 ^ 53 * (1 - n * (1 / 2 ^ 53)) =
        (2 * n + 2) / 2 ^ 53 - 2 * Q / 2 ^ 106 - 2 * n / 2 ^ 106 := by
      rw [← hQ]
      ring
    rw [e2]
    linarith
  have e3 : (2 * (n : ℚ) + 3) / 2 ^ 53 = 1 / 2 ^ 53 + (2 * n + 2) / 2 ^ 53 := by ring
  rw [e3]
  linarith

end RoundedMean

section RoundedCollaborativeClaims

theorem rounded_findSimilarUsers_pos {α : Type} [LinearOrderedField α] (fl sqrt : α → α)
    (e : Engine α) (profileId : String) (l : List (SimilarUser α))
    (h : Rounded.findSimilarUsers fl sqrt e profileId = .ok l) (s : SimilarUser α)
    (hs : s ∈ l) : 0 < s.similarity := by
  unfold Rounded.findSimilarUsers at h
  split at h
  · cases h
    simp at hs
  · split at h
    · cases h
    · cases h
      have hs' := (sortDesc_perm SimilarUser.similarity _).mem_iff.1 hs
      simpa using (List.mem_filter.1 hs').2

/-- The two accumulators of `getCollaborativeScore` on the list of `findSimilarUsers`. -/
theorem rounded_getCollaborativeScore_eq {α : Type} [LinearOrderedField α] (fl sqrt : α → α)
    (e : Engine α) (profileId contentId : String) (l : List (SimilarUser α))
    (h : Rounded.findSimilarUsers fl sqrt e profileId = .ok l) :
    Rounded.getCollaborativeScore fl sqrt e profileId contentId =
      .ok (if 0 < l.foldl (fun (acc : α) (s : SimilarUser α) => fl (acc + s.similarity)) 0 then
        fl (l.foldl (fun (acc : α) (s : SimilarUser α) =>
            fl (acc + fl (weight e s.id contentId * s.similarity))) 0 /
          l.foldl (fun (acc : α) (s : SimilarUser α) => fl (acc + s.similarity)) 0)
      else 0) := by
  have key := foldl_pair
    (fun (acc : α) (s : SimilarUser α) => fl (acc + fl (weight e s.id contentId * s.similarity)))
    (fun (acc : α) (s : SimilarUser α) => fl (acc + s.similarity)) l 0 0
  simp only at key
  unfold Rounded.getCollaborativeScore
  rw [h]
  simp only [cell_orDefault, key, gt_iff_lt]

theorem except_eq_ok_of_toOption {ε β : Type} (x : Except ε β) (b : β)
    (h : x.toOption = some b) : x = .ok b := by
  cases x with
  | error err => simp [Except.toOption] at h
  | ok v =>
    simp only [Except.toOption, Option.some.injEq] at h
    rw [h]

theorem nineEngine_built : Built nineEngine := ⟨nineLog, rfl⟩

theorem nineEngine_findSimilarUsers :
    Rounded.findSimilarUsers roundDouble sqrtDouble nineEngine "p1" = .ok nineSimilar :=
  except_eq_ok_of_toOption _ _ (by decide!)

/-- C28, refuted as stated: in `nineEngine` the rows of `p1` and `p2` are `{A: 9, B: 0}` and
`{A: 9, B: 3}`, the list of `findSimilarUsers('p1')` holds `p2` alone, with the similarity
`s = 81 / (9 * Math.sqrt(90)) = 0.9486832980505138`, the accumulated weight of `p2` for `B` is
3, and on doubles `getCollaborativeScore('p1', 'B')` returns
`(3 * s) / s = 2.9999999999999996`, below the least weight 3 of the listed neighbours. -/
theorem collaborative_score_below_min :
    Built nineEngine ∧
      Dict.get nineEngine.interactionMatrix "p1" = some nineRow1 ∧
      Dict.get nineEngine.interactionMatrix "p2" = some nineRow2 ∧
      Rounded.findSimilarUsers roundDouble sqrtDouble nineEngine "p1" = .ok nineSimilar ∧
      nineSimilar = [⟨"p2", 4272489747592907 / 4503599627370496⟩] ∧
      weight nineEngine "p2" "B" = 3 ∧
      Rounded.getCollaborativeScore roundDouble sqrtDouble nineEngine "p1" "B" =
        .ok (6755399441055743 / 2251799813685248) ∧
      (6755399441055743 / 2251799813685248 : ℚ) < weight nineEngine "p2" "B" := by
  refine ⟨nineEngine_built, ?_, ?_, nineEngine_findSimilarUsers, rfl, ?_, ?_, ?_⟩
  · decide!
  · decide!
  · decide!
  · exact except_eq_ok_of_toOption _ _ (by decide!)
  · decide!

/-- C28 as amended: when the list `l` returned by `findSimilarUsers(profileId)` on doubles is
non-empty, with `n ≤ 2 ^ 20` entries, and `W` bounds the absolute value of the accumulated
weights for `contentId` of the listed neighbours, `getCollaborativeScore(profileId, contentId)`
returns a value that is at least the least of these weights minus `(2 n + 3) * 2 ^ (-53) * W`
and at most the greatest of them plus `(2 n + 3) * 2 ^ (-53) * W`. -/
theorem collaborative_score_near_between (e : Engine ℚ) (profileId contentId : String)
    (l : List (SimilarUser ℚ)) (W : ℚ)
    (h : Rounded.findSimilarUsers roundDouble sqrtDouble e profileId = .ok l) (hne : l ≠ [])
    (hlen : l.length ≤ 2 ^ 20) (hW : ∀ s ∈ l, |weight e s.id contentId| ≤ W) :
    ∃ c, Rounded.getCollaborativeScore roundDouble sqrtDouble e profileId contentId = .ok c ∧
      (∃ a ∈ l, (∀ s ∈ l, weight e a.id contentId ≤ weight e s.id contentId) ∧
        weight e a.id contentId - (2 * l.length + 3) / 2 ^ 53 * W ≤ c) ∧
      (∃ b ∈ l, (∀ s ∈ l, weight e s.id contentId ≤ weight e b.id contentId) ∧
        c ≤ weight e b.id contentId + (2 * l.length + 3) / 2 ^ 53 * W) := by
  have hall : ∀ s ∈ l, 0 < s.similarity :=
    fun s hs => rounded_findSimilarUsers_pos roundDouble sqrtDouble e profileId l h s hs
  have hu0 : (0 : ℚ) ≤ 1 / 2 ^ 53 := by norm_num
  have hu1 : (1 : ℚ) / 2 ^ 53 ≤ 1 := by norm_num
  have hW0 : 0 ≤ W := by
    obtain ⟨s, hs⟩ := List.exists_mem_of_ne_nil l hne
    exact le_trans (abs_nonneg _) (hW s hs)
  have hT : 0 < (l.map SimilarUser.similarity).sum := by
    apply List.sum_pos _ _ (by simpa using hne)
    intro x hx
    obtain ⟨s, hs, rfl⟩ := List.mem_map.1 hx
    exact hall s hs
  have hn0 : (0 : ℚ) ≤ l.length := Nat.cast_nonneg _
  have hn1 : (l.length : ℚ) ≤ 2 ^ 20 := by exact_mod_cast hlen
  have hnu : (l.length : ℚ) * (1 / 2 ^ 53) ≤ 1 := by linarith
  have hnu' : (l.length : ℚ) * (1 / 2 ^ 53) < 1 := by linarith
  -- the two rounded sums
  obtain ⟨hS1, hS2⟩ := rounded_sum_bounds roundDouble (1 / 2 ^ 53) hu0 hu1 roundDouble_error
    SimilarUser.similarity l hall 0 0 1 1 (le_refl _) zero_le_one (le_refl _) (le_refl _)
    (by norm_num) (by norm_num)
  have hA := rounded_weighted_sum_error roundDouble (1 / 2 ^ 53) hu0 roundDouble_error
    (fun s : SimilarUser ℚ => weight e s.id contentId) SimilarUser.similarity W hW0 l hall hW
    0 0 0 (1 + 1 / 2 ^ 53) (le_refl _) (le_refl _) (by simp) (by simp)
  simp only [mul_one, zero_add] at hS1 hS2 hA
  -- bounds of the powers
  have hpow1 : 1 - (l.length : ℚ) * (1 / 2 ^ 53) ≤ (1 - 1 / 2 ^ 53) ^ l.length := by
    have := one_add_mul_le_pow (by norm_num : (-2 : ℚ) ≤ -(1 / 2 ^ 53)) l.length
    have e1 : (1 : ℚ) + -(1 / 2 ^ 53) = 1 - 1 / 2 ^ 53 := by ring
    rw [e1] at this
    linarith
  have hpow2 := one_add_pow_le (1 / 2 ^ 53) hu0 l.length hnu
  have hS1' : (1 - (l.length : ℚ) * (1 / 2 ^ 53)) * (l.map SimilarUser.similarity).sum ≤
      l.foldl (fun (acc : ℚ) (s : SimilarUser ℚ) => roundDouble (acc + s.similarity)) 0 :=
    le_trans (mul_le_mul_of_nonneg_right hpow1 (le_of_lt hT)) hS1
  have hS2' : l.foldl (fun (acc : ℚ) (s : SimilarUser ℚ) => roundDouble (acc + s.similarity)) 0
      ≤ (1 + ((l.length : ℚ) * (1 / 2 ^ 53) + ((l.length : ℚ) * (1 / 2 ^ 53)) ^ 2)) *
        (l.map SimilarUser.similarity).sum := by
    refine le_trans hS2 (mul_le_mul_of_nonneg_right ?_ (le_of_lt hT))
    linarith
  have hA' : |l.foldl (fun (acc : ℚ) (s : SimilarUser ℚ) =>
        roundDouble (acc + roundDouble (weight e s.id contentId * s.similarity))) 0 -
        (l.map (fun s => weight e s.id contentId * s.similarity)).sum| ≤
      ((1 + 1 / 2 ^ 53) *
          (1 + ((l.length : ℚ) * (1 / 2 ^ 53) + ((l.length : ℚ) * (1 / 2 ^ 53)) ^ 2)) - 1) *
        (W * (l.map SimilarUser.similarity).sum) := by
    refine le_trans hA (mul_le_mul_of_nonneg_right ?_ (mul_nonneg hW0 (le_of_lt hT)))
    have : (1 + 1 / 2 ^ 53 : ℚ) ^ l.length * (1 + 1 / 2 ^ 53) ≤
        (1 + ((l.length : ℚ) * (1 / 2 ^ 53) + ((l.length : ℚ) * (1 / 2 ^ 53)) ^ 2)) *
          (1 + 1 / 2 ^ 53) :=
      mul_le_mul_of_nonneg_right (by linarith) (by norm_num)
    linarith
  -- the exact mean
  have hneg : ∀ s ∈ l, -W ≤ weight e s.id contentId :=
    fun s hs => (abs_le.1 (hW s hs)).1
  have hle : ∀ s ∈ l, weight e s.id contentId ≤ W :=
    fun s hs => (abs_le.1 (hW s hs)).2
  have hP : |(l.map (fun s => weight e s.id contentId * s.similarity)).sum| ≤
      W * (l.map SimilarUser.similarity).sum := by
    rw [abs_le]
    constructor
    · have := weighted_mean_ge (fun s : SimilarUser ℚ => weight e s.id contentId)
        SimilarUser.similarity l (-W) hall hneg
      linarith
    · exact weighted_mean_le (fun s : SimilarUser ℚ => weight e s.id contentId)
        SimilarUser.similarity l W hall hle
  have hSpos : 0 < l.foldl (fun (acc : ℚ) (s : SimilarUser ℚ) =>
      roundDouble (acc + s.similarity)) 0 :=
    lt_of_lt_of_le (mul_pos (by linarith) hT) hS1'
  have hg : (0 : ℚ) ≤ (1 + 1 / 2 ^ 53) *
      (1 + ((l.length : ℚ) * (1 / 2 ^ 53) + ((l.length : ℚ) * (1 / 2 ^ 53)) ^ 2)) - 1 := by
    have h1 : (0 : ℚ) ≤ (l.length : ℚ) * (1 / 2 ^ 53) := mul_nonneg hn0 hu0
    have h2 : (0 : ℚ) ≤ ((l.length : ℚ) * (1 / 2 ^ 53)) ^ 2 := sq_nonneg _
    nlinarith
  have hθη : (l.length : ℚ) * (1 / 2 ^ 53) ≤
      (l.length : ℚ) * (1 / 2 ^ 53) + ((l.length : ℚ) * (1 / 2 ^ 53)) ^ 2 := by
    have h2 : (0 : ℚ) ≤ ((l.length : ℚ) * (1 / 2 ^ 53)) ^ 2 := sq_nonneg _
    linarith
  have herr := rounded_quotient_error (1 / 2 ^ 53) ((l.length : ℚ) * (1 / 2 ^ 53))
    ((l.length : ℚ) * (1 / 2 ^ 53) + ((l.length : ℚ) * (1 / 2 ^ 53)) ^ 2) _ W _ _ _ _ _ hu0
    hnu' hθη hg hW0 hT hS1' hS2' hP hA' (roundDouble_error _)
  have htol := rounded_tolerance_le l.length hlen
  have hfinal := le_trans herr (mul_le_mul_of_nonneg_right htol hW0)
  rw [abs_le] at hfinal
  refine ⟨_, by rw [rounded_getCollaborativeScore_eq roundDouble sqrtDouble e profileId
    contentId l h, if_pos hSpos], ?_, ?_⟩
  · obtain ⟨a, ha, hmin⟩ := exists_min_image (fun s : SimilarUser ℚ => weight e s.id contentId)
      l hne
    refine ⟨a, ha, hmin, ?_⟩
    have hmean : weight e a.id contentId ≤
        (l.map (fun s => weight e s.id contentId * s.similarity)).sum /
          (l.map SimilarUser.similarity).sum := by
      rw [le_div_iff₀ hT]
      exact weighted_mean_ge (fun s : SimilarUser ℚ => weight e s.id contentId)
        SimilarUser.similarity l _ hall hmin
    linarith [hfinal.1]
  · obtain ⟨b, hb, hmax⟩ := exists_max_image (fun s : SimilarUser ℚ => weight e s.id contentId)
      l hne
    refine ⟨b, hb, hmax, ?_⟩
    have hmean : (l.map (fun s => weight e s.id contentId * s.similarity)).sum /
        (l.map SimilarUser.similarity).sum ≤ weight e b.id contentId := by
      rw [div_le_iff₀ hT]
      exact weighted_mean_le (fun s : SimilarUser ℚ => weight e s.id contentId)
        SimilarUser.similarity l _ hall hmax
    linarith [hfinal.2]

/-- C28 as amended, at the profile `p1` and the item `B` of `nineEngine`: one neighbour, of
weight 3. -/
theorem collaborative_score_near_between_witness :
    Rounded.findSimilarUsers roundDouble sqrtDouble nineEngine "p1" = .ok nineSimilar ∧
      nineSimilar ≠ [] ∧ nineSimilar.length ≤ 2 ^ 20 ∧
      (∀ s ∈ nineSimilar, |weight nineEngine s.id "B"| ≤ 3) ∧
      ∃ c, Rounded.getCollaborativeScore roundDouble sqrtDouble nineEngine "p1" "B" = .ok c ∧
        (∃ a ∈ nineSimilar,
          (∀ s ∈ nineSimilar, weight nineEngine a.id "B" ≤ weight nineEngine s.id "B") ∧
          weight nineEngine a.id "B" - (2 * nineSimilar.length + 3) / 2 ^ 53 * 3 ≤ c) ∧
        (∃ b ∈ nineSimilar,
          (∀ s ∈ nineSimilar, weight nineEngine s.id "B" ≤ weight nineEngine b.id "B") ∧
          c ≤ weight nineEngine b.id "B" + (2 * nineSimilar.length + 3) / 2 ^ 53 * 3) :=
  have hne : nineSimilar ≠ [] := by decide
  have hlen : nineSimilar.length ≤ 2 ^ 20 := by decide
  have hW : ∀ s ∈ nineSimilar, |weight nineEngine s.id "B"| ≤ 3 := by
    intro s hs
    rw [nineSimilar, List.mem_singleton] at hs
    rw [hs]
    decide!
  ⟨nineEngine_findSimilarUsers, hne, hlen, hW,
    collaborative_score_near_between nineEngine "p1" "B" nineSimilar 3
      nineEngine_findSimilarUsers hne hlen hW⟩

end RoundedCollaborativeClaims

end Recommendation
